import Mathlib

/-!
Verification of the minesweeper rules engine (`src/lib/index.ts`).

The engine is embedded shallowly: the two per-game grids (`blocks` and
`mines`) are row-major `List (List Int)` exactly as in the source, game
counters are `Int` (JS numbers restricted to the integers the code produces),
and public coordinates are `Int` (the `Number.isInteger` checks of the source
are inherent in the type).  `Math.random` draws are passed to `restart` as an
explicit stream, and `Date.now()` / `startedAt` is not modelled (no property
below mentions time).  Exceptions (`OUT_TO_BOUNDARY`) become `Except` values;
the source raises them before any mutation, so an error never changes state.
-/

set_option linter.unusedVariables false

namespace Minesweeper

/-- `EBlockStatus.UNKNWON`: a block not explored yet. -/
def UNKNWON : Int := -1

/-- `EBlockStatus.MARKED`: a block marked as mine. -/
def MARKED : Int := -2

/-- `EBlockStatus.QUESTION`: a block marked as questioned. -/
def QUESTION : Int := -3

/-- `EBlockStatus.WRONG`: a wrongly marked block (not mine but marked). -/
def WRONG : Int := -4

/-- `EBlockStatus.MINE`: a revealed mine (after a loss). -/
def MINE : Int := -5

/-- `EBlockStatus.DEAD`: the mine that exploded. -/
def DEAD : Int := -6

/-- The `MINE_FLAG` sentinel of the `mines` matrix. -/
def MINE_FLAG : Int := -1

/-- `EGameStatus` of the source. -/
inductive EGameStatus where
  | PLAYING
  | WIN
  | FAILED
deriving DecidableEq, Repr, Inhabited

/-- `EMarkStyle` of the source. -/
inductive EMarkStyle where
  | UNMARKED
  | MINE
  | QUESTION
deriving DecidableEq, Repr

/-- A row-major integer matrix (`number[][]` in the source). -/
abbrev Grid := List (List Int)

/-- Read `m[y][x]`; the default `0` is never exercised by guarded accesses. -/
def getCell (m : Grid) (y x : Nat) : Int := (m.getD y []).getD x 0

/-- Write `m[y][x] = v` (no-op outside the actual list extents, like JS
assignment never growing the arrays the code allocates). -/
def setCell (m : Grid) (y x : Nat) (v : Int) : Grid :=
  m.set y ((m.getD y []).set x v)

/-- The game state: the `IContext` fields of the source plus the fixed
`IPrivateData` fields (`startedAt` is not modelled). -/
structure Game where
  height : Nat
  width : Nat
  mineQuantity : Nat
  showMinesOnlyOnFailed : Bool
  /-- `context.blocks`: the mark status of points. -/
  blocks : Grid
  /-- `context.mines`: the matrix of mines mapping. -/
  mines : Grid
  /-- `context.unmarkedMines`: the quantity of unmarked mines. -/
  unmarkedMines : Int
  /-- `context.unknowns`. -/
  unknowns : Int
  /-- `context.status`. -/
  status : EGameStatus
deriving DecidableEq, Repr, Inhabited

/-- `MineSweeper._checkCoordinate`: integer coordinates inside the map. -/
def checkCoordinate (g : Game) (x y : Int) : Bool :=
  decide (0 ≤ x) && decide (x < (g.width : Int)) &&
    decide (0 ≤ y) && decide (y < (g.height : Int))

/-- `MineSweeper.getBlock`. -/
def getBlock (g : Game) (x y : Int) : Except String Int :=
  if checkCoordinate g x y then .ok (getCell g.blocks y.toNat x.toNat)
  else .error "OUT_TO_BOUNDARY"

/-- The 3×3 square around `(x, y)` minus the centre, in the iteration order
of `_findBlocksAround` (`cY` outer from `y - 1`, `cX` inner from `x - 1`). -/
def neighborCandidates (x y : Nat) : List (Int × Int) :=
  [((x : Int) - 1, (y : Int) - 1), ((x : Int), (y : Int) - 1), ((x : Int) + 1, (y : Int) - 1),
   ((x : Int) - 1, (y : Int)), ((x : Int) + 1, (y : Int)),
   ((x : Int) - 1, (y : Int) + 1), ((x : Int), (y : Int) + 1), ((x : Int) + 1, (y : Int) + 1)]

/-- `MineSweeper._findBlocksAround`: the up-to-8 in-bounds neighbours. -/
def findBlocksAround (g : Game) (x y : Nat) : List (Nat × Nat) :=
  (neighborCandidates x y).filterMap (fun c =>
    if checkCoordinate g c.1 c.2 then some (c.1.toNat, c.2.toNat) else none)

/-- Count the cells of a grid satisfying `p`. -/
def countCells (m : Grid) (p : Int → Bool) : Nat :=
  (m.map (fun r => r.countP p)).sum

/-- The cell is displayed `UNKNWON`. -/
def isU (v : Int) : Bool := v == UNKNWON

/-- The cell is displayed `UNKNWON` or `QUESTION` (it counts as unknown). -/
def isUQ (v : Int) : Bool := v == UNKNWON || v == QUESTION

/-- The cell is displayed `MARKED`. -/
def isMarked (v : Int) : Bool := v == MARKED

/-- The cell is revealed (displays a neighbour count). -/
def isRev (v : Int) : Bool := decide (0 ≤ v)

/-- An indexed map over one row (index starts at `x0`). -/
def idxMapRow (f : Nat → Int → Int) : Nat → List Int → List Int
  | _, [] => []
  | x, v :: r => f x v :: idxMapRow f (x + 1) r

/-- An indexed map over a grid (row index starts at `y0`). -/
def idxMapGrid (f : Nat → Nat → Int → Int) : Nat → Grid → Grid
  | _, [] => []
  | y, row :: rest => idxMapRow (f y) 0 row :: idxMapGrid f (y + 1) rest

/-- The loop body of `_checkWin`: display every actual mine cell as
`MARKED` (the loop ranges over `x < width`, `y < height`). -/
def flagMines (g : Game) : Grid :=
  idxMapGrid (fun y x v =>
    if y < g.height ∧ x < g.width ∧ getCell g.mines y x = MINE_FLAG then MARKED else v)
    0 g.blocks

/-- `MineSweeper._checkWin`. -/
def checkWin (g : Game) : Game :=
  if g.unknowns = g.unmarkedMines then
    { g with status := .WIN, unmarkedMines := 0, unknowns := 0, blocks := flagMines g }
  else g

/-- The per-cell normalisation rule of the `_die` loop. -/
def dieCell (showOnly : Bool) (m v : Int) : Int :=
  if v = MARKED then (if m ≠ MINE_FLAG then WRONG else v)
  else if v = QUESTION ∨ v = UNKNWON then
    (if m = MINE_FLAG then MINE else if ¬ showOnly then m else v)
  else v

/-- `MineSweeper._die`: mark the swept cell `DEAD`, set the status to
`FAILED`, then normalise the whole board in one pass (the swept cell is
already `DEAD` when the loop reads it, so the loop leaves it alone). -/
def die (g : Game) (x y : Nat) : Game :=
  { g with
    status := .FAILED
    blocks := idxMapGrid (fun yy xx v =>
      if yy < g.height ∧ xx < g.width then
        dieCell g.showMinesOnlyOnFailed (getCell g.mines yy xx) v
      else v) 0 (setCell g.blocks y x DEAD) }

/-- One neighbour step inside `_cleanBlock`: an `UNKNWON` neighbour gets its
`mines` value copied into `blocks` and `unknowns` decremented; reveals of
value `0` are queued in `nextBlks` for recursion. -/
def revStep (acc : Game × List (Nat × Nat)) (b : Nat × Nat) : Game × List (Nat × Nat) :=
  if getCell acc.1.blocks b.2 b.1 = UNKNWON then
    ({ acc.1 with
       blocks := setCell acc.1.blocks b.2 b.1 (getCell acc.1.mines b.2 b.1)
       unknowns := acc.1.unknowns - 1 },
     if getCell acc.1.mines b.2 b.1 = 0 then acc.2 ++ [b] else acc.2)
  else acc

/-- The neighbour loop of `_cleanBlock` at `(x, y)`: the updated game and the
`nextBlks` list. -/
def revealAround (g : Game) (x y : Nat) : Game × List (Nat × Nat) :=
  (findBlocksAround g x y).foldl revStep (g, [])

theorem countP_set_add (p : Int → Bool) (l : List Int) (x : Nat) (v : Int)
    (h : x < l.length) :
    (l.set x v).countP p + (if p (l.getD x 0) then 1 else 0)
      = l.countP p + (if p v then 1 else 0) := by
  induction l generalizing x with
  | nil => simp at h
  | cons a t ih =>
    cases x with
    | zero =>
      simp only [List.set_cons_zero, List.countP_cons, List.getD_cons_zero]
      omega
    | succ n =>
      simp only [List.set_cons_succ, List.countP_cons, List.getD_cons_succ]
      have := ih n (by simpa using h)
      omega

theorem gridSum_set_add (p : Int → Bool) (m : Grid) (y : Nat) (r : List Int)
    (h : y < m.length) :
    ((m.set y r).map (fun row => row.countP p)).sum + (m.getD y []).countP p
      = (m.map (fun row => row.countP p)).sum + r.countP p := by
  induction m generalizing y with
  | nil => simp at h
  | cons a t ih =>
    cases y with
    | zero =>
      simp only [List.set_cons_zero, List.map_cons, List.sum_cons, List.getD_cons_zero]
      omega
    | succ n =>
      simp only [List.set_cons_succ, List.map_cons, List.sum_cons, List.getD_cons_succ]
      have := ih n (by simpa using h)
      omega

theorem countCells_setCell_add (p : Int → Bool) (m : Grid) (y x : Nat) (v : Int)
    (hy : y < m.length) (hx : x < (m.getD y []).length) :
    countCells (setCell m y x v) p + (if p (getCell m y x) then 1 else 0)
      = countCells m p + (if p v then 1 else 0) := by
  unfold countCells setCell getCell
  have h1 := gridSum_set_add p m y ((m.getD y []).set x v) hy
  have h2 := countP_set_add p (m.getD y []) x v hx
  omega

theorem getCell_pos_of_ne_zero {m : Grid} {y x : Nat} (h : getCell m y x ≠ 0) :
    y < m.length ∧ x < (m.getD y []).length := by
  unfold getCell at h
  by_cases hy : y < m.length
  · refine ⟨hy, ?_⟩
    by_cases hx : x < (m.getD y []).length
    · exact hx
    · exact absurd (List.getD_eq_default _ _ (Nat.le_of_not_lt hx)) h
  · exfalso
    apply h
    rw [List.getD_eq_default _ _ (Nat.le_of_not_lt hy)]
    simp [List.getD]

theorem revStep_measure (acc : Game × List (Nat × Nat)) (b : Nat × Nat) :
    countCells (revStep acc b).1.blocks isU + (revStep acc b).2.length
      ≤ countCells acc.1.blocks isU + acc.2.length := by
  unfold revStep
  by_cases h : getCell acc.1.blocks b.2 b.1 = UNKNWON
  · rw [if_pos h]
    have hpos : getCell acc.1.blocks b.2 b.1 ≠ 0 := by
      rw [h]; unfold UNKNWON; omega
    obtain ⟨hy, hx⟩ := getCell_pos_of_ne_zero hpos
    have hU : isU (getCell acc.1.blocks b.2 b.1) = true := by
      unfold isU; rw [h]; exact beq_self_eq_true UNKNWON
    dsimp only
    generalize getCell acc.1.mines b.2 b.1 = v
    have hcnt := countCells_setCell_add isU acc.1.blocks b.2 b.1 v hy hx
    rw [hU] at hcnt
    simp at hcnt
    by_cases hv : v = 0
    · subst hv
      have hvU : isU 0 = false := by decide
      rw [hvU] at hcnt
      simp only [Bool.false_eq_true, if_false] at hcnt
      simp [List.length_append]
      omega
    · rw [if_neg hv]
      cases hb : isU v with
      | true => rw [hb] at hcnt; simp at hcnt; omega
      | false =>
        rw [hb] at hcnt
        simp only [Bool.false_eq_true, if_false] at hcnt
        omega
  · rw [if_neg h]

theorem foldl_revStep_measure (l : List (Nat × Nat)) (acc : Game × List (Nat × Nat)) :
    countCells (l.foldl revStep acc).1.blocks isU + (l.foldl revStep acc).2.length
      ≤ countCells acc.1.blocks isU + acc.2.length := by
  induction l generalizing acc with
  | nil => exact Nat.le_refl _
  | cons a t ih =>
    simp only [List.foldl_cons]
    exact Nat.le_trans (ih (revStep acc a)) (revStep_measure acc a)

theorem revealAround_measure (g : Game) (x y : Nat) :
    countCells (revealAround g x y).1.blocks isU + (revealAround g x y).2.length
      ≤ countCells g.blocks isU := by
  have := foldl_revStep_measure (findBlocksAround g x y) (g, [])
  simpa using this

/-- `MineSweeper._cleanBlock` as an explicit worklist: each head is handled
exactly as one call of the source's recursion (bounds check, zero check,
neighbour reveal, then recursion into the freshly revealed zero cells,
depth-first because `nextBlks` is pushed in front). -/
def floodFill (g : Game) (wl : List (Nat × Nat)) : Game :=
  match wl with
  | [] => g
  | c :: rest =>
    if c.1 < g.width ∧ c.2 < g.height ∧ getCell g.mines c.2 c.1 = 0 then
      floodFill (revealAround g c.1 c.2).1 ((revealAround g c.1 c.2).2 ++ rest)
    else floodFill g rest
termination_by countCells g.blocks isU + wl.length
decreasing_by
  · have h := revealAround_measure g c.1 c.2
    simp only [List.length_append, List.length_cons]
    omega
  · simp only [List.length_cons]
    omega

/-- The body of `sweep` once `getBlock` has succeeded, at in-bounds `(x, y)`. -/
def sweepGo (g : Game) (x y : Nat) : Game :=
  if g.status ≠ .PLAYING ∨ getCell g.blocks y x ≠ UNKNWON then g
  else if getCell g.mines y x = MINE_FLAG then die g x y
  else
    let g1 := { g with blocks := setCell g.blocks y x (getCell g.mines y x) }
    let g2 := floodFill g1 [(x, y)]
    checkWin { g2 with unknowns := g2.unknowns - 1 }

/-- `MineSweeper.sweep`; the `OUT_TO_BOUNDARY` error propagates from its
`getBlock` call, which runs before any other check. -/
def sweep (g : Game) (x y : Int) : Except String (Game × EGameStatus) :=
  match getBlock g x y with
  | .error e => .error e
  | .ok _ => .ok (sweepGo g x.toNat y.toNat, (sweepGo g x.toNat y.toNat).status)

/-- `MineSweeper.mark`. -/
def mark (g : Game) (x y : Int) (style : EMarkStyle) : Except String (Game × Bool) :=
  if g.status ≠ .PLAYING then .ok (g, false)
  else match getBlock g x y with
    | .error e => .error e
    | .ok blk =>
      if blk = MARKED then
        match style with
        | .MINE => .ok (checkWin g, true)
        | .UNMARKED => .ok (checkWin { g with
            unmarkedMines := g.unmarkedMines + 1
            unknowns := g.unknowns + 1
            blocks := setCell g.blocks y.toNat x.toNat UNKNWON }, true)
        | .QUESTION => .ok (checkWin { g with
            unmarkedMines := g.unmarkedMines + 1
            unknowns := g.unknowns + 1
            blocks := setCell g.blocks y.toNat x.toNat QUESTION }, true)
      else if blk = QUESTION then
        match style with
        | .MINE => .ok (checkWin { g with
            unmarkedMines := g.unmarkedMines - 1
            unknowns := g.unknowns - 1
            blocks := setCell g.blocks y.toNat x.toNat MARKED }, true)
        | .UNMARKED => .ok (checkWin { g with
            blocks := setCell g.blocks y.toNat x.toNat UNKNWON }, true)
        | .QUESTION => .ok (checkWin g, true)
      else if blk = UNKNWON then
        match style with
        | .MINE => .ok (checkWin { g with
            unmarkedMines := g.unmarkedMines - 1
            unknowns := g.unknowns - 1
            blocks := setCell g.blocks y.toNat x.toNat MARKED }, true)
        | .UNMARKED => .ok (checkWin g, true)
        | .QUESTION => .ok (checkWin { g with
            blocks := setCell g.blocks y.toNat x.toNat QUESTION }, true)
      else .ok (g, false)

/-- The neighbour-sweeping loop of `explore`: sweep each still-`UNKNWON`
neighbour in turn, stopping as soon as the status leaves `PLAYING`. -/
def exploreStep (g : Game) (b : Nat × Nat) : Game :=
  if getCell g.blocks b.2 b.1 = UNKNWON then sweepGo g b.1 b.2 else g

def exploreLoop (g : Game) : List (Nat × Nat) → Game
  | [] => g
  | b :: bs =>
    if (exploreStep g b).status ≠ .PLAYING then exploreStep g b
    else exploreLoop (exploreStep g b) bs

/-- `MineSweeper.explore` (the `reduce` counting flagged neighbours is the
length of the corresponding filter). -/
def explore (g : Game) (x y : Int) : Except String (Game × EGameStatus) :=
  match getBlock g x y with
  | .error e => .error e
  | .ok blk =>
    if g.status ≠ .PLAYING ∨ blk < 0 then .ok (g, g.status)
    else if ((((findBlocksAround g x.toNat y.toNat).filter
          (fun b => getCell g.blocks b.2 b.1 == MARKED)).length : Int)
        ≥ getCell g.mines y.toNat x.toNat) then
      .ok (exploreLoop g (findBlocksAround g x.toNat y.toNat),
           (exploreLoop g (findBlocksAround g x.toNat y.toNat)).status)
    else .ok (g, g.status)

/-- The 3×3 square centred at `(x, y)` in the iteration order of the
mine-placement loop of `restart` (`i` outer from `y - 1`, `j` inner). -/
def square3 (x y : Nat) : List (Int × Int) :=
  [((x : Int) - 1, (y : Int) - 1), ((x : Int), (y : Int) - 1), ((x : Int) + 1, (y : Int) - 1),
   ((x : Int) - 1, (y : Int)), ((x : Int), (y : Int)), ((x : Int) + 1, (y : Int)),
   ((x : Int) - 1, (y : Int) + 1), ((x : Int), (y : Int) + 1), ((x : Int) + 1, (y : Int) + 1)]

/-- One mine placement of `restart`: set `(x, y)` to `MINE_FLAG`, then bump
every in-bounds cell of the surrounding square that is not itself a mine
(the just-placed centre is skipped by that very check). -/
def bumpStep (g : Game) (m : Grid) (c : Int × Int) : Grid :=
  if checkCoordinate g c.1 c.2 ∧ getCell m c.2.toNat c.1.toNat ≠ MINE_FLAG then
    setCell m c.2.toNat c.1.toNat (getCell m c.2.toNat c.1.toNat + 1)
  else m

/-- One mine placement of `restart` (continued): fold the bump over the
square. -/
def placeOne (g : Game) (x y : Nat) : Game :=
  { g with mines := (square3 x y).foldl (bumpStep g) (setCell g.mines y x MINE_FLAG) }

/-- The rejection-sampling loop of `restart`; `draws` is the stream of
`(y, x)` picks produced by the two `Math.random` calls per iteration (such
picks are always in range, so an out-of-range pair means the stream is
invalid).  `none` when the stream ends before placement completes. -/
def placeMines (g : Game) : Nat → List (Nat × Nat) → Option Game
  | 0, _ => some g
  | _ + 1, [] => none
  | n + 1, (y, x) :: ds =>
    if y < g.height ∧ x < g.width then
      if getCell g.mines y x = MINE_FLAG then placeMines g (n + 1) ds
      else placeMines (placeOne g x y) n ds
    else none

/-- The context reset at the top of `restart`: all cells `UNKNWON`, all mine
counts `0`, fresh counters, status `PLAYING`. -/
def resetGame (g : Game) : Game :=
  { g with
    blocks := List.replicate g.height (List.replicate g.width UNKNWON)
    mines := List.replicate g.height (List.replicate g.width 0)
    unmarkedMines := (g.mineQuantity : Int)
    unknowns := ((g.height * g.width : Nat) : Int)
    status := .PLAYING }

/-- `MineSweeper.restart` with an explicit stream of random draws
(`startedAt := Date.now()` is not modelled). -/
def restartWith (g : Game) (draws : List (Nat × Nat)) : Option Game :=
  placeMines (resetGame g) g.mineQuantity draws

/-- The constructor validation of `MineSweeper` (the `Number.isInteger`
checks are inherent in `Int`; the two throw sites collapse to `false`). -/
def validParams (height width mineQuantity : Int) : Bool :=
  decide (1 ≤ mineQuantity) && decide (2 ≤ height) && decide (2 ≤ mineQuantity)
    && decide (mineQuantity < width * height)

/-- `new MineSweeper(height, width, mineQuantity, showOnly)`: validate, then
`restart` with the given stream of draws. -/
def newGame (height width mineQuantity : Int) (showOnly : Bool)
    (draws : List (Nat × Nat)) : Option Game :=
  if validParams height width mineQuantity then
    restartWith
      { height := height.toNat
        width := width.toNat
        mineQuantity := mineQuantity.toNat
        showMinesOnlyOnFailed := showOnly
        blocks := []
        mines := []
        unmarkedMines := 0
        unknowns := 0
        status := .PLAYING } draws
  else none

/-- `MineSweeper.getRestMineQuantity`. -/
def getRestMineQuantity (g : Game) : Int := g.unmarkedMines

/-- `MineSweeper.getStatus`. -/
def getStatus (g : Game) : EGameStatus := g.status

/-- One public action of the engine. -/
inductive GAction where
  | mark (x y : Int) (style : EMarkStyle)
  | sweep (x y : Int)
  | explore (x y : Int)
  | restart (draws : List (Nat × Nat))

/-- Apply one public action; a raised `OUT_TO_BOUNDARY` leaves the state
unchanged (the source raises it before any mutation), and a restart whose
random stream does not complete placement is not a finished action. -/
def applyAction (g : Game) : GAction → Game
  | .mark x y s => match mark g x y s with | .ok p => p.1 | .error _ => g
  | .sweep x y => match sweep g x y with | .ok p => p.1 | .error _ => g
  | .explore x y => match explore g x y with | .ok p => p.1 | .error _ => g
  | .restart ds => (restartWith g ds).getD g

/-- Apply a sequence of public actions. -/
def applyActions (g : Game) (acts : List GAction) : Game :=
  acts.foldl applyAction g

/-- A state is reachable when some valid construction followed by some
sequence of public actions produces it. -/
def Reachable (g : Game) : Prop :=
  ∃ h w m showOnly draws acts g0,
    newGame h w m showOnly draws = some g0 ∧ applyActions g0 acts = g

/-- Read a cell of the `blocks` grid at `c = (x, y)`. -/
def bget (g : Game) (c : Nat × Nat) : Int := getCell g.blocks c.2 c.1

/-- Read a cell of the `mines` grid at `c = (x, y)`. -/
def mget (g : Game) (c : Nat × Nat) : Int := getCell g.mines c.2 c.1

/-- `c = (x, y)` lies on the map. -/
def inBounds (g : Game) (c : Nat × Nat) : Prop := c.1 < g.width ∧ c.2 < g.height

/-- The grid is an `h × w` matrix. -/
def gridShape (m : Grid) (h w : Nat) : Prop :=
  m.length = h ∧ ∀ y < h, (m.getD y []).length = w

theorem length_setCell (m : Grid) (y x : Nat) (v : Int) :
    (setCell m y x v).length = m.length := List.length_set ..

theorem getD_set_self (l : List Int) (i : Nat) (v : Int) (h : i < l.length) :
    (l.set i v).getD i 0 = v := by
  simp [List.getD, List.getElem?_set_self, h]

theorem getD_set_ne (l : List Int) (i j : Nat) (v : Int) (h : i ≠ j) :
    (l.set i v).getD j 0 = l.getD j 0 := by
  simp [List.getD, List.getElem?_set_ne h]

theorem getDrow_set_self (m : Grid) (i : Nat) (r : List Int) (h : i < m.length) :
    (m.set i r).getD i [] = r := by
  simp [List.getD, List.getElem?_set_self, h]

theorem getDrow_set_ne (m : Grid) (i j : Nat) (r : List Int) (h : i ≠ j) :
    (m.set i r).getD j [] = m.getD j [] := by
  simp [List.getD, List.getElem?_set_ne h]

theorem rowLen_setCell (m : Grid) (y x : Nat) (v : Int) (i : Nat) :
    ((setCell m y x v).getD i []).length = (m.getD i []).length := by
  unfold setCell
  by_cases h : y = i
  · subst h
    by_cases hl : y < m.length
    · rw [getDrow_set_self m y _ hl, List.length_set]
    · rw [List.set_eq_of_length_le (by omega)]
  · rw [getDrow_set_ne m y i _ h]

theorem gridShape_setCell {m : Grid} {h w : Nat} (hs : gridShape m h w)
    (y x : Nat) (v : Int) : gridShape (setCell m y x v) h w := by
  obtain ⟨h1, h2⟩ := hs
  exact ⟨by rw [length_setCell, h1], fun i hi => by rw [rowLen_setCell]; exact h2 i hi⟩

theorem getCell_setCell_self (m : Grid) (y x : Nat) (v : Int)
    (hy : y < m.length) (hx : x < (m.getD y []).length) :
    getCell (setCell m y x v) y x = v := by
  unfold getCell setCell
  rw [getDrow_set_self m y _ hy, getD_set_self _ x v hx]

theorem getCell_setCell_ne (m : Grid) (y x : Nat) (v : Int) (i j : Nat)
    (h : ¬(i = y ∧ j = x)) :
    getCell (setCell m y x v) i j = getCell m i j := by
  unfold getCell setCell
  by_cases hy : y = i
  · subst hy
    by_cases hl : y < m.length
    · rw [getDrow_set_self m y _ hl, getD_set_ne _ x j v (by tauto)]
    · rw [List.set_eq_of_length_le (by omega)]
  · rw [getDrow_set_ne m y i _ hy]

theorem getCell_out_left {m : Grid} {y x : Nat} (h : m.length ≤ y) :
    getCell m y x = 0 := by
  unfold getCell
  rw [List.getD_eq_default _ _ h]
  simp [List.getD]

theorem getCell_out_right {m : Grid} {y x : Nat} (h : (m.getD y []).length ≤ x) :
    getCell m y x = 0 := by
  unfold getCell
  exact List.getD_eq_default _ _ h

theorem getCell_replicate (h w y x : Nat) (v : Int) (hy : y < h) (hx : x < w) :
    getCell (List.replicate h (List.replicate w v)) y x = v := by
  unfold getCell
  simp [List.getD_eq_getElem?_getD, List.getElem?_replicate, hy, hx]

theorem gridShape_replicate (h w : Nat) (v : Int) :
    gridShape (List.replicate h (List.replicate w v)) h w := by
  refine ⟨List.length_replicate .., fun y hy => ?_⟩
  rw [List.getD_eq_getElem?_getD, List.getElem?_replicate]
  simp [hy]

theorem idxMapRow_length (f : Nat → Int → Int) (x0 : Nat) (r : List Int) :
    (idxMapRow f x0 r).length = r.length := by
  induction r generalizing x0 with
  | nil => rfl
  | cons a t ih => simp [idxMapRow, ih]

theorem idxMapGrid_length (f : Nat → Nat → Int → Int) (y0 : Nat) (m : Grid) :
    (idxMapGrid f y0 m).length = m.length := by
  induction m generalizing y0 with
  | nil => rfl
  | cons r t ih => simp [idxMapGrid, ih]

theorem getDrow_idxMapGrid (f : Nat → Nat → Int → Int) (y0 y : Nat) (m : Grid) :
    (idxMapGrid f y0 m).getD y [] = idxMapRow (f (y0 + y)) 0 (m.getD y []) := by
  induction m generalizing y0 y with
  | nil => simp [idxMapGrid, List.getD, idxMapRow]
  | cons r t ih =>
    cases y with
    | zero => simp [idxMapGrid, List.getD]
    | succ n =>
      simp only [idxMapGrid, List.getD_cons_succ]
      rw [ih (y0 + 1) n]
      have he : y0 + 1 + n = y0 + (n + 1) := by omega
      rw [he]

theorem getD_idxMapRow (f : Nat → Int → Int) (x0 x : Nat) (r : List Int) :
    (idxMapRow f x0 r).getD x 0
      = if x < r.length then f (x0 + x) (r.getD x 0) else 0 := by
  induction r generalizing x0 x with
  | nil => simp [idxMapRow, List.getD]
  | cons a t ih =>
    cases x with
    | zero => simp [idxMapRow, List.getD]
    | succ n =>
      simp only [idxMapRow, List.getD_cons_succ, List.length_cons]
      rw [ih (x0 + 1) n]
      have he : x0 + 1 + n = x0 + (n + 1) := by omega
      rw [he]
      by_cases h : n < t.length
      · rw [if_pos h, if_pos (by omega : n + 1 < t.length + 1)]
      · rw [if_neg h, if_neg (by omega : ¬ n + 1 < t.length + 1)]

theorem getCell_idxMapGrid (f : Nat → Nat → Int → Int) (m : Grid) (y x : Nat) :
    getCell (idxMapGrid f 0 m) y x
      = if x < (m.getD y []).length then f y x (getCell m y x) else 0 := by
  unfold getCell
  rw [getDrow_idxMapGrid, getD_idxMapRow]
  simp

theorem idxMapGrid_rowLen (f : Nat → Nat → Int → Int) (m : Grid) (y : Nat) :
    ((idxMapGrid f 0 m).getD y []).length = (m.getD y []).length := by
  rw [getDrow_idxMapGrid, idxMapRow_length]

theorem gridShape_idxMapGrid {m : Grid} {h w : Nat} (hs : gridShape m h w)
    (f : Nat → Nat → Int → Int) : gridShape (idxMapGrid f 0 m) h w := by
  obtain ⟨h1, h2⟩ := hs
  exact ⟨by rw [idxMapGrid_length, h1],
    fun y hy => by rw [idxMapGrid_rowLen]; exact h2 y hy⟩

/-- 8-neighbourhood adjacency of two distinct cells (`(x, y)` pairs). -/
def nbr (a b : Nat × Nat) : Prop :=
  a ≠ b ∧ a.1 ≤ b.1 + 1 ∧ b.1 ≤ a.1 + 1 ∧ a.2 ≤ b.2 + 1 ∧ b.2 ≤ a.2 + 1

instance (a b : Nat × Nat) : Decidable (nbr a b) := by
  unfold nbr
  infer_instance

theorem nbr_symm {a b : Nat × Nat} (h : nbr a b) : nbr b a := by
  obtain ⟨h1, h2, h3, h4, h5⟩ := h
  exact ⟨fun hc => h1 hc.symm, h3, h2, h5, h4⟩

theorem mem_findBlocksAround {g : Game} {x y : Nat} {b : Nat × Nat} :
    b ∈ findBlocksAround g x y
      ↔ b.1 < g.width ∧ b.2 < g.height ∧ nbr (x, y) b := by
  unfold findBlocksAround neighborCandidates checkCoordinate nbr
  simp only [List.mem_filterMap, List.mem_cons, List.not_mem_nil, or_false,
    Bool.and_eq_true, decide_eq_true_eq, Prod.ext_iff, ne_eq, not_and]
  constructor
  · rintro ⟨⟨cx, cy⟩, hc, hin⟩
    simp only at hc hin
    split at hin
    · rename_i hco
      obtain rfl : (cx.toNat, cy.toNat) = b := Option.some_inj.mp hin
      simp only
      rcases hc with ⟨e1, e2⟩ | ⟨e1, e2⟩ | ⟨e1, e2⟩ | ⟨e1, e2⟩ | ⟨e1, e2⟩ | ⟨e1, e2⟩ | ⟨e1, e2⟩ | ⟨e1, e2⟩ <;>
        subst e1 <;> subst e2 <;> omega
    · exact absurd hin (by simp)
  · rintro ⟨hw, hh, hne, b1, b2, b3, b4⟩
    refine ⟨((b.1 : Int), (b.2 : Int)), ?_, ?_⟩
    · simp only
      omega
    · simp only
      split
      · simp
      · rename_i hcon
        exact absurd (by omega) hcon

theorem isUQ_false_of_nonneg {v : Int} (h : 0 ≤ v) : isUQ v = false := by
  simp only [isUQ, UNKNWON, QUESTION, Bool.or_eq_false_iff, beq_eq_false_iff_ne, ne_eq]
  omega

theorem isMarked_false_of_nonneg {v : Int} (h : 0 ≤ v) : isMarked v = false := by
  simp only [isMarked, MARKED, beq_eq_false_iff_ne, ne_eq]
  omega

theorem isUQ_of_U {v : Int} (h : v = UNKNWON) : isUQ v = true := by
  simp [isUQ, h]

/-- The configuration fields and the `mines` grid, the status, and the
unmarked-mines counter never change during a flood fill. -/
def sameConfig (g2 g1 : Game) : Prop :=
  g2.height = g1.height ∧ g2.width = g1.width ∧ g2.mineQuantity = g1.mineQuantity ∧
    g2.showMinesOnlyOnFailed = g1.showMinesOnlyOnFailed ∧ g2.mines = g1.mines ∧
    g2.status = g1.status ∧ g2.unmarkedMines = g1.unmarkedMines

theorem sameConfig_refl (g : Game) : sameConfig g g :=
  ⟨rfl, rfl, rfl, rfl, rfl, rfl, rfl⟩

theorem sameConfig_trans {g3 g2 g1 : Game} (h2 : sameConfig g3 g2)
    (h1 : sameConfig g2 g1) : sameConfig g3 g1 := by
  obtain ⟨a1, a2, a3, a4, a5, a6, a7⟩ := h2
  obtain ⟨b1, b2, b3, b4, b5, b6, b7⟩ := h1
  exact ⟨a1.trans b1, a2.trans b2, a3.trans b3, a4.trans b4, a5.trans b5,
    a6.trans b6, a7.trans b7⟩

theorem findBlocksAround_congr {g2 g1 : Game} (hw : g2.width = g1.width)
    (hh : g2.height = g1.height) (x y : Nat) :
    findBlocksAround g2 x y = findBlocksAround g1 x y := by
  unfold findBlocksAround checkCoordinate
  rw [hw, hh]

theorem revStep_config (acc : Game × List (Nat × Nat)) (b : Nat × Nat) :
    sameConfig (revStep acc b).1 acc.1 := by
  unfold revStep
  split
  · exact ⟨rfl, rfl, rfl, rfl, rfl, rfl, rfl⟩
  · exact sameConfig_refl _

theorem foldl_revStep_config (l : List (Nat × Nat)) (acc : Game × List (Nat × Nat)) :
    sameConfig (l.foldl revStep acc).1 acc.1 := by
  induction l generalizing acc with
  | nil => exact sameConfig_refl _
  | cons a t ih =>
    exact sameConfig_trans (ih (revStep acc a)) (revStep_config acc a)

theorem revStep_blocks_len (acc : Game × List (Nat × Nat)) (b : Nat × Nat) :
    (revStep acc b).1.blocks.length = acc.1.blocks.length := by
  unfold revStep
  split
  · exact length_setCell ..
  · rfl

theorem revStep_rowLen (acc : Game × List (Nat × Nat)) (b : Nat × Nat) (i : Nat) :
    ((revStep acc b).1.blocks.getD i []).length = (acc.1.blocks.getD i []).length := by
  unfold revStep
  split
  · exact rowLen_setCell ..
  · rfl

theorem foldl_revStep_blocks_len (l : List (Nat × Nat)) (acc : Game × List (Nat × Nat)) :
    (l.foldl revStep acc).1.blocks.length = acc.1.blocks.length := by
  induction l generalizing acc with
  | nil => rfl
  | cons a t ih => rw [List.foldl_cons, ih (revStep acc a), revStep_blocks_len]

theorem foldl_revStep_rowLen (l : List (Nat × Nat)) (acc : Game × List (Nat × Nat))
    (i : Nat) :
    ((l.foldl revStep acc).1.blocks.getD i []).length = (acc.1.blocks.getD i []).length := by
  induction l generalizing acc with
  | nil => rfl
  | cons a t ih => rw [List.foldl_cons, ih (revStep acc a), revStep_rowLen]

theorem revStep_unknowns (acc : Game × List (Nat × Nat)) (b : Nat × Nat) :
    (revStep acc b).1.unknowns
      = if getCell acc.1.blocks b.2 b.1 = UNKNWON then acc.1.unknowns - 1
        else acc.1.unknowns := by
  unfold revStep
  split
  · rfl
  · rfl

theorem revStep_blocks (acc : Game × List (Nat × Nat)) (b : Nat × Nat) :
    (revStep acc b).1.blocks
      = if getCell acc.1.blocks b.2 b.1 = UNKNWON then
          setCell acc.1.blocks b.2 b.1 (getCell acc.1.mines b.2 b.1)
        else acc.1.blocks := by
  unfold revStep
  split
  · rfl
  · rfl

theorem revStep_cell_ne (acc : Game × List (Nat × Nat)) (b : Nat × Nat) (y x : Nat)
    (h : ¬(b.1 = x ∧ b.2 = y)) :
    getCell (revStep acc b).1.blocks y x = getCell acc.1.blocks y x := by
  unfold revStep
  split
  · exact getCell_setCell_ne _ _ _ _ _ _ (by tauto)
  · rfl

theorem revStep_cell_self (acc : Game × List (Nat × Nat)) (b : Nat × Nat) :
    getCell (revStep acc b).1.blocks b.2 b.1
      = if getCell acc.1.blocks b.2 b.1 = UNKNWON then getCell acc.1.mines b.2 b.1
        else getCell acc.1.blocks b.2 b.1 := by
  unfold revStep
  split
  · rename_i h
    dsimp only
    have hpos : getCell acc.1.blocks b.2 b.1 ≠ 0 := by rw [h]; unfold UNKNWON; omega
    obtain ⟨hy, hx⟩ := getCell_pos_of_ne_zero hpos
    exact getCell_setCell_self _ _ _ _ hy hx
  · rfl

theorem foldl_revStep_cell (l : List (Nat × Nat)) (acc : Game × List (Nat × Nat))
    (y x : Nat) :
    getCell (l.foldl revStep acc).1.blocks y x = getCell acc.1.blocks y x ∨
      (getCell acc.1.blocks y x = UNKNWON ∧ (x, y) ∈ l ∧
       getCell (l.foldl revStep acc).1.blocks y x = getCell acc.1.mines y x) := by
  induction l generalizing acc with
  | nil => exact Or.inl rfl
  | cons a t ih =>
    rw [List.foldl_cons]
    have hmines : (revStep acc a).1.mines = acc.1.mines := (revStep_config acc a).2.2.2.2.1
    by_cases hab : a.1 = x ∧ a.2 = y
    · have ha : a = (x, y) := Prod.ext hab.1 hab.2
      subst ha
      by_cases hU : getCell acc.1.blocks y x = UNKNWON
      · have hw : getCell (revStep acc (x, y)).1.blocks y x = getCell acc.1.mines y x := by
          have h0 := revStep_cell_self acc (x, y)
          simp only at h0
          rw [h0, if_pos hU]
        rcases ih (revStep acc (x, y)) with h | ⟨h1, h2, h3⟩
        · rw [h, hw]
          exact Or.inr ⟨hU, List.mem_cons_self .., rfl⟩
        · rw [h3, hmines]
          exact Or.inr ⟨hU, List.mem_cons_self .., rfl⟩
      · have hw : getCell (revStep acc (x, y)).1.blocks y x = getCell acc.1.blocks y x := by
          have h0 := revStep_cell_self acc (x, y)
          simp only at h0
          rw [h0, if_neg hU]
        rcases ih (revStep acc (x, y)) with h | ⟨h1, h2, h3⟩
        · exact Or.inl (by rw [h, hw])
        · rw [hw] at h1
          exact absurd h1 hU
    · have hw : getCell (revStep acc a).1.blocks y x = getCell acc.1.blocks y x :=
        revStep_cell_ne acc a y x hab
      rcases ih (revStep acc a) with h | ⟨h1, h2, h3⟩
      · exact Or.inl (by rw [h, hw])
      · rw [hw] at h1
        rw [hmines] at h3
        exact Or.inr ⟨h1, List.mem_cons_of_mem a h2, h3⟩

theorem foldl_revStep_cell_stable (l : List (Nat × Nat)) (acc : Game × List (Nat × Nat))
    (y x : Nat) (h : getCell acc.1.blocks y x ≠ UNKNWON) :
    getCell (l.foldl revStep acc).1.blocks y x = getCell acc.1.blocks y x := by
  rcases foldl_revStep_cell l acc y x with h1 | ⟨h1, _, _⟩
  · exact h1
  · exact absurd h1 h

theorem foldl_revStep_U_mono (l : List (Nat × Nat)) (acc : Game × List (Nat × Nat))
    (y x : Nat) (h : getCell (l.foldl revStep acc).1.blocks y x = UNKNWON) :
    getCell acc.1.blocks y x = UNKNWON := by
  rcases foldl_revStep_cell l acc y x with h1 | ⟨h1, _, _⟩
  · rw [← h1, h]
  · exact h1

theorem foldl_revStep_mem_reveals (l : List (Nat × Nat)) (acc : Game × List (Nat × Nat))
    (b : Nat × Nat) (hb : b ∈ l) (hU : getCell acc.1.blocks b.2 b.1 = UNKNWON) :
    getCell (l.foldl revStep acc).1.blocks b.2 b.1 = getCell acc.1.mines b.2 b.1 := by
  induction l generalizing acc with
  | nil => simp at hb
  | cons a t ih =>
    rw [List.foldl_cons]
    have hmines : (revStep acc a).1.mines = acc.1.mines := (revStep_config acc a).2.2.2.2.1
    by_cases hab : a.1 = b.1 ∧ a.2 = b.2
    · have ha : a = b := Prod.ext hab.1 hab.2
      subst ha
      have hw : getCell (revStep acc a).1.blocks a.2 a.1 = getCell acc.1.mines a.2 a.1 := by
        rw [revStep_cell_self acc a, if_pos hU]
      rcases foldl_revStep_cell t (revStep acc a) a.2 a.1 with h | ⟨_, _, h3⟩
      · rw [h, hw]
      · rw [h3, hmines]
    · have hw : getCell (revStep acc a).1.blocks b.2 b.1 = getCell acc.1.blocks b.2 b.1 :=
        revStep_cell_ne acc a b.2 b.1 hab
      have hbt : b ∈ t := by
        rcases List.mem_cons.mp hb with h | h
        · exact absurd (by rw [h]; exact ⟨rfl, rfl⟩) hab
        · exact h
      rw [ih (revStep acc a) hbt (by rw [hw]; exact hU), hmines]

theorem revStep_snd_grow (acc : Game × List (Nat × Nat)) (a : Nat × Nat) (c : Nat × Nat)
    (h : c ∈ acc.2) : c ∈ (revStep acc a).2 := by
  unfold revStep
  split
  · split
    · exact List.mem_append_left _ h
    · exact h
  · exact h

theorem foldl_revStep_snd_grow (l : List (Nat × Nat)) (acc : Game × List (Nat × Nat))
    (c : Nat × Nat) (h : c ∈ acc.2) : c ∈ (l.foldl revStep acc).2 := by
  induction l generalizing acc with
  | nil => exact h
  | cons a t ih => exact ih (revStep acc a) (revStep_snd_grow acc a c h)

theorem foldl_revStep_snd_sound (l : List (Nat × Nat)) (acc : Game × List (Nat × Nat))
    (c : Nat × Nat) (h : c ∈ (l.foldl revStep acc).2) :
    c ∈ acc.2 ∨ (c ∈ l ∧ getCell acc.1.blocks c.2 c.1 = UNKNWON ∧
      getCell acc.1.mines c.2 c.1 = 0) := by
  induction l generalizing acc with
  | nil => exact Or.inl h
  | cons a t ih =>
    rw [List.foldl_cons] at h
    have hmines : (revStep acc a).1.mines = acc.1.mines := (revStep_config acc a).2.2.2.2.1
    rcases ih (revStep acc a) h with h1 | ⟨h1, h2, h3⟩
    · unfold revStep at h1
      by_cases hg : getCell acc.1.blocks a.2 a.1 = UNKNWON
      · rw [if_pos hg] at h1
        by_cases hz : getCell acc.1.mines a.2 a.1 = 0
        · rw [if_pos hz] at h1
          rcases List.mem_append.mp h1 with h4 | h4
          · exact Or.inl h4
          · have : c = a := by simpa using h4
            subst this
            exact Or.inr ⟨List.mem_cons_self .., hg, hz⟩
        · rw [if_neg hz] at h1
          exact Or.inl h1
      · rw [if_neg hg] at h1
        exact Or.inl h1
    · rw [hmines] at h3
      by_cases hab : a.1 = c.1 ∧ a.2 = c.2
      · have ha : a = c := Prod.ext hab.1 hab.2
        subst ha
        by_cases hg : getCell acc.1.blocks a.2 a.1 = UNKNWON
        · exact Or.inr ⟨List.mem_cons_of_mem a h1, hg, h3⟩
        · rw [revStep_cell_self acc a, if_neg hg] at h2
          exact absurd h2 hg
      · have hw : getCell (revStep acc a).1.blocks c.2 c.1 = getCell acc.1.blocks c.2 c.1 :=
          revStep_cell_ne acc a c.2 c.1 hab
        rw [hw] at h2
        exact Or.inr ⟨List.mem_cons_of_mem a h1, h2, h3⟩

theorem foldl_revStep_snd_complete (l : List (Nat × Nat)) (acc : Game × List (Nat × Nat))
    (b : Nat × Nat) (hb : b ∈ l) (hU : getCell acc.1.blocks b.2 b.1 = UNKNWON)
    (hz : getCell acc.1.mines b.2 b.1 = 0) : b ∈ (l.foldl revStep acc).2 := by
  induction l generalizing acc with
  | nil => simp at hb
  | cons a t ih =>
    rw [List.foldl_cons]
    have hmines : (revStep acc a).1.mines = acc.1.mines := (revStep_config acc a).2.2.2.2.1
    by_cases hab : a.1 = b.1 ∧ a.2 = b.2
    · have hpair : a = b := Prod.ext hab.1 hab.2
      subst hpair
      have hmem : a ∈ (revStep acc a).2 := by
        unfold revStep
        rw [if_pos hU, if_pos hz]
        exact List.mem_append_right _ (List.mem_singleton.mpr rfl)
      exact foldl_revStep_snd_grow t (revStep acc a) a hmem
    · have hbt : b ∈ t := by
        rcases List.mem_cons.mp hb with h | h
        · exact absurd (by rw [h]; exact ⟨rfl, rfl⟩) hab
        · exact h
      have hw : getCell (revStep acc a).1.blocks b.2 b.1 = getCell acc.1.blocks b.2 b.1 :=
        revStep_cell_ne acc a b.2 b.1 hab
      exact ih (revStep acc a) hbt (by rwa [hw]) (by rwa [hmines])

theorem foldl_revStep_unknowns (l : List (Nat × Nat)) (acc : Game × List (Nat × Nat))
    (hm : ∀ b ∈ l, 0 ≤ getCell acc.1.mines b.2 b.1) :
    (l.foldl revStep acc).1.unknowns - (countCells (l.foldl revStep acc).1.blocks isUQ : Int)
      = acc.1.unknowns - countCells acc.1.blocks isUQ := by
  induction l generalizing acc with
  | nil => rfl
  | cons a t ih =>
    rw [List.foldl_cons]
    have hmines : (revStep acc a).1.mines = acc.1.mines := (revStep_config acc a).2.2.2.2.1
    have hstep : (revStep acc a).1.unknowns - (countCells (revStep acc a).1.blocks isUQ : Int)
        = acc.1.unknowns - countCells acc.1.blocks isUQ := by
      rw [revStep_unknowns, revStep_blocks]
      by_cases hg : getCell acc.1.blocks a.2 a.1 = UNKNWON
      · rw [if_pos hg, if_pos hg]
        have hpos : getCell acc.1.blocks a.2 a.1 ≠ 0 := by rw [hg]; unfold UNKNWON; omega
        obtain ⟨hy, hx⟩ := getCell_pos_of_ne_zero hpos
        have hcnt := countCells_setCell_add isUQ acc.1.blocks a.2 a.1
          (getCell acc.1.mines a.2 a.1) hy hx
        rw [isUQ_of_U hg, isUQ_false_of_nonneg (hm a (List.mem_cons_self ..))] at hcnt
        simp at hcnt
        have hcnt2 : (countCells (setCell acc.1.blocks a.2 a.1
            (getCell acc.1.mines a.2 a.1)) isUQ : Int) + 1
            = (countCells acc.1.blocks isUQ : Int) := by exact_mod_cast hcnt
        omega
      · rw [if_neg hg, if_neg hg]
    rw [ih (revStep acc a) (fun b hb => by
      rw [hmines]; exact hm b (List.mem_cons_of_mem a hb)), hstep]

theorem foldl_revStep_marked (l : List (Nat × Nat)) (acc : Game × List (Nat × Nat))
    (hm : ∀ b ∈ l, 0 ≤ getCell acc.1.mines b.2 b.1) :
    countCells (l.foldl revStep acc).1.blocks isMarked = countCells acc.1.blocks isMarked := by
  induction l generalizing acc with
  | nil => rfl
  | cons a t ih =>
    rw [List.foldl_cons]
    have hmines : (revStep acc a).1.mines = acc.1.mines := (revStep_config acc a).2.2.2.2.1
    have hstep : countCells (revStep acc a).1.blocks isMarked
        = countCells acc.1.blocks isMarked := by
      rw [revStep_blocks]
      by_cases hg : getCell acc.1.blocks a.2 a.1 = UNKNWON
      · rw [if_pos hg]
        have hpos : getCell acc.1.blocks a.2 a.1 ≠ 0 := by rw [hg]; unfold UNKNWON; omega
        obtain ⟨hy, hx⟩ := getCell_pos_of_ne_zero hpos
        have hcnt := countCells_setCell_add isMarked acc.1.blocks a.2 a.1
          (getCell acc.1.mines a.2 a.1) hy hx
        have h1 : isMarked (getCell acc.1.blocks a.2 a.1) = false := by
          simp only [isMarked, hg, UNKNWON, MARKED]
          decide
        have h2 : isMarked (getCell acc.1.mines a.2 a.1) = false :=
          isMarked_false_of_nonneg (hm a (List.mem_cons_self ..))
        rw [h1, h2] at hcnt
        simp at hcnt
        omega
      · rw [if_neg hg]
    rw [ih (revStep acc a) (fun b hb => by
      rw [hmines]; exact hm b (List.mem_cons_of_mem a hb)), hstep]

theorem revealAround_config (g : Game) (x y : Nat) :
    sameConfig (revealAround g x y).1 g :=
  foldl_revStep_config (findBlocksAround g x y) (g, [])

theorem revealAround_blocks_len (g : Game) (x y : Nat) :
    (revealAround g x y).1.blocks.length = g.blocks.length :=
  foldl_revStep_blocks_len (findBlocksAround g x y) (g, [])

theorem revealAround_rowLen (g : Game) (x y : Nat) (i : Nat) :
    ((revealAround g x y).1.blocks.getD i []).length = (g.blocks.getD i []).length :=
  foldl_revStep_rowLen (findBlocksAround g x y) (g, []) i

theorem revealAround_cell (g : Game) (x y : Nat) (j i : Nat) :
    getCell (revealAround g x y).1.blocks j i = getCell g.blocks j i ∨
      (getCell g.blocks j i = UNKNWON ∧ (i, j) ∈ findBlocksAround g x y ∧
       getCell (revealAround g x y).1.blocks j i = getCell g.mines j i) :=
  foldl_revStep_cell (findBlocksAround g x y) (g, []) j i

theorem revealAround_cell_stable (g : Game) (x y : Nat) (j i : Nat)
    (h : getCell g.blocks j i ≠ UNKNWON) :
    getCell (revealAround g x y).1.blocks j i = getCell g.blocks j i :=
  foldl_revStep_cell_stable (findBlocksAround g x y) (g, []) j i h

theorem revealAround_U_mono (g : Game) (x y : Nat) (j i : Nat)
    (h : getCell (revealAround g x y).1.blocks j i = UNKNWON) :
    getCell g.blocks j i = UNKNWON :=
  foldl_revStep_U_mono (findBlocksAround g x y) (g, []) j i h

theorem revealAround_mem (g : Game) (x y : Nat) (b : Nat × Nat)
    (hb : b ∈ findBlocksAround g x y) (hU : getCell g.blocks b.2 b.1 = UNKNWON) :
    getCell (revealAround g x y).1.blocks b.2 b.1 = getCell g.mines b.2 b.1 :=
  foldl_revStep_mem_reveals (findBlocksAround g x y) (g, []) b hb hU

theorem revealAround_snd_sound (g : Game) (x y : Nat) (c : Nat × Nat)
    (h : c ∈ (revealAround g x y).2) :
    c ∈ findBlocksAround g x y ∧ getCell g.blocks c.2 c.1 = UNKNWON ∧
      getCell g.mines c.2 c.1 = 0 := by
  rcases foldl_revStep_snd_sound (findBlocksAround g x y) (g, []) c h with h1 | h1
  · exact absurd h1 (List.not_mem_nil c)
  · exact h1

theorem revealAround_snd_complete (g : Game) (x y : Nat) (b : Nat × Nat)
    (hb : b ∈ findBlocksAround g x y) (hU : getCell g.blocks b.2 b.1 = UNKNWON)
    (hz : getCell g.mines b.2 b.1 = 0) : b ∈ (revealAround g x y).2 :=
  foldl_revStep_snd_complete (findBlocksAround g x y) (g, []) b hb hU hz

theorem revealAround_unknowns (g : Game) (x y : Nat)
    (hm : ∀ b ∈ findBlocksAround g x y, 0 ≤ getCell g.mines b.2 b.1) :
    (revealAround g x y).1.unknowns - (countCells (revealAround g x y).1.blocks isUQ : Int)
      = g.unknowns - countCells g.blocks isUQ :=
  foldl_revStep_unknowns (findBlocksAround g x y) (g, []) hm

theorem revealAround_marked (g : Game) (x y : Nat)
    (hm : ∀ b ∈ findBlocksAround g x y, 0 ≤ getCell g.mines b.2 b.1) :
    countCells (revealAround g x y).1.blocks isMarked = countCells g.blocks isMarked :=
  foldl_revStep_marked (findBlocksAround g x y) (g, []) hm

theorem floodFill_nil (g : Game) : floodFill g [] = g := by
  rw [floodFill]

theorem floodFill_cons (g : Game) (c : Nat × Nat) (rest : List (Nat × Nat)) :
    floodFill g (c :: rest)
      = if c.1 < g.width ∧ c.2 < g.height ∧ getCell g.mines c.2 c.1 = 0 then
          floodFill (revealAround g c.1 c.2).1 ((revealAround g c.1 c.2).2 ++ rest)
        else floodFill g rest := by
  rw [floodFill]

theorem floodFill_config (g : Game) (wl : List (Nat × Nat)) :
    sameConfig (floodFill g wl) g := by
  induction g, wl using floodFill.induct with
  | case1 g => rw [floodFill_nil]; exact sameConfig_refl g
  | case2 g c rest hg ih =>
    rw [floodFill_cons, if_pos hg]
    exact sameConfig_trans ih (revealAround_config g c.1 c.2)
  | case3 g c rest hg ih =>
    rw [floodFill_cons, if_neg hg]
    exact ih

theorem floodFill_mines (g : Game) (wl : List (Nat × Nat)) :
    (floodFill g wl).mines = g.mines := (floodFill_config g wl).2.2.2.2.1

theorem floodFill_width (g : Game) (wl : List (Nat × Nat)) :
    (floodFill g wl).width = g.width := (floodFill_config g wl).2.1

theorem floodFill_height (g : Game) (wl : List (Nat × Nat)) :
    (floodFill g wl).height = g.height := (floodFill_config g wl).1

theorem floodFill_status (g : Game) (wl : List (Nat × Nat)) :
    (floodFill g wl).status = g.status := (floodFill_config g wl).2.2.2.2.2.1

theorem floodFill_unmarkedMines (g : Game) (wl : List (Nat × Nat)) :
    (floodFill g wl).unmarkedMines = g.unmarkedMines :=
  (floodFill_config g wl).2.2.2.2.2.2

theorem floodFill_blocks_len (g : Game) (wl : List (Nat × Nat)) :
    (floodFill g wl).blocks.length = g.blocks.length := by
  induction g, wl using floodFill.induct with
  | case1 g => rw [floodFill_nil]
  | case2 g c rest hg ih =>
    rw [floodFill_cons, if_pos hg, ih, revealAround_blocks_len]
  | case3 g c rest hg ih =>
    rw [floodFill_cons, if_neg hg, ih]

theorem floodFill_rowLen (g : Game) (wl : List (Nat × Nat)) (i : Nat) :
    ((floodFill g wl).blocks.getD i []).length = (g.blocks.getD i []).length := by
  induction g, wl using floodFill.induct with
  | case1 g => rw [floodFill_nil]
  | case2 g c rest hg ih =>
    rw [floodFill_cons, if_pos hg, ih, revealAround_rowLen]
  | case3 g c rest hg ih =>
    rw [floodFill_cons, if_neg hg, ih]

/-- Transitive reveal reachability from `a` in a fixed pre-flood state `g`:
follow in-bounds zero-count cells and step into their in-bounds neighbours
that are still `UNKNWON` in `g`.  This is exactly the region the recursive
`_cleanBlock` walk reaches from its starting cell. -/
inductive Reveals (g : Game) (a : Nat × Nat) : Nat × Nat → Prop where
  | refl : Reveals g a a
  | step {b c : Nat × Nat} : Reveals g a b → b.1 < g.width → b.2 < g.height →
      getCell g.mines b.2 b.1 = 0 → c ∈ findBlocksAround g b.1 b.2 →
      getCell g.blocks c.2 c.1 = UNKNWON → Reveals g a c

theorem Reveals.trans {g : Game} {a b c : Nat × Nat}
    (h1 : Reveals g a b) (h2 : Reveals g b c) : Reveals g a c := by
  induction h2 with
  | refl => exact h1
  | step hr hbw hbh hz hmem hU ih => exact .step ih hbw hbh hz hmem hU

theorem Reveals.mono {g2 g1 : Game} (hw : g2.width = g1.width)
    (hh : g2.height = g1.height) (hm : g2.mines = g1.mines)
    (hU : ∀ j i : Nat, getCell g2.blocks j i = UNKNWON → getCell g1.blocks j i = UNKNWON) :
    ∀ {a c : Nat × Nat}, Reveals g2 a c → Reveals g1 a c := by
  intro a c h
  induction h with
  | refl => exact .refl
  | step hr hbw hbh hz hmem hUc ih =>
    refine .step ih (hw ▸ hbw) (hh ▸ hbh) (hm ▸ hz) ?_ (hU _ _ hUc)
    rwa [← findBlocksAround_congr hw hh]

theorem floodFill_U_mono (g : Game) (wl : List (Nat × Nat)) (j i : Nat)
    (h : getCell (floodFill g wl).blocks j i = UNKNWON) :
    getCell g.blocks j i = UNKNWON := by
  induction g, wl using floodFill.induct with
  | case1 g => rwa [floodFill_nil] at h
  | case2 g c rest hg ih =>
    rw [floodFill_cons, if_pos hg] at h
    exact revealAround_U_mono g c.1 c.2 j i (ih h)
  | case3 g c rest hg ih =>
    rw [floodFill_cons, if_neg hg] at h
    exact ih h

theorem floodFill_cell_stable (g : Game) (wl : List (Nat × Nat)) (j i : Nat)
    (h : getCell g.blocks j i ≠ UNKNWON) :
    getCell (floodFill g wl).blocks j i = getCell g.blocks j i := by
  induction g, wl using floodFill.induct with
  | case1 g => rw [floodFill_nil]
  | case2 g c rest hg ih =>
    rw [floodFill_cons, if_pos hg]
    rw [ih (by rw [revealAround_cell_stable g c.1 c.2 j i h]; exact h),
      revealAround_cell_stable g c.1 c.2 j i h]
  | case3 g c rest hg ih =>
    rw [floodFill_cons, if_neg hg]
    exact ih h

theorem floodFill_cell (g : Game) (wl : List (Nat × Nat)) (y x : Nat) :
    getCell (floodFill g wl).blocks y x = getCell g.blocks y x ∨
      (getCell g.blocks y x = UNKNWON ∧
       getCell (floodFill g wl).blocks y x = getCell g.mines y x ∧
       ∃ a ∈ wl, Reveals g a (x, y)) := by
  induction g, wl using floodFill.induct with
  | case1 g => exact Or.inl (by rw [floodFill_nil])
  | case2 g c rest hg ih =>
    rw [floodFill_cons, if_pos hg]
    obtain ⟨hgw, hgh, hgz⟩ := hg
    have hcfg := revealAround_config g c.1 c.2
    have hw2 : (revealAround g c.1 c.2).1.width = g.width := hcfg.2.1
    have hh2 : (revealAround g c.1 c.2).1.height = g.height := hcfg.1
    have hm2 : (revealAround g c.1 c.2).1.mines = g.mines := hcfg.2.2.2.2.1
    have hmono : ∀ {a d : Nat × Nat}, Reveals (revealAround g c.1 c.2).1 a d → Reveals g a d :=
      fun h => Reveals.mono hw2 hh2 hm2 (fun j i hu => revealAround_U_mono g c.1 c.2 j i hu) h
    rcases ih with h1 | ⟨h1, h2, a, ha, hrev⟩
    · rcases revealAround_cell g c.1 c.2 y x with h3 | ⟨h3, h4, h5⟩
      · exact Or.inl (by rw [h1, h3])
      · refine Or.inr ⟨h3, by rw [h1, h5], c, List.mem_cons_self .., ?_⟩
        exact Reveals.step Reveals.refl hgw hgh hgz h4 h3
    · rcases List.mem_append.mp ha with hnext | hrest
      · obtain ⟨hmem, hU0, hz0⟩ := revealAround_snd_sound g c.1 c.2 a hnext
        have hstep : Reveals g c a := Reveals.step Reveals.refl hgw hgh hgz hmem hU0
        exact Or.inr ⟨revealAround_U_mono g c.1 c.2 y x h1, by rw [h2, hm2], c,
          List.mem_cons_self .., Reveals.trans hstep (hmono hrev)⟩
      · refine Or.inr ⟨revealAround_U_mono g c.1 c.2 y x h1, by rw [h2, hm2],
          a, List.mem_cons_of_mem c hrest, hmono hrev⟩
  | case3 g c rest hg ih =>
    rw [floodFill_cons, if_neg hg]
    rcases ih with h1 | ⟨h1, h2, a, ha, hrev⟩
    · exact Or.inl h1
    · exact Or.inr ⟨h1, h2, a, List.mem_cons_of_mem c ha, hrev⟩

/-- No mine sits next to any in-bounds zero-count cell of the mines grid
(a consequence of neighbour counts being correct, and all the flood fill
needs from the mines grid). -/
def zeroSafe (g : Game) : Prop :=
  ∀ p : Nat × Nat, p.1 < g.width → p.2 < g.height → getCell g.mines p.2 p.1 = 0 →
    ∀ b ∈ findBlocksAround g p.1 p.2, 0 ≤ getCell g.mines b.2 b.1

theorem zeroSafe_congr {g2 g1 : Game} (hw : g2.width = g1.width)
    (hh : g2.height = g1.height) (hm : g2.mines = g1.mines) (h : zeroSafe g1) :
    zeroSafe g2 := by
  intro p hpw hph hz b hb
  rw [hm]
  refine h p (by omega) (by omega) (by rw [← hm]; exact hz) b ?_
  rwa [findBlocksAround_congr hw hh] at hb

theorem floodFill_saturate (g : Game) (wl : List (Nat × Nat)) :
    zeroSafe g →
    ∀ c ∈ wl, c.1 < g.width → c.2 < g.height → getCell g.mines c.2 c.1 = 0 →
      ∀ b ∈ findBlocksAround g c.1 c.2,
        getCell (floodFill g wl).blocks b.2 b.1 ≠ UNKNWON := by
  induction g, wl using floodFill.induct with
  | case1 g =>
    intro _ c hc
    simp at hc
  | case2 g c0 rest hg ih =>
    intro hz c hc hcw hch hcz b hb
    rw [floodFill_cons, if_pos hg]
    have hcfg := revealAround_config g c0.1 c0.2
    have hw2 : (revealAround g c0.1 c0.2).1.width = g.width := hcfg.2.1
    have hh2 : (revealAround g c0.1 c0.2).1.height = g.height := hcfg.1
    have hm2 : (revealAround g c0.1 c0.2).1.mines = g.mines := hcfg.2.2.2.2.1
    have hz2 : zeroSafe (revealAround g c0.1 c0.2).1 := zeroSafe_congr hw2 hh2 hm2 hz
    rcases List.mem_cons.mp hc with hee | hrest
    · subst hee
      have hnb : getCell (revealAround g c.1 c.2).1.blocks b.2 b.1 ≠ UNKNWON := by
        by_cases hU : getCell g.blocks b.2 b.1 = UNKNWON
        · rw [revealAround_mem g c.1 c.2 b hb hU]
          have hge := hz c hcw hch hcz b hb
          unfold UNKNWON
          omega
        · rw [revealAround_cell_stable g c.1 c.2 b.2 b.1 hU]
          exact hU
      intro hfin
      exact hnb (floodFill_U_mono _ _ _ _ hfin)
    · refine ih hz2 c (List.mem_append_right _ hrest) (by omega) (by omega)
        (by rw [hm2]; exact hcz) b ?_
      rwa [findBlocksAround_congr hw2 hh2]
  | case3 g c0 rest hg ih =>
    intro hz c hc hcw hch hcz b hb
    rw [floodFill_cons, if_neg hg]
    rcases List.mem_cons.mp hc with hee | hrest
    · subst hee
      exact absurd ⟨hcw, hch, hcz⟩ hg
    · exact ih hz c hrest hcw hch hcz b hb

theorem floodFill_reveal_saturate (g : Game) (wl : List (Nat × Nat)) :
    zeroSafe g → (∀ a ∈ wl, a.1 < g.width ∧ a.2 < g.height) →
    ∀ p : Nat × Nat, getCell g.blocks p.2 p.1 = UNKNWON →
      getCell (floodFill g wl).blocks p.2 p.1 ≠ UNKNWON →
      getCell g.mines p.2 p.1 = 0 →
      ∀ b ∈ findBlocksAround g p.1 p.2,
        getCell (floodFill g wl).blocks b.2 b.1 ≠ UNKNWON := by
  induction g, wl using floodFill.induct with
  | case1 g =>
    intro _ _ p hU hnU
    rw [floodFill_nil] at hnU
    exact absurd hU hnU
  | case2 g c0 rest hg ih =>
    intro hz hwl p hU hnU hpz b hb
    rw [floodFill_cons, if_pos hg] at hnU ⊢
    have hcfg := revealAround_config g c0.1 c0.2
    have hw2 : (revealAround g c0.1 c0.2).1.width = g.width := hcfg.2.1
    have hh2 : (revealAround g c0.1 c0.2).1.height = g.height := hcfg.1
    have hm2 : (revealAround g c0.1 c0.2).1.mines = g.mines := hcfg.2.2.2.2.1
    have hz2 : zeroSafe (revealAround g c0.1 c0.2).1 := zeroSafe_congr hw2 hh2 hm2 hz
    have hwl2 : ∀ a ∈ (revealAround g c0.1 c0.2).2 ++ rest,
        a.1 < (revealAround g c0.1 c0.2).1.width ∧ a.2 < (revealAround g c0.1 c0.2).1.height := by
      intro a ha
      rw [hw2, hh2]
      rcases List.mem_append.mp ha with h1 | h1
      · obtain ⟨hmem, _, _⟩ := revealAround_snd_sound g c0.1 c0.2 a h1
        obtain ⟨hx1, hx2, _⟩ := mem_findBlocksAround.mp hmem
        exact ⟨hx1, hx2⟩
      · exact hwl a (List.mem_cons_of_mem c0 h1)
    by_cases hU2 : getCell (revealAround g c0.1 c0.2).1.blocks p.2 p.1 = UNKNWON
    · refine ih hz2 hwl2 p hU2 hnU (by rw [hm2]; exact hpz) b ?_
      rwa [findBlocksAround_congr hw2 hh2]
    · have hpmem : (p.1, p.2) ∈ findBlocksAround g c0.1 c0.2 := by
        rcases revealAround_cell g c0.1 c0.2 p.2 p.1 with h1 | ⟨_, h2, _⟩
        · rw [h1] at hU2
          exact absurd hU hU2
        · exact h2
      have hpnext : p ∈ (revealAround g c0.1 c0.2).2 :=
        revealAround_snd_complete g c0.1 c0.2 p hpmem hU hpz
      obtain ⟨hpw, hph, _⟩ := mem_findBlocksAround.mp hpmem
      refine floodFill_saturate _ _ hz2 p (List.mem_append_left _ hpnext)
        (by omega) (by omega) (by rw [hm2]; exact hpz) b ?_
      rwa [findBlocksAround_congr hw2 hh2]
  | case3 g c0 rest hg ih =>
    intro hz hwl p hU hnU hpz b hb
    rw [floodFill_cons, if_neg hg] at hnU ⊢
    exact ih hz (fun a ha => hwl a (List.mem_cons_of_mem c0 ha)) p hU hnU hpz b hb

theorem floodFill_complete (g : Game) (wl : List (Nat × Nat))
    (hz : zeroSafe g) (hwl : ∀ a ∈ wl, a.1 < g.width ∧ a.2 < g.height)
    (a : Nat × Nat) (ha : a ∈ wl) (hstart : getCell g.blocks a.2 a.1 ≠ UNKNWON)
    (c : Nat × Nat) (hpath : Reveals g a c) :
    getCell (floodFill g wl).blocks c.2 c.1 ≠ UNKNWON := by
  have main : (c = a ∨ getCell g.blocks c.2 c.1 = UNKNWON) ∧
      getCell (floodFill g wl).blocks c.2 c.1 ≠ UNKNWON := by
    induction hpath with
    | refl =>
      refine ⟨Or.inl rfl, ?_⟩
      rw [floodFill_cell_stable g wl _ _ hstart]
      exact hstart
    | step hr hbw hbh hz0 hmem hUc ih =>
      rename_i b cc
      obtain ⟨hb1, hb2⟩ := ih
      refine ⟨Or.inr hUc, ?_⟩
      rcases hb1 with hba | hbu
      · subst hba
        exact floodFill_saturate g wl hz b ha hbw hbh hz0 cc hmem
      · exact floodFill_reveal_saturate g wl hz hwl b hbu hb2 hz0 cc hmem
  exact main.2

theorem floodFill_unknowns (g : Game) (wl : List (Nat × Nat)) :
    zeroSafe g →
    (floodFill g wl).unknowns - (countCells (floodFill g wl).blocks isUQ : Int)
      = g.unknowns - countCells g.blocks isUQ := by
  induction g, wl using floodFill.induct with
  | case1 g =>
    intro _
    rw [floodFill_nil]
  | case2 g c0 rest hg ih =>
    intro hz
    rw [floodFill_cons, if_pos hg]
    have hcfg := revealAround_config g c0.1 c0.2
    have hw2 : (revealAround g c0.1 c0.2).1.width = g.width := hcfg.2.1
    have hh2 : (revealAround g c0.1 c0.2).1.height = g.height := hcfg.1
    have hm2 : (revealAround g c0.1 c0.2).1.mines = g.mines := hcfg.2.2.2.2.1
    have hz2 : zeroSafe (revealAround g c0.1 c0.2).1 := zeroSafe_congr hw2 hh2 hm2 hz
    rw [ih hz2]
    exact revealAround_unknowns g c0.1 c0.2 (hz c0 hg.1 hg.2.1 hg.2.2)
  | case3 g c0 rest hg ih =>
    intro hz
    rw [floodFill_cons, if_neg hg]
    exact ih hz

theorem floodFill_marked (g : Game) (wl : List (Nat × Nat)) :
    zeroSafe g →
    countCells (floodFill g wl).blocks isMarked = countCells g.blocks isMarked := by
  induction g, wl using floodFill.induct with
  | case1 g =>
    intro _
    rw [floodFill_nil]
  | case2 g c0 rest hg ih =>
    intro hz
    rw [floodFill_cons, if_pos hg]
    have hcfg := revealAround_config g c0.1 c0.2
    have hw2 : (revealAround g c0.1 c0.2).1.width = g.width := hcfg.2.1
    have hh2 : (revealAround g c0.1 c0.2).1.height = g.height := hcfg.1
    have hm2 : (revealAround g c0.1 c0.2).1.mines = g.mines := hcfg.2.2.2.2.1
    have hz2 : zeroSafe (revealAround g c0.1 c0.2).1 := zeroSafe_congr hw2 hh2 hm2 hz
    rw [ih hz2]
    exact revealAround_marked g c0.1 c0.2 (hz c0 hg.1 hg.2.1 hg.2.2)
  | case3 g c0 rest hg ih =>
    intro hz
    rw [floodFill_cons, if_neg hg]
    exact ih hz

/-- The `mines` value marks a mine cell. -/
def isMineV (v : Int) : Bool := v == MINE_FLAG

theorem countP_or_disjoint (p q : Int → Bool) (l : List Int)
    (h : ∀ v : Int, ¬(p v = true ∧ q v = true)) :
    l.countP (fun v => p v || q v) = l.countP p + l.countP q := by
  induction l with
  | nil => rfl
  | cons a t ih =>
    simp only [List.countP_cons, ih]
    cases hp : p a with
    | true =>
      have hq : q a = false := by
        cases hq : q a with
        | true => exact absurd ⟨hp, hq⟩ (h a)
        | false => rfl
      simp [hp, hq]
      omega
    | false =>
      cases hq : q a with
      | true => simp [hp, hq]; omega
      | false => simp [hp, hq]

theorem countP_pair_eq (l : List (Int × Int)) (p q : Int × Int → Bool)
    (himp : ∀ v ∈ l, p v = true → q v = true) (hcnt : l.countP p = l.countP q) :
    ∀ v ∈ l, q v = true → p v = true := by
  induction l with
  | nil => intro v hv; simp at hv
  | cons a t ih =>
    have hmono := List.countP_mono_left (fun v hv => himp v (List.mem_cons_of_mem a hv))
    simp only [List.countP_cons] at hcnt
    intro v hv hqv
    rcases List.mem_cons.mp hv with rfl | hvt
    · by_contra hpv
      rw [Bool.not_eq_true] at hpv
      rw [hpv, hqv] at hcnt
      simp at hcnt
      omega
    · have htail : t.countP p = t.countP q := by
        cases hp : p a with
        | true =>
          have hq := himp a (List.mem_cons_self ..) hp
          rw [hp, hq] at hcnt
          simpa using hcnt
        | false =>
          cases hq : q a with
          | true => rw [hp, hq] at hcnt; simp at hcnt; omega
          | false => rw [hp, hq] at hcnt; simpa using hcnt
      exact ih (fun w hw => himp w (List.mem_cons_of_mem a hw)) htail v hvt hqv

/-- All cells of the two grids, paired `(mines value, blocks value)`. -/
def zipCells (m b : Grid) : List (Int × Int) :=
  (List.zipWith List.zip m b).flatten

theorem countP_zip_fst (r s : List Int) (h : r.length = s.length) (p : Int → Bool) :
    (r.zip s).countP (fun v => p v.1) = r.countP p := by
  induction r generalizing s with
  | nil => simp
  | cons a t ih =>
    cases s with
    | nil => simp at h
    | cons b u =>
      simp only [List.zip_cons_cons, List.countP_cons]
      rw [ih u (by simpa using h)]

theorem countP_zip_snd (r s : List Int) (h : r.length = s.length) (p : Int → Bool) :
    (r.zip s).countP (fun v => p v.2) = s.countP p := by
  induction r generalizing s with
  | nil =>
    cases s with
    | nil => simp
    | cons b u => simp at h
  | cons a t ih =>
    cases s with
    | nil => simp at h
    | cons b u =>
      simp only [List.zip_cons_cons, List.countP_cons]
      rw [ih u (by simpa using h)]

theorem gridShape_cons {r : List Int} {t : Grid} {h w : Nat}
    (hs : gridShape (r :: t) h w) :
    h = t.length + 1 ∧ r.length = w ∧ gridShape t t.length w := by
  obtain ⟨h1, h2⟩ := hs
  have hlen : h = t.length + 1 := by simpa using h1.symm
  refine ⟨hlen, ?_, rfl, ?_⟩
  · have := h2 0 (by omega)
    simpa using this
  · intro y hy
    have := h2 (y + 1) (by omega)
    simpa using this

theorem countP_zipCells_fst (m b : Grid) (h w : Nat) (hm : gridShape m h w)
    (hb : gridShape b h w) (p : Int → Bool) :
    (zipCells m b).countP (fun v => p v.1) = countCells m p := by
  induction m generalizing b h with
  | nil => cases b with
    | nil => rfl
    | cons rb tb =>
      obtain ⟨h1, _⟩ := hm
      obtain ⟨h2, _⟩ := hb
      rw [← h1] at h2
      simp at h2
  | cons r t ih =>
    cases b with
    | nil =>
      obtain ⟨h1, _⟩ := hm
      obtain ⟨h2, _⟩ := hb
      rw [← h1] at h2
      simp at h2
    | cons rb tb =>
      obtain ⟨he1, hr1, ht1⟩ := gridShape_cons hm
      obtain ⟨he2, hr2, ht2⟩ := gridShape_cons hb
      have hlen : t.length = tb.length := by omega
      unfold zipCells countCells
      simp only [List.zipWith_cons_cons, List.flatten_cons, List.countP_append,
        List.map_cons, List.sum_cons]
      rw [countP_zip_fst r rb (by rw [hr1, hr2]), Nat.add_comm]
      have := ih tb t.length ht1 (by rw [hlen]; exact ht2)
      unfold zipCells countCells at this
      rw [this]
      omega

theorem countP_zipCells_snd (m b : Grid) (h w : Nat) (hm : gridShape m h w)
    (hb : gridShape b h w) (p : Int → Bool) :
    (zipCells m b).countP (fun v => p v.2) = countCells b p := by
  induction m generalizing b h with
  | nil => cases b with
    | nil => rfl
    | cons rb tb =>
      obtain ⟨h1, _⟩ := hm
      obtain ⟨h2, _⟩ := hb
      rw [← h1] at h2
      simp at h2
  | cons r t ih =>
    cases b with
    | nil =>
      obtain ⟨h1, _⟩ := hm
      obtain ⟨h2, _⟩ := hb
      rw [← h1] at h2
      simp at h2
    | cons rb tb =>
      obtain ⟨he1, hr1, ht1⟩ := gridShape_cons hm
      obtain ⟨he2, hr2, ht2⟩ := gridShape_cons hb
      have hlen : t.length = tb.length := by omega
      unfold zipCells countCells
      simp only [List.zipWith_cons_cons, List.flatten_cons, List.countP_append,
        List.map_cons, List.sum_cons]
      rw [countP_zip_snd r rb (by rw [hr1, hr2]), Nat.add_comm]
      have := ih tb t.length ht1 (by rw [hlen]; exact ht2)
      unfold zipCells countCells at this
      rw [this]
      omega

theorem mem_zipCells {m b : Grid} {q : Int × Int} (hq : q ∈ zipCells m b) :
    ∃ y x : Nat, y < m.length ∧ x < (m.getD y []).length ∧ x < (b.getD y []).length ∧
      q = (getCell m y x, getCell b y x) := by
  induction m generalizing b with
  | nil => simp [zipCells] at hq
  | cons r t ih =>
    cases b with
    | nil => simp [zipCells] at hq
    | cons rb tb =>
      unfold zipCells at hq
      simp only [List.zipWith_cons_cons, List.flatten_cons, List.mem_append] at hq
      rcases hq with hq | hq
      · obtain ⟨i, hi, hqe⟩ := List.mem_iff_getElem.mp hq
        have hi1 : i < r.length := by
          have h2 := hi
          rw [List.length_zip] at h2
          omega
        have hi2 : i < rb.length := by
          have h2 := hi
          rw [List.length_zip] at h2
          omega
        refine ⟨0, i, by simp, by simpa using hi1, by simpa using hi2, ?_⟩
        rw [← hqe]
        unfold getCell
        simp only [List.getD_cons_zero]
        rw [List.getElem_zip, List.getD_eq_getElem r 0 hi1, List.getD_eq_getElem rb 0 hi2]
      · obtain ⟨y, x, hy, hx1, hx2, hqe⟩ := ih (b := tb) (by exact hq)
        refine ⟨y + 1, x, by simpa using hy, by simpa using hx1, by simpa using hx2, ?_⟩
        rw [hqe]
        unfold getCell
        simp only [List.getD_cons_succ]

theorem getCell_mem_zipCells (m b : Grid) (y x : Nat) (hy1 : y < m.length)
    (hy2 : y < b.length) (hx1 : x < (m.getD y []).length) (hx2 : x < (b.getD y []).length) :
    (getCell m y x, getCell b y x) ∈ zipCells m b := by
  induction m generalizing b y with
  | nil => simp at hy1
  | cons r t ih =>
    cases b with
    | nil => simp at hy2
    | cons rb tb =>
      unfold zipCells
      simp only [List.zipWith_cons_cons, List.flatten_cons, List.mem_append]
      cases y with
      | zero =>
        left
        unfold getCell
        simp only [List.getD_cons_zero] at hx1 hx2 ⊢
        rw [List.getD_eq_getElem r 0 hx1, List.getD_eq_getElem rb 0 hx2]
        rw [List.mem_iff_getElem]
        refine ⟨x, by rw [List.length_zip]; omega, ?_⟩
        rw [List.getElem_zip]
      | succ n =>
        right
        have := ih tb n (by simpa using hy1) (by simpa using hy2)
          (by simpa using hx1) (by simpa using hx2)
        unfold zipCells at this
        unfold getCell at this ⊢
        simpa using this

theorem forall_cells_of_indexed {m : Grid} {h w : Nat} (hs : gridShape m h w)
    {P : Int → Prop} (hp : ∀ y < h, ∀ x < w, P (getCell m y x)) :
    ∀ row ∈ m, ∀ v ∈ row, P v := by
  intro row hrow v hv
  obtain ⟨y, hy, hroweq⟩ := List.mem_iff_getElem.mp hrow
  obtain ⟨x, hx, hveq⟩ := List.mem_iff_getElem.mp hv
  obtain ⟨h1, h2⟩ := hs
  have hyh : y < h := by omega
  have hgd : m.getD y [] = row := by rw [List.getD_eq_getElem m [] hy, hroweq]
  have hxw : x < w := by
    have := h2 y hyh
    rw [hgd] at this
    omega
  have := hp y hyh x hxw
  unfold getCell at this
  rw [hgd, List.getD_eq_getElem row 0 hx, hveq] at this
  exact this

theorem countCells_eq_zero {m : Grid} {h w : Nat} (hs : gridShape m h w)
    (p : Int → Bool) (hp : ∀ y < h, ∀ x < w, p (getCell m y x) = false) :
    countCells m p = 0 := by
  unfold countCells
  apply List.sum_eq_zero
  intro cnt hcnt
  obtain ⟨row, hrow, hre⟩ := List.mem_map.mp hcnt
  rw [← hre]
  rw [List.countP_eq_zero]
  intro v hv hpv
  have := forall_cells_of_indexed hs (P := fun v => p v = false) hp row hrow v hv
  rw [this] at hpv
  exact Bool.false_ne_true hpv

theorem countCells_total {m : Grid} {h w : Nat} (hs : gridShape m h w) :
    countCells m (fun v => true) = h * w := by
  induction m generalizing h with
  | nil =>
    obtain ⟨h1, _⟩ := hs
    simp [countCells, ← h1]
  | cons r t ih =>
    obtain ⟨he, hr, ht⟩ := gridShape_cons hs
    unfold countCells
    simp only [List.map_cons, List.sum_cons]
    have := ih ht
    unfold countCells at this
    rw [this, List.countP_true, hr, he]
    ring

theorem gridSum_or_disjoint (p q : Int → Bool)
    (hdisj : ∀ v : Int, ¬(p v = true ∧ q v = true)) (m : Grid) :
    countCells m (fun v => p v || q v) = countCells m p + countCells m q := by
  unfold countCells
  induction m with
  | nil => rfl
  | cons r t ih =>
    simp only [List.map_cons, List.sum_cons]
    rw [countP_or_disjoint p q r hdisj, ih]
    omega

theorem countCells_cover {m : Grid} {h w : Nat} (hs : gridShape m h w)
    (p q : Int → Bool) (hdisj : ∀ v : Int, ¬(p v = true ∧ q v = true))
    (hcover : ∀ y < h, ∀ x < w, p (getCell m y x) = true ∨ q (getCell m y x) = true) :
    countCells m p + countCells m q = h * w := by
  have hor := gridSum_or_disjoint p q hdisj m
  rw [← hor]
  have htot := countCells_total hs
  have hall : countCells m (fun v => p v || q v) = countCells m (fun v => true) := by
    unfold countCells
    congr 1
    apply List.map_congr_left
    intro row hrow
    rw [List.countP_true]
    rw [List.countP_eq_length]
    intro v hv
    have := forall_cells_of_indexed hs
      (P := fun v => p v = true ∨ q v = true) hcover row hrow v hv
    rcases this with h1 | h1 <;> simp [h1]
  rw [hall, htot]

/-- `mines`-grid well-formedness: each cell is the mine sentinel or the exact
count of mined cells among its in-bounds neighbours. -/
def minesWF (g : Game) : Prop :=
  ∀ y < g.height, ∀ x < g.width,
    getCell g.mines y x = MINE_FLAG ∨
      getCell g.mines y x = (((findBlocksAround g x y).filter
        (fun b => isMineV (getCell g.mines b.2 b.1))).length : Int)

/-- Every visible cell of a `PLAYING` board is a pre-reveal mark or the
revealed copy of its (non-mine) `mines` value. -/
def blocksWF (g : Game) : Prop :=
  ∀ y < g.height, ∀ x < g.width,
    getCell g.blocks y x = UNKNWON ∨ getCell g.blocks y x = MARKED ∨
      getCell g.blocks y x = QUESTION ∨
      (getCell g.blocks y x = getCell g.mines y x ∧ 0 ≤ getCell g.mines y x)

/-- The global state invariant: established by construction, preserved by
every public action. -/
def Inv (g : Game) : Prop :=
  gridShape g.blocks g.height g.width ∧
  gridShape g.mines g.height g.width ∧
  minesWF g ∧
  g.mineQuantity = countCells g.mines isMineV ∧
  (2 ≤ g.mineQuantity ∧ g.mineQuantity < g.width * g.height ∧ 2 ≤ g.height) ∧
  (g.status = .PLAYING →
    blocksWF g ∧ g.unknowns = (countCells g.blocks isUQ : Int) ∧
    g.unmarkedMines = (g.mineQuantity : Int) - countCells g.blocks isMarked ∧
    g.unknowns ≠ g.unmarkedMines) ∧
  (g.status = .WIN →
    g.unknowns = 0 ∧ g.unmarkedMines = 0 ∧ countCells g.blocks isUQ = 0 ∧
    (∀ y < g.height, ∀ x < g.width, getCell g.mines y x = MINE_FLAG →
      getCell g.blocks y x = MARKED) ∧
    (∀ y < g.height, ∀ x < g.width, getCell g.mines y x ≠ MINE_FLAG →
      getCell g.blocks y x = getCell g.mines y x ∧ 0 ≤ getCell g.mines y x))

theorem minesWF_congr {g2 g1 : Game} (hw : g2.width = g1.width)
    (hh : g2.height = g1.height) (hm : g2.mines = g1.mines) (h : minesWF g1) :
    minesWF g2 := by
  intro y hy x hx
  rw [hm, findBlocksAround_congr hw hh]
  exact h y (by omega) x (by omega)

theorem minesWF_zeroSafe {g : Game} (h : minesWF g) : zeroSafe g := by
  intro p hpw hph hz b hb
  obtain ⟨hbw, hbh, _⟩ := mem_findBlocksAround.mp hb
  rcases h b.2 hbh b.1 hbw with hm | hm
  · exfalso
    rcases h p.2 hph p.1 hpw with hp | hp
    · rw [hz] at hp
      unfold MINE_FLAG at hp
      omega
    · rw [hz] at hp
      have hmem : b ∈ (findBlocksAround g p.1 p.2).filter
          (fun b => isMineV (getCell g.mines b.2 b.1)) := by
        rw [List.mem_filter]
        exact ⟨hb, by simp [isMineV, hm]⟩
      have hlen := List.length_pos_of_mem hmem
      omega
  · rw [hm]
    exact Int.natCast_nonneg _

theorem flagMines_cell {g : Game} (hs : gridShape g.blocks g.height g.width)
    (y x : Nat) (hy : y < g.height) (hx : x < g.width) :
    getCell (flagMines g) y x
      = if getCell g.mines y x = MINE_FLAG then MARKED else getCell g.blocks y x := by
  unfold flagMines
  rw [getCell_idxMapGrid]
  have hrl : (g.blocks.getD y []).length = g.width := hs.2 y hy
  rw [if_pos (by omega : x < (g.blocks.getD y []).length)]
  by_cases hm : getCell g.mines y x = MINE_FLAG
  · rw [if_pos ⟨hy, hx, hm⟩, if_pos hm]
  · rw [if_neg (by tauto), if_neg hm]

theorem checkWin_skip {g : Game} (h : g.unknowns ≠ g.unmarkedMines) : checkWin g = g := by
  unfold checkWin
  rw [if_neg h]

theorem checkWin_fire {g : Game} (h : g.unknowns = g.unmarkedMines) :
    checkWin g = { g with
      status := .WIN
      unmarkedMines := 0
      unknowns := 0
      blocks := flagMines g } := by
  unfold checkWin
  rw [if_pos h]

theorem isUQ_isMarked_disjoint :
    ∀ v : Int, ¬(isUQ v = true ∧ isMarked v = true) := by
  intro v
  simp only [isUQ, isMarked, UNKNWON, QUESTION, MARKED, Bool.or_eq_true, beq_iff_eq]
  omega

/-- At the moment the win equality holds on a well-formed `PLAYING` board,
every unrevealed (`UNKNWON`/`QUESTION`/`MARKED`) cell is exactly a mine, and
every non-mine cell is revealed. -/
theorem win_trigger {g : Game}
    (hbs : gridShape g.blocks g.height g.width)
    (hms : gridShape g.mines g.height g.width)
    (hbw : blocksWF g)
    (hM : g.mineQuantity = countCells g.mines isMineV)
    (hcntU : g.unknowns = (countCells g.blocks isUQ : Int))
    (hcntM : g.unmarkedMines = (g.mineQuantity : Int) - countCells g.blocks isMarked)
    (heq : g.unknowns = g.unmarkedMines) :
    (∀ y < g.height, ∀ x < g.width,
       (isUQ (getCell g.blocks y x) || isMarked (getCell g.blocks y x)) = true →
       getCell g.mines y x = MINE_FLAG) ∧
    (∀ y < g.height, ∀ x < g.width, getCell g.mines y x ≠ MINE_FLAG →
       0 ≤ getCell g.blocks y x ∧ getCell g.blocks y x = getCell g.mines y x) := by
  have hsum : countCells g.blocks isUQ + countCells g.blocks isMarked = g.mineQuantity := by
    omega
  have himp : ∀ v ∈ zipCells g.mines g.blocks, isMineV v.1 = true →
      (isUQ v.2 || isMarked v.2) = true := by
    intro v hv hp
    obtain ⟨y, x, hy, hx1, hx2, hveq⟩ := mem_zipCells hv
    have hyh : y < g.height := by rw [← hms.1]; exact hy
    have hxw : x < g.width := by
      have := hms.2 y hyh
      omega
    subst hveq
    simp only at hp ⊢
    simp only [isMineV, beq_iff_eq] at hp
    rcases hbw y hyh x hxw with h1 | h1 | h1 | ⟨h1, h2⟩
    · simp [isUQ, h1]
    · simp [isMarked, h1]
    · simp [isUQ, QUESTION, h1]
    · rw [hp] at h2
      unfold MINE_FLAG at h2
      omega
  have hcnt : (zipCells g.mines g.blocks).countP (fun v => isMineV v.1)
      = (zipCells g.mines g.blocks).countP (fun v => isUQ v.2 || isMarked v.2) := by
    have h1 := countP_zipCells_fst g.mines g.blocks g.height g.width hms hbs isMineV
    have h2 := countP_zipCells_snd g.mines g.blocks g.height g.width hms hbs
      (fun v => isUQ v || isMarked v)
    have h3 := gridSum_or_disjoint isUQ isMarked isUQ_isMarked_disjoint g.blocks
    rw [h1, h2, h3]
    omega
  have hpair := countP_pair_eq (zipCells g.mines g.blocks) _ _ himp hcnt
  have hmem : ∀ y < g.height, ∀ x < g.width,
      (getCell g.mines y x, getCell g.blocks y x) ∈ zipCells g.mines g.blocks := by
    intro y hy x hx
    exact getCell_mem_zipCells g.mines g.blocks y x (by rw [hms.1]; omega)
      (by rw [hbs.1]; omega) (by have := hms.2 y hy; omega) (by have := hbs.2 y hy; omega)
  constructor
  · intro y hy x hx hq
    have := hpair (getCell g.mines y x, getCell g.blocks y x) (hmem y hy x hx) hq
    simpa [isMineV] using this
  · intro y hy x hx hnm
    rcases hbw y hy x hx with h1 | h1 | h1 | ⟨h1, h2⟩
    · exfalso
      apply hnm
      have := hpair (getCell g.mines y x, getCell g.blocks y x) (hmem y hy x hx)
        (by simp [isUQ, h1])
      simpa [isMineV] using this
    · exfalso
      apply hnm
      have := hpair (getCell g.mines y x, getCell g.blocks y x) (hmem y hy x hx)
        (by simp [isMarked, h1])
      simpa [isMineV] using this
    · exfalso
      apply hnm
      have := hpair (getCell g.mines y x, getCell g.blocks y x) (hmem y hy x hx)
        (by simp [isUQ, QUESTION, h1])
      simpa [isMineV] using this
    · exact ⟨h1 ▸ h2, h1⟩

theorem checkWin_preserves {g : Game}
    (hbs : gridShape g.blocks g.height g.width)
    (hms : gridShape g.mines g.height g.width)
    (hmw : minesWF g)
    (hM : g.mineQuantity = countCells g.mines isMineV)
    (hpar : 2 ≤ g.mineQuantity ∧ g.mineQuantity < g.width * g.height ∧ 2 ≤ g.height)
    (hst : g.status = .PLAYING)
    (hbw : blocksWF g)
    (hcntU : g.unknowns = (countCells g.blocks isUQ : Int))
    (hcntM : g.unmarkedMines = (g.mineQuantity : Int) - countCells g.blocks isMarked) :
    Inv (checkWin g) := by
  by_cases heq : g.unknowns = g.unmarkedMines
  · rw [checkWin_fire heq]
    obtain ⟨hw1, hw2⟩ := win_trigger hbs hms hbw hM hcntU hcntM heq
    have hflagshape : gridShape (flagMines g) g.height g.width :=
      gridShape_idxMapGrid hbs _
    refine ⟨hflagshape, hms, minesWF_congr rfl rfl rfl hmw, hM, hpar, ?_, ?_⟩
    · intro h
      simp at h
    · intro _
      refine ⟨rfl, rfl, ?_, ?_, ?_⟩
      · apply countCells_eq_zero hflagshape
        intro y hy x hx
        rw [flagMines_cell hbs y x hy hx]
        by_cases hm : getCell g.mines y x = MINE_FLAG
        · rw [if_pos hm]
          decide
        · rw [if_neg hm]
          exact isUQ_false_of_nonneg (hw2 y hy x hx hm).1
      · intro y hy x hx hm
        show getCell (flagMines g) y x = MARKED
        rw [flagMines_cell hbs y x hy hx, if_pos hm]
      · intro y hy x hx hm
        show getCell (flagMines g) y x = getCell g.mines y x ∧ _
        rw [flagMines_cell hbs y x hy hx, if_neg hm]
        obtain ⟨hv1, hv2⟩ := hw2 y hy x hx hm
        exact ⟨hv2, hv2 ▸ hv1⟩
  · rw [checkWin_skip heq]
    refine ⟨hbs, hms, hmw, hM, hpar, fun _ => ⟨hbw, hcntU, hcntM, heq⟩, fun hwin => ?_⟩
    rw [hst] at hwin
    simp at hwin

theorem list_set_self {α : Type} (l : List α) (y : Nat) (h : y < l.length) :
    l.set y l[y] = l := by
  apply List.ext_getElem
  · simp
  · intro i h1 h2
    rw [List.getElem_set]
    by_cases hiy : y = i
    · subst hiy
      simp
    · rw [if_neg hiy]

theorem blocksWF_setCell {g : Game} (hbw : blocksWF g) (yn xn : Nat) (v : Int)
    (hv : v = UNKNWON ∨ v = MARKED ∨ v = QUESTION) :
    blocksWF { g with blocks := setCell g.blocks yn xn v } := by
  intro y hy x hx
  simp only
  by_cases hc : y = yn ∧ x = xn
  · obtain ⟨rfl, rfl⟩ := hc
    by_cases hin : y < g.blocks.length ∧ x < (g.blocks.getD y []).length
    · rw [getCell_setCell_self _ _ _ _ hin.1 hin.2]
      tauto
    · unfold setCell
      rcases not_and_or.mp hin with hno | hno
      · rw [List.set_eq_of_length_le (by omega)]
        exact hbw y hy x hx
      · rw [List.set_eq_of_length_le (l := g.blocks.getD y []) (by omega)]
        have : g.blocks.set y (g.blocks.getD y []) = g.blocks := by
          by_cases hyl : y < g.blocks.length
          · rw [List.getD_eq_getElem _ _ hyl, list_set_self _ _ hyl]
          · rw [List.set_eq_of_length_le (by omega)]
        rw [this]
        exact hbw y hy x hx
  · rw [getCell_setCell_ne _ _ _ _ _ _ (by tauto)]
    exact hbw y hy x hx

theorem checkWin_preserves_set (g : Game)
    (hbs : gridShape g.blocks g.height g.width)
    (hms : gridShape g.mines g.height g.width)
    (hmw : minesWF g)
    (hM : g.mineQuantity = countCells g.mines isMineV)
    (hpar : 2 ≤ g.mineQuantity ∧ g.mineQuantity < g.width * g.height ∧ 2 ≤ g.height)
    (hst : g.status = .PLAYING)
    (hbw : blocksWF g)
    (hcntU : g.unknowns = (countCells g.blocks isUQ : Int))
    (hcntM : g.unmarkedMines = (g.mineQuantity : Int) - countCells g.blocks isMarked)
    (yn xn : Nat) (v du dm : Int)
    (hval : v = UNKNWON ∨ v = MARKED ∨ v = QUESTION)
    (hdu : (countCells (setCell g.blocks yn xn v) isUQ : Int)
        = countCells g.blocks isUQ + du)
    (hdm : (countCells (setCell g.blocks yn xn v) isMarked : Int)
        = countCells g.blocks isMarked + dm) :
    Inv (checkWin { g with
      blocks := setCell g.blocks yn xn v
      unknowns := g.unknowns + du
      unmarkedMines := g.unmarkedMines - dm }) := by
  apply checkWin_preserves
  · exact gridShape_setCell hbs yn xn v
  · exact hms
  · exact minesWF_congr rfl rfl rfl hmw
  · exact hM
  · exact hpar
  · exact hst
  · exact blocksWF_setCell hbw yn xn v hval
  · simp only
    omega
  · simp only
    omega

theorem getBlock_ok {g : Game} {x y : Int} {blk : Int}
    (h : getBlock g x y = .ok blk) :
    x.toNat < g.width ∧ y.toNat < g.height ∧ 0 ≤ x ∧ 0 ≤ y ∧
      blk = getCell g.blocks y.toNat x.toNat := by
  unfold getBlock at h
  split at h
  · rename_i hc
    unfold checkCoordinate at hc
    simp only [Bool.and_eq_true, decide_eq_true_eq] at hc
    obtain ⟨⟨⟨h1, h2⟩, h3⟩, h4⟩ := hc
    exact ⟨by omega, by omega, h1, h3, (Except.ok.inj h).symm⟩
  · exact absurd h (by simp)

theorem isUQ_U : isUQ UNKNWON = true := by decide

theorem isUQ_M : isUQ MARKED = false := by decide

theorem isUQ_Q : isUQ QUESTION = true := by decide

theorem isMarked_U : isMarked UNKNWON = false := by decide

theorem isMarked_M : isMarked MARKED = true := by decide

theorem isMarked_Q : isMarked QUESTION = false := by decide

theorem blocksWF_congr {g2 g1 : Game} (hw : g2.width = g1.width)
    (hh : g2.height = g1.height) (hm : g2.mines = g1.mines)
    (hb : g2.blocks = g1.blocks) (h : blocksWF g1) : blocksWF g2 := by
  intro y hy x hx
  rw [hb, hm]
  exact h y (by omega) x (by omega)

theorem mark_delta (g : Game) (hbs : gridShape g.blocks g.height g.width)
    (yn xn : Nat) (hyn : yn < g.height) (hxn : xn < g.width) (v : Int) :
    countCells (setCell g.blocks yn xn v) isUQ
        + (if isUQ (getCell g.blocks yn xn) then 1 else 0)
      = countCells g.blocks isUQ + (if isUQ v then 1 else 0) ∧
    countCells (setCell g.blocks yn xn v) isMarked
        + (if isMarked (getCell g.blocks yn xn) then 1 else 0)
      = countCells g.blocks isMarked + (if isMarked v then 1 else 0) := by
  constructor <;>
    exact countCells_setCell_add _ g.blocks yn xn v (by rw [hbs.1]; omega)
      (by have := hbs.2 yn hyn; omega)

/-- The state after one accepted `mark` transition keeps the invariant and
keeps the two counters apart, so the trailing `_checkWin` does nothing. -/
theorem inv_mark_post (g : Game)
    (hbs : gridShape g.blocks g.height g.width)
    (hms : gridShape g.mines g.height g.width)
    (hmw : minesWF g)
    (hM : g.mineQuantity = countCells g.mines isMineV)
    (hpar : 2 ≤ g.mineQuantity ∧ g.mineQuantity < g.width * g.height ∧ 2 ≤ g.height)
    (hst : g.status = .PLAYING)
    (hbw : blocksWF g)
    (hcntU : g.unknowns = (countCells g.blocks isUQ : Int))
    (hcntM : g.unmarkedMines = (g.mineQuantity : Int) - countCells g.blocks isMarked)
    (hne : g.unknowns ≠ g.unmarkedMines)
    (yn xn : Nat) (v : Int) (hval : v = UNKNWON ∨ v = MARKED ∨ v = QUESTION)
    (du dm u2 m2 : Int) (hdelta : du = -dm)
    (hdu : (countCells (setCell g.blocks yn xn v) isUQ : Int)
        = countCells g.blocks isUQ + du)
    (hdm : (countCells (setCell g.blocks yn xn v) isMarked : Int)
        = countCells g.blocks isMarked + dm)
    (hu2 : u2 = g.unknowns + du) (hm2 : m2 = g.unmarkedMines - dm) :
    Inv { g with
      blocks := setCell g.blocks yn xn v
      unknowns := u2
      unmarkedMines := m2 } ∧
    checkWin { g with
      blocks := setCell g.blocks yn xn v
      unknowns := u2
      unmarkedMines := m2 } = { g with
      blocks := setCell g.blocks yn xn v
      unknowns := u2
      unmarkedMines := m2 } := by
  have hne2 : u2 ≠ m2 := by omega
  refine ⟨⟨gridShape_setCell hbs yn xn v, hms, minesWF_congr rfl rfl rfl hmw, hM, hpar,
    ?_, ?_⟩, checkWin_skip hne2⟩
  · intro _
    refine ⟨?_, ?_, ?_, hne2⟩
    · exact blocksWF_congr rfl rfl rfl rfl (blocksWF_setCell hbw yn xn v hval)
    · simp only
      omega
    · simp only
      omega
  · intro hwrong
    simp only [hst] at hwrong
    simp at hwrong

/-- `mark` preserves the global invariant. -/
theorem mark_inv {g : Game} (hInv : Inv g) (x y : Int) (style : EMarkStyle)
    {res : Game × Bool} (h : mark g x y style = .ok res) : Inv res.1 := by
  obtain ⟨hbs, hms, hmw, hM, hpar, hplay, hwin⟩ := hInv
  unfold mark at h
  by_cases hst : g.status ≠ .PLAYING
  · rw [if_pos hst] at h
    obtain rfl : (g, false) = res := Except.ok.inj h
    exact ⟨hbs, hms, hmw, hM, hpar, hplay, hwin⟩
  · rw [if_neg hst] at h
    rw [not_not] at hst
    obtain ⟨hbw, hcntU, hcntM, hne⟩ := hplay hst
    split at h
    · exact absurd h (by simp)
    · rename_i blk hgb
      obtain ⟨hxw, hyh, hx0, hy0, hblk⟩ := getBlock_ok hgb
      by_cases h1 : blk = MARKED
      · rw [if_pos h1] at h
        have hold : getCell g.blocks y.toNat x.toNat = MARKED := by rw [← hblk]; exact h1
        cases style with
        | MINE =>
          obtain rfl : (checkWin g, true) = res := Except.ok.inj h
          exact checkWin_preserves hbs hms hmw hM hpar hst hbw hcntU hcntM
        | UNMARKED =>
          obtain ⟨hi, hcw⟩ := inv_mark_post g hbs hms hmw hM hpar hst hbw hcntU hcntM hne
            y.toNat x.toNat UNKNWON (by tauto) 1 (-1) (g.unknowns + 1) (g.unmarkedMines + 1)
            (by omega)
            (by have := (mark_delta g hbs y.toNat x.toNat hyh hxw (v := UNKNWON)).1
                rw [hold] at this
                simp [isUQ_U, isUQ_M, isUQ_Q, isMarked_U, isMarked_M, isMarked_Q] at this
                omega)
            (by have := (mark_delta g hbs y.toNat x.toNat hyh hxw (v := UNKNWON)).2
                rw [hold] at this
                simp [isUQ_U, isUQ_M, isUQ_Q, isMarked_U, isMarked_M, isMarked_Q] at this
                omega)
            (by omega) (by omega)
          rw [hcw] at h
          obtain rfl := Except.ok.inj h
          exact hi
        | QUESTION =>
          obtain ⟨hi, hcw⟩ := inv_mark_post g hbs hms hmw hM hpar hst hbw hcntU hcntM hne
            y.toNat x.toNat QUESTION (by tauto) 1 (-1) (g.unknowns + 1) (g.unmarkedMines + 1)
            (by omega)
            (by have := (mark_delta g hbs y.toNat x.toNat hyh hxw (v := QUESTION)).1
                rw [hold] at this
                simp [isUQ_U, isUQ_M, isUQ_Q, isMarked_U, isMarked_M, isMarked_Q] at this
                omega)
            (by have := (mark_delta g hbs y.toNat x.toNat hyh hxw (v := QUESTION)).2
                rw [hold] at this
                simp [isUQ_U, isUQ_M, isUQ_Q, isMarked_U, isMarked_M, isMarked_Q] at this
                omega)
            (by omega) (by omega)
          rw [hcw] at h
          obtain rfl := Except.ok.inj h
          exact hi
      · rw [if_neg h1] at h
        by_cases h2 : blk = QUESTION
        · rw [if_pos h2] at h
          have hold : getCell g.blocks y.toNat x.toNat = QUESTION := by rw [← hblk]; exact h2
          cases style with
          | MINE =>
            obtain ⟨hi, hcw⟩ := inv_mark_post g hbs hms hmw hM hpar hst hbw hcntU hcntM hne
              y.toNat x.toNat MARKED (by tauto) (-1) 1 (g.unknowns - 1) (g.unmarkedMines - 1)
              (by omega)
              (by have := (mark_delta g hbs y.toNat x.toNat hyh hxw (v := MARKED)).1
                  rw [hold] at this
                  simp [isUQ_U, isUQ_M, isUQ_Q, isMarked_U, isMarked_M, isMarked_Q] at this
                  omega)
              (by have := (mark_delta g hbs y.toNat x.toNat hyh hxw (v := MARKED)).2
                  rw [hold] at this
                  simp [isUQ_U, isUQ_M, isUQ_Q, isMarked_U, isMarked_M, isMarked_Q] at this
                  omega)
              (by omega) (by omega)
            rw [hcw] at h
            obtain rfl := Except.ok.inj h
            exact hi
          | UNMARKED =>
            obtain ⟨hi, hcw⟩ := inv_mark_post g hbs hms hmw hM hpar hst hbw hcntU hcntM hne
              y.toNat x.toNat UNKNWON (by tauto) 0 0 g.unknowns g.unmarkedMines
              (by omega)
              (by have := (mark_delta g hbs y.toNat x.toNat hyh hxw (v := UNKNWON)).1
                  rw [hold] at this
                  simp [isUQ_U, isUQ_M, isUQ_Q, isMarked_U, isMarked_M, isMarked_Q] at this
                  omega)
              (by have := (mark_delta g hbs y.toNat x.toNat hyh hxw (v := UNKNWON)).2
                  rw [hold] at this
                  simp [isUQ_U, isUQ_M, isUQ_Q, isMarked_U, isMarked_M, isMarked_Q] at this
                  omega)
              (by omega) (by omega)
            rw [hcw] at h
            obtain rfl := Except.ok.inj h
            exact hi
          | QUESTION =>
            obtain rfl : (checkWin g, true) = res := Except.ok.inj h
            exact checkWin_preserves hbs hms hmw hM hpar hst hbw hcntU hcntM
        · rw [if_neg h2] at h
          by_cases h3 : blk = UNKNWON
          · rw [if_pos h3] at h
            have hold : getCell g.blocks y.toNat x.toNat = UNKNWON := by rw [← hblk]; exact h3
            cases style with
            | MINE =>
              obtain ⟨hi, hcw⟩ := inv_mark_post g hbs hms hmw hM hpar hst hbw hcntU hcntM hne
                y.toNat x.toNat MARKED (by tauto) (-1) 1 (g.unknowns - 1) (g.unmarkedMines - 1)
                (by omega)
                (by have := (mark_delta g hbs y.toNat x.toNat hyh hxw (v := MARKED)).1
                    rw [hold] at this
                    simp [isUQ_U, isUQ_M, isUQ_Q, isMarked_U, isMarked_M, isMarked_Q] at this
                    omega)
                (by have := (mark_delta g hbs y.toNat x.toNat hyh hxw (v := MARKED)).2
                    rw [hold] at this
                    simp [isUQ_U, isUQ_M, isUQ_Q, isMarked_U, isMarked_M, isMarked_Q] at this
                    omega)
                (by omega) (by omega)
              rw [hcw] at h
              obtain rfl := Except.ok.inj h
              exact hi
            | UNMARKED =>
              obtain rfl : (checkWin g, true) = res := Except.ok.inj h
              exact checkWin_preserves hbs hms hmw hM hpar hst hbw hcntU hcntM
            | QUESTION =>
              obtain ⟨hi, hcw⟩ := inv_mark_post g hbs hms hmw hM hpar hst hbw hcntU hcntM hne
                y.toNat x.toNat QUESTION (by tauto) 0 0 g.unknowns g.unmarkedMines
                (by omega)
                (by have := (mark_delta g hbs y.toNat x.toNat hyh hxw (v := QUESTION)).1
                    rw [hold] at this
                    simp [isUQ_U, isUQ_M, isUQ_Q, isMarked_U, isMarked_M, isMarked_Q] at this
                    omega)
                (by have := (mark_delta g hbs y.toNat x.toNat hyh hxw (v := QUESTION)).2
                    rw [hold] at this
                    simp [isUQ_U, isUQ_M, isUQ_Q, isMarked_U, isMarked_M, isMarked_Q] at this
                    omega)
                (by omega) (by omega)
              rw [hcw] at h
              obtain rfl := Except.ok.inj h
              exact hi
          · rw [if_neg h3] at h
            obtain rfl : (g, false) = res := Except.ok.inj h
            exact ⟨hbs, hms, hmw, hM, hpar, fun _ => ⟨hbw, hcntU, hcntM, hne⟩, hwin⟩

theorem die_cell {g : Game} (hbs : gridShape g.blocks g.height g.width)
    (x y : Nat) (j i : Nat) (hj : j < g.height) (hi : i < g.width) :
    getCell (die g x y).blocks j i
      = dieCell g.showMinesOnlyOnFailed (getCell g.mines j i)
          (getCell (setCell g.blocks y x DEAD) j i) := by
  show getCell (idxMapGrid _ 0 (setCell g.blocks y x DEAD)) j i = _
  rw [getCell_idxMapGrid]
  have hlen : ((setCell g.blocks y x DEAD).getD j []).length = g.width := by
    rw [rowLen_setCell]
    exact hbs.2 j hj
  rw [if_pos (by omega), if_pos ⟨hj, hi⟩]

theorem die_inv {g : Game}
    (hbs : gridShape g.blocks g.height g.width)
    (hms : gridShape g.mines g.height g.width)
    (hmw : minesWF g)
    (hM : g.mineQuantity = countCells g.mines isMineV)
    (hpar : 2 ≤ g.mineQuantity ∧ g.mineQuantity < g.width * g.height ∧ 2 ≤ g.height)
    (x y : Nat) : Inv (die g x y) := by
  refine ⟨gridShape_idxMapGrid (gridShape_setCell hbs y x DEAD) _, hms,
    minesWF_congr rfl rfl rfl hmw, hM, hpar, ?_, ?_⟩
  · intro hcontra
    simp [die] at hcontra
  · intro hcontra
    simp [die] at hcontra

theorem Reveals.last {g : Game} {a c : Nat × Nat} (h : Reveals g a c) :
    c = a ∨ ∃ b : Nat × Nat, b.1 < g.width ∧ b.2 < g.height ∧
      getCell g.mines b.2 b.1 = 0 ∧ c ∈ findBlocksAround g b.1 b.2 := by
  cases h with
  | refl => exact Or.inl rfl
  | step hr hbw hbh hz hmem hU => exact Or.inr ⟨_, hbw, hbh, hz, hmem⟩

/-- `sweepGo` (the in-bounds body of `sweep`) preserves the invariant. -/
theorem sweepGo_inv {g : Game} (hInv : Inv g) (x y : Nat)
    (hx : x < g.width) (hy : y < g.height) : Inv (sweepGo g x y) := by
  obtain ⟨hbs, hms, hmw, hM, hpar, hplay, hwin⟩ := hInv
  unfold sweepGo
  split
  · exact ⟨hbs, hms, hmw, hM, hpar, hplay, hwin⟩
  · rename_i hcond
    rw [not_or, not_not, not_not] at hcond
    obtain ⟨hst, hU⟩ := hcond
    obtain ⟨hbw, hcntU, hcntM, hne⟩ := hplay hst
    split
    · exact die_inv hbs hms hmw hM hpar x y
    · rename_i hnotmine
      have hmval : 0 ≤ getCell g.mines y x := by
        rcases hmw y hy x hx with h | h
        · exact absurd h hnotmine
        · rw [h]
          exact Int.natCast_nonneg _
      have hyl : y < g.blocks.length := by rw [hbs.1]; omega
      have hxl : x < (g.blocks.getD y []).length := by have := hbs.2 y hy; omega
      set g1 : Game := { g with blocks := setCell g.blocks y x (getCell g.mines y x) }
        with hg1def
      set g2 : Game := floodFill g1 [(x, y)] with hg2def
      have hw2 : g2.width = g.width := floodFill_width g1 [(x, y)]
      have hh2 : g2.height = g.height := floodFill_height g1 [(x, y)]
      have hm2 : g2.mines = g.mines := floodFill_mines g1 [(x, y)]
      have hs2 : g2.status = g.status := floodFill_status g1 [(x, y)]
      have hum2 : g2.unmarkedMines = g.unmarkedMines := floodFill_unmarkedMines g1 [(x, y)]
      have hq2 : g2.mineQuantity = g.mineQuantity := (floodFill_config g1 [(x, y)]).2.2.1
      have hg1unk : g1.unknowns = g.unknowns := rfl
      have hz1 : zeroSafe g1 := zeroSafe_congr rfl rfl rfl (minesWF_zeroSafe hmw)
      have hshape1 : gridShape g1.blocks g.height g.width := gridShape_setCell hbs y x _
      have hshape2 : gridShape g2.blocks g.height g.width := by
        constructor
        · rw [hg2def, floodFill_blocks_len]
          exact hshape1.1
        · intro i hi
          rw [hg2def, floodFill_rowLen]
          exact hshape1.2 i hi
      have hg1u : countCells g1.blocks isUQ + 1 = countCells g.blocks isUQ := by
        have h1 := countCells_setCell_add isUQ g.blocks y x (getCell g.mines y x) hyl hxl
        rw [isUQ_of_U hU, isUQ_false_of_nonneg hmval] at h1
        simp at h1
        exact h1
      have hg1m : countCells g1.blocks isMarked = countCells g.blocks isMarked := by
        have h1 := countCells_setCell_add isMarked g.blocks y x (getCell g.mines y x) hyl hxl
        have e1 : isMarked (getCell g.blocks y x) = false := by
          rw [hU]
          decide
        rw [e1, isMarked_false_of_nonneg hmval] at h1
        simpa using h1
      have hflood := floodFill_unknowns g1 [(x, y)] hz1
      rw [← hg2def] at hflood
      have hfloodm := floodFill_marked g1 [(x, y)] hz1
      rw [← hg2def] at hfloodm
      apply checkWin_preserves
      · show gridShape g2.blocks _ _
        have hh3 : ({ g2 with unknowns := g2.unknowns - 1 } : Game).height = g.height := hh2
        have hw3 : ({ g2 with unknowns := g2.unknowns - 1 } : Game).width = g.width := hw2
        rw [hh3, hw3]
        exact hshape2
      · show gridShape g2.mines _ _
        have hh3 : ({ g2 with unknowns := g2.unknowns - 1 } : Game).height = g.height := hh2
        have hw3 : ({ g2 with unknowns := g2.unknowns - 1 } : Game).width = g.width := hw2
        rw [hh3, hw3, hm2]
        exact hms
      · exact minesWF_congr hw2 hh2 hm2 hmw
      · show g2.mineQuantity = countCells g2.mines isMineV
        rw [hq2, hm2]
        exact hM
      · show 2 ≤ g2.mineQuantity ∧ g2.mineQuantity < g2.width * g2.height ∧ 2 ≤ g2.height
        rw [hq2, hw2, hh2]
        exact hpar
      · show g2.status = .PLAYING
        rw [hs2]
        exact hst
      · intro j hj i hi
        simp only at hj hi ⊢
        rw [hh2] at hj
        rw [hw2] at hi
        rw [hm2]
        rcases floodFill_cell g1 [(x, y)] j i with hsame | ⟨hwasU, hval, a, ha, hrev⟩
        · rw [← hg2def] at hsame
          by_cases hc : j = y ∧ i = x
          · obtain ⟨rfl, rfl⟩ := hc
            right
            right
            right
            rw [hsame]
            show getCell (setCell g.blocks j i (getCell g.mines j i)) j i = _ ∧ _
            rw [getCell_setCell_self _ _ _ _ hyl hxl]
            exact ⟨rfl, hmval⟩
          · rw [hsame]
            show getCell (setCell g.blocks y x (getCell g.mines y x)) j i = UNKNWON ∨ _
            rw [getCell_setCell_ne _ _ _ _ _ _ (by tauto)]
            exact hbw j hj i hi
        · rw [← hg2def] at hval
          right
          right
          right
          rw [hval]
          have ha2 : a = (x, y) := by simpa using ha
          subst ha2
          show getCell g1.mines j i = getCell g.mines j i ∧ 0 ≤ getCell g.mines j i
          refine ⟨rfl, ?_⟩
          rcases Reveals.last hrev with heq | ⟨b, hbw', hbh', hbz, hbmem⟩
          · have h1 : i = x := congrArg Prod.fst heq
            have h2 : j = y := congrArg Prod.snd heq
            subst h1
            subst h2
            exact hmval
          · have := hz1 b hbw' hbh' hbz (i, j) hbmem
            exact this
      · show g2.unknowns - 1 = (countCells g2.blocks isUQ : Int)
        omega
      · show g2.unmarkedMines = (g2.mineQuantity : Int) - countCells g2.blocks isMarked
        rw [hq2, hum2, hfloodm, hg1m]
        exact hcntM

theorem checkWin_width (g : Game) : (checkWin g).width = g.width := by
  unfold checkWin
  split <;> rfl

theorem checkWin_height (g : Game) : (checkWin g).height = g.height := by
  unfold checkWin
  split <;> rfl

theorem sweepGo_width (g : Game) (x y : Nat) : (sweepGo g x y).width = g.width := by
  unfold sweepGo
  split
  · rfl
  · split
    · rfl
    · exact (checkWin_width _).trans (floodFill_width _ _)

theorem sweepGo_height (g : Game) (x y : Nat) : (sweepGo g x y).height = g.height := by
  unfold sweepGo
  split
  · rfl
  · split
    · rfl
    · exact (checkWin_height _).trans (floodFill_height _ _)

/-- A successful `sweep` is `sweepGo` at the truncated coordinates, which are
in bounds. -/
theorem sweep_ok {g : Game} {x y : Int} {p : Game × EGameStatus}
    (h : sweep g x y = .ok p) :
    x.toNat < g.width ∧ y.toNat < g.height ∧ 0 ≤ x ∧ 0 ≤ y ∧
      p = (sweepGo g x.toNat y.toNat, (sweepGo g x.toNat y.toNat).status) := by
  unfold sweep at h
  split at h
  · exact absurd h (by simp)
  · rename_i blk hgb
    obtain ⟨h1, h2, h3, h4, _⟩ := getBlock_ok hgb
    exact ⟨h1, h2, h3, h4, (Except.ok.inj h).symm⟩

/-- `sweep` preserves the global invariant. -/
theorem sweep_inv {g : Game} (hInv : Inv g) (x y : Int) {p : Game × EGameStatus}
    (h : sweep g x y = .ok p) : Inv p.1 := by
  obtain ⟨h1, h2, _, _, hp⟩ := sweep_ok h
  rw [hp]
  exact sweepGo_inv hInv x.toNat y.toNat h1 h2

theorem exploreStep_inv {g : Game} (hInv : Inv g) (b : Nat × Nat)
    (hb1 : b.1 < g.width) (hb2 : b.2 < g.height) : Inv (exploreStep g b) := by
  unfold exploreStep
  split
  · exact sweepGo_inv hInv b.1 b.2 hb1 hb2
  · exact hInv

theorem exploreStep_width (g : Game) (b : Nat × Nat) :
    (exploreStep g b).width = g.width := by
  unfold exploreStep
  split
  · exact sweepGo_width g b.1 b.2
  · rfl

theorem exploreStep_height (g : Game) (b : Nat × Nat) :
    (exploreStep g b).height = g.height := by
  unfold exploreStep
  split
  · exact sweepGo_height g b.1 b.2
  · rfl

theorem exploreLoop_inv {g : Game} (hInv : Inv g) (l : List (Nat × Nat))
    (hl : ∀ b ∈ l, b.1 < g.width ∧ b.2 < g.height) : Inv (exploreLoop g l) := by
  induction l generalizing g with
  | nil => exact hInv
  | cons b bs ih =>
    have hb := hl b (List.mem_cons_self b bs)
    have h1 : Inv (exploreStep g b) := exploreStep_inv hInv b hb.1 hb.2
    unfold exploreLoop
    split
    · exact h1
    · apply ih h1
      intro c hc
      rw [exploreStep_width, exploreStep_height]
      exact hl c (List.mem_cons_of_mem b hc)

/-- `explore` preserves the global invariant. -/
theorem explore_inv {g : Game} (hInv : Inv g) (x y : Int) {p : Game × EGameStatus}
    (h : explore g x y = .ok p) : Inv p.1 := by
  unfold explore at h
  split at h
  · exact absurd h (by simp)
  · rename_i blk hgb
    split at h
    · obtain rfl := Except.ok.inj h
      exact hInv
    · split at h
      · obtain rfl := Except.ok.inj h
        show Inv (exploreLoop g (findBlocksAround g x.toNat y.toNat))
        apply exploreLoop_inv hInv
        intro b hb
        have := mem_findBlocksAround.mp hb
        exact ⟨this.1, this.2.1⟩
      · obtain rfl := Except.ok.inj h
        exact hInv

theorem set_getD_self (m : Grid) (j : Nat) (h : j < m.length) :
    m.set j (m.getD j []) = m := by
  have he : m.getD j [] = m[j] := List.getD_eq_getElem m [] h
  rw [he]
  exact list_set_self m j h

theorem getCell_setCell_cases (m : Grid) (y x : Nat) (v : Int) (j i : Nat) :
    getCell (setCell m y x v) j i = getCell m j i ∨
      getCell (setCell m y x v) j i = v := by
  by_cases hij : j = y ∧ i = x
  · obtain ⟨rfl, rfl⟩ := hij
    by_cases hy : j < m.length
    · by_cases hx : i < (m.getD j []).length
      · exact Or.inr (getCell_setCell_self m j i v hy hx)
      · left
        unfold setCell
        have hin : (m.getD j []).set i v = m.getD j [] :=
          List.set_eq_of_length_le (by omega)
        rw [hin, set_getD_self m j hy]
    · left
      unfold setCell
      rw [List.set_eq_of_length_le (by omega)]
  · exact Or.inl (getCell_setCell_ne m y x v j i hij)

theorem countP_replicate (w : Nat) (v : Int) (p : Int → Bool) :
    (List.replicate w v).countP p = if p v then w else 0 := by
  induction w with
  | zero => simp
  | succ n ih =>
    rw [List.replicate_succ, List.countP_cons, ih]
    by_cases hp : p v
    · simp [hp]
    · simp [hp]

theorem countCells_replicate (h w : Nat) (v : Int) (p : Int → Bool) :
    countCells (List.replicate h (List.replicate w v)) p
      = if p v then h * w else 0 := by
  unfold countCells
  rw [List.map_replicate, countP_replicate, List.sum_replicate, smul_eq_mul]
  by_cases hp : p v
  · simp [hp]
  · simp [hp]

theorem length_filter_flip (l : List (Nat × Nat)) (p q : Nat × Nat → Bool)
    (a : Nat × Nat) (hnd : l.Nodup)
    (hne : ∀ b ∈ l, b ≠ a → q b = p b) (hq : q a = true) (hp : p a = false) :
    (l.filter q).length
      = (l.filter p).length + (if a ∈ l then 1 else 0) := by
  induction l with
  | nil => simp
  | cons c cs ih =>
    have hnd' : cs.Nodup := (List.nodup_cons.mp hnd).2
    have hcn : c ∉ cs := (List.nodup_cons.mp hnd).1
    by_cases hc : c = a
    · subst hc
      have hfeq : cs.filter q = cs.filter p :=
        List.filter_congr (fun b hb => hne b (List.mem_cons_of_mem c hb)
          (fun he => hcn (he ▸ hb)))
      first
      | (simp [List.filter_cons, hq, hp, hfeq]; omega)
      | simp [List.filter_cons, hq, hp, hfeq]
    · have hqc : q c = p c := hne c (List.mem_cons_self c cs) hc
      have ih' := ih hnd' (fun b hb hba => hne b (List.mem_cons_of_mem c hb) hba)
      have hiteeq : (if a ∈ c :: cs then (1 : Nat) else 0)
          = if a ∈ cs then 1 else 0 := by
        by_cases hm : a ∈ cs
        · rw [if_pos (List.mem_cons_of_mem c hm), if_pos hm]
        · rw [if_neg ?_, if_neg hm]
          intro hmm
          rcases List.mem_cons.mp hmm with he | he
          · exact hc he.symm
          · exact hm he
      rw [List.filter_cons, List.filter_cons, hqc, hiteeq]
      cases hpc : p c with
      | true =>
        first
        | (simp [hpc, ih']; omega)
        | simp [hpc, ih']
      | false =>
        first
        | (simp [hpc, ih']; omega)
        | simp [hpc, ih']

theorem neighborCandidates_pairwise (x y : Nat) :
    (neighborCandidates x y).Pairwise (· ≠ ·) := by
  unfold neighborCandidates
  simp only [List.pairwise_cons, List.mem_cons, List.not_mem_nil, or_false,
    List.Pairwise.nil, and_true, ne_eq]
  refine ⟨?_, ?_, ?_, ?_, ?_, ?_, ?_, ?_⟩ <;>
    · rintro ⟨a1, a2⟩ h heq
      first
      | (simp only [Prod.mk.injEq] at heq h; omega)
      | simp only [Prod.mk.injEq] at heq h

theorem findBlocksAround_nodup (g : Game) (x y : Nat) :
    (findBlocksAround g x y).Nodup := by
  unfold findBlocksAround
  apply List.Nodup.filterMap
  · intro a b c hc hc'
    obtain ⟨a1, a2⟩ := a
    obtain ⟨b1, b2⟩ := b
    rw [Option.mem_def] at hc hc'
    split at hc
    · rename_i hca
      split at hc'
      · rename_i hcb
        simp only [checkCoordinate, Bool.and_eq_true, decide_eq_true_eq] at hca hcb
        have e1 := Option.some.inj hc
        have e2 := Option.some.inj hc'
        rw [← e2] at e1
        simp only [Prod.mk.injEq] at e1 ⊢
        omega
      · exact absurd hc' (by simp)
    · exact absurd hc (by simp)
  · exact neighborCandidates_pairwise x y

/-- Every cell of the grid (out-of-range reads included) is a mine flag or a
nonnegative count. -/
def minesLike (m : Grid) : Prop :=
  ∀ j i : Nat, getCell m j i = MINE_FLAG ∨ 0 ≤ getCell m j i

theorem minesWF_minesLike {g : Game} (hsh : gridShape g.mines g.height g.width)
    (hmw : minesWF g) : minesLike g.mines := by
  intro j i
  by_cases hj : j < g.height
  · by_cases hi : i < g.width
    · rcases hmw j hj i hi with h | h
      · exact Or.inl h
      · right
        rw [h]
        exact Int.natCast_nonneg _
    · right
      rw [getCell_out_right (by rw [hsh.2 j hj]; omega)]
  · right
    rw [getCell_out_left (by rw [hsh.1]; omega)]

theorem square3_pairwise (x y : Nat) : (square3 x y).Pairwise (· ≠ ·) := by
  unfold square3
  simp only [List.pairwise_cons, List.mem_cons, List.not_mem_nil, or_false,
    List.Pairwise.nil, and_true, ne_eq]
  refine ⟨?_, ?_, ?_, ?_, ?_, ?_, ?_, ?_, ?_⟩ <;>
    · rintro ⟨a1, a2⟩ h heq
      first
      | (simp only [Prod.mk.injEq] at heq h; omega)
      | simp only [Prod.mk.injEq] at heq h

theorem mem_square3 {x y : Nat} {c : Int × Int} :
    c ∈ square3 x y ↔
      (x : Int) - 1 ≤ c.1 ∧ c.1 ≤ (x : Int) + 1 ∧
        (y : Int) - 1 ≤ c.2 ∧ c.2 ≤ (y : Int) + 1 := by
  obtain ⟨c1, c2⟩ := c
  unfold square3
  simp only [List.mem_cons, List.not_mem_nil, or_false, Prod.mk.injEq]
  omega

theorem bumpStep_minesLike {g : Game} {m : Grid} (h : minesLike m)
    (c : Int × Int) : minesLike (bumpStep g m c) := by
  intro j i
  unfold bumpStep
  split
  · rename_i hcc
    rcases getCell_setCell_cases m c.2.toNat c.1.toNat
        (getCell m c.2.toNat c.1.toNat + 1) j i with he | he
    · rw [he]
      exact h j i
    · rw [he]
      right
      rcases h c.2.toNat c.1.toNat with hm | hm
      · exact absurd hm hcc.2
      · omega
  · exact h j i

theorem bumpStep_shape {g : Game} {m : Grid} {h w : Nat} (hs : gridShape m h w)
    (c : Int × Int) : gridShape (bumpStep g m c) h w := by
  unfold bumpStep
  split
  · exact gridShape_setCell hs _ _ _
  · exact hs

theorem bumpStep_count {g : Game} {m : Grid} (hml : minesLike m)
    (c : Int × Int) (hsh : gridShape m g.height g.width) :
    countCells (bumpStep g m c) isMineV = countCells m isMineV := by
  unfold bumpStep
  split
  · rename_i hcc
    obtain ⟨hc1, hc2⟩ := hcc
    simp only [checkCoordinate, Bool.and_eq_true, decide_eq_true_eq] at hc1
    have hb1 : c.2.toNat < m.length := by rw [hsh.1]; omega
    have hb2 : c.1.toNat < (m.getD c.2.toNat []).length := by
      rw [hsh.2 c.2.toNat (by omega)]
      omega
    have hcs := countCells_setCell_add isMineV m c.2.toNat c.1.toNat
        (getCell m c.2.toNat c.1.toNat + 1) hb1 hb2
    have h0 : isMineV (getCell m c.2.toNat c.1.toNat) = false := by
      simp only [isMineV, beq_eq_false_iff_ne, ne_eq]
      exact hc2
    have h1 : isMineV (getCell m c.2.toNat c.1.toNat + 1) = false := by
      rcases hml c.2.toNat c.1.toNat with hm | hm
      · exact absurd hm hc2
      · simp only [isMineV, MINE_FLAG, beq_eq_false_iff_ne, ne_eq]
        omega
    rw [h0, h1] at hcs
    simpa using hcs
  · rfl

theorem bumpStep_cell (g : Game) (m : Grid) (c : Int × Int) (j i : Nat)
    (hsh : gridShape m g.height g.width) :
    getCell (bumpStep g m c) j i =
      if c = ((i : Int), (j : Int)) ∧ checkCoordinate g i j = true ∧
          getCell m j i ≠ MINE_FLAG then
        getCell m j i + 1
      else getCell m j i := by
  have ei : ((i : Int)).toNat = i := by omega
  have ej : ((j : Int)).toNat = j := by omega
  unfold bumpStep
  split
  · rename_i hg
    obtain ⟨hg1, hg2⟩ := hg
    by_cases hc : c.2.toNat = j ∧ c.1.toNat = i
    · obtain ⟨hcj, hci⟩ := hc
      have hnn : 0 ≤ c.1 ∧ 0 ≤ c.2 := by
        simp only [checkCoordinate, Bool.and_eq_true, decide_eq_true_eq] at hg1
        exact ⟨hg1.1.1.1, hg1.1.2⟩
      have hc1 : c.1 = (i : Int) := by omega
      have hc2 : c.2 = (j : Int) := by omega
      have hceq : c = ((i : Int), (j : Int)) := by
        obtain ⟨u, v⟩ := c
        simp only at hc1 hc2
        rw [hc1, hc2]
      have hccij : checkCoordinate g i j = true := by
        rw [hc1, hc2] at hg1
        exact hg1
      rw [hcj, hci] at hg2 ⊢
      have hyl : j < m.length := by
        simp only [checkCoordinate, Bool.and_eq_true, decide_eq_true_eq] at hccij
        rw [hsh.1]
        omega
      have hxl : i < (m.getD j []).length := by
        simp only [checkCoordinate, Bool.and_eq_true, decide_eq_true_eq] at hccij
        rw [hsh.2 j (by omega)]
        omega
      rw [getCell_setCell_self m j i _ hyl hxl, if_pos ⟨hceq, hccij, hg2⟩]
    · rw [getCell_setCell_ne m c.2.toNat c.1.toNat _ j i (by tauto)]
      rw [if_neg ?_]
      rintro ⟨rfl, -, -⟩
      exact hc (by simp)
  · rename_i hg
    rw [if_neg ?_]
    rintro ⟨rfl, hcc, hmf⟩
    exact hg ⟨hcc, by simpa using hmf⟩

theorem foldl_bump_shape (g : Game) (l : List (Int × Int)) (m : Grid)
    (hsh : gridShape m g.height g.width) :
    gridShape (l.foldl (bumpStep g) m) g.height g.width := by
  induction l generalizing m with
  | nil => exact hsh
  | cons c cs ih => exact ih _ (bumpStep_shape hsh c)

theorem foldl_bump_minesLike (g : Game) (l : List (Int × Int)) (m : Grid)
    (hml : minesLike m) : minesLike (l.foldl (bumpStep g) m) := by
  induction l generalizing m with
  | nil => exact hml
  | cons c cs ih => exact ih _ (bumpStep_minesLike hml c)

theorem foldl_bump_count (g : Game) (l : List (Int × Int)) (m : Grid)
    (hml : minesLike m) (hsh : gridShape m g.height g.width) :
    countCells (l.foldl (bumpStep g) m) isMineV = countCells m isMineV := by
  induction l generalizing m with
  | nil => rfl
  | cons c cs ih =>
    rw [List.foldl_cons, ih _ (bumpStep_minesLike hml c) (bumpStep_shape hsh c),
      bumpStep_count hml c hsh]

theorem foldl_bump_cell (g : Game) (l : List (Int × Int)) (m : Grid) (j i : Nat)
    (hml : minesLike m) (hsh : gridShape m g.height g.width)
    (hpw : l.Pairwise (· ≠ ·)) :
    getCell (l.foldl (bumpStep g) m) j i =
      if getCell m j i ≠ MINE_FLAG ∧ ((i : Int), (j : Int)) ∈ l ∧
          checkCoordinate g i j = true then
        getCell m j i + 1
      else getCell m j i := by
  induction l generalizing m with
  | nil => simp
  | cons c cs ih =>
    rw [List.foldl_cons]
    have hml1 : minesLike (bumpStep g m c) := bumpStep_minesLike hml c
    have hsh1 : gridShape (bumpStep g m c) g.height g.width := bumpStep_shape hsh c
    have hpw1 : cs.Pairwise (· ≠ ·) := (List.pairwise_cons.mp hpw).2
    have hhead : ∀ b ∈ cs, c ≠ b := (List.pairwise_cons.mp hpw).1
    have hbc := bumpStep_cell g m c j i hsh
    by_cases hc : c = ((i : Int), (j : Int))
    · subst hc
      have hnotmem : (((i : Int), (j : Int))) ∉ cs := fun hmem =>
        (hhead _ hmem) rfl
      by_cases hcc : checkCoordinate g i j = true
      · by_cases hmf : getCell m j i = MINE_FLAG
        · rw [if_neg (by tauto)] at hbc
          rw [ih _ hml1 hsh1 hpw1, hbc, if_neg (by tauto), if_neg (by tauto)]
        · rw [if_pos ⟨rfl, hcc, hmf⟩] at hbc
          rw [ih _ hml1 hsh1 hpw1, hbc, if_neg (by tauto),
            if_pos ⟨hmf, List.mem_cons_self _ _, hcc⟩]
      · rw [if_neg (by tauto)] at hbc
        rw [ih _ hml1 hsh1 hpw1, hbc, if_neg (by tauto), if_neg (by tauto)]
    · rw [if_neg (by tauto)] at hbc
      rw [ih _ hml1 hsh1 hpw1, hbc]
      by_cases hrest : getCell m j i ≠ MINE_FLAG ∧ ((i : Int), (j : Int)) ∈ cs ∧
          checkCoordinate g i j = true
      · rw [if_pos hrest,
          if_pos ⟨hrest.1, List.mem_cons_of_mem c hrest.2.1, hrest.2.2⟩]
      · rw [if_neg hrest, if_neg ?_]
        rintro ⟨h1, h2, h3⟩
        rcases List.mem_cons.mp h2 with he | he
        · exact hc he.symm
        · exact hrest ⟨h1, he, h3⟩

theorem placeOne_cell (g : Game) (x y : Nat)
    (hsh : gridShape g.mines g.height g.width)
    (hml : minesLike g.mines)
    (hx : x < g.width) (hy : y < g.height) :
    getCell (placeOne g x y).mines y x = MINE_FLAG ∧
    ∀ j i : Nat, ¬(j = y ∧ i = x) →
      getCell (placeOne g x y).mines j i =
        if getCell g.mines j i ≠ MINE_FLAG ∧
            ((i : Int), (j : Int)) ∈ square3 x y ∧
            checkCoordinate g i j = true then
          getCell g.mines j i + 1
        else getCell g.mines j i := by
  have hyl : y < g.mines.length := by rw [hsh.1]; omega
  have hxl : x < (g.mines.getD y []).length := by rw [hsh.2 y hy]; omega
  have hm0sh : gridShape (setCell g.mines y x MINE_FLAG) g.height g.width :=
    gridShape_setCell hsh y x MINE_FLAG
  have hm0ml : minesLike (setCell g.mines y x MINE_FLAG) := by
    intro j i
    rcases getCell_setCell_cases g.mines y x MINE_FLAG j i with he | he
    · rw [he]
      exact hml j i
    · rw [he]
      exact Or.inl rfl
  have hc0 : getCell (setCell g.mines y x MINE_FLAG) y x = MINE_FLAG :=
    getCell_setCell_self g.mines y x MINE_FLAG hyl hxl
  constructor
  · show getCell ((square3 x y).foldl (bumpStep g) _) y x = MINE_FLAG
    rw [foldl_bump_cell g _ _ y x hm0ml hm0sh (square3_pairwise x y)]
    rw [if_neg (by rw [hc0]; tauto), hc0]
  · intro j i hne
    show getCell ((square3 x y).foldl (bumpStep g) _) j i = _
    rw [foldl_bump_cell g _ _ j i hm0ml hm0sh (square3_pairwise x y)]
    have hcur : getCell (setCell g.mines y x MINE_FLAG) j i = getCell g.mines j i :=
      getCell_setCell_ne g.mines y x MINE_FLAG j i (by tauto)
    rw [hcur]

theorem placeOne_spec (g : Game) (x y : Nat)
    (hsh : gridShape g.mines g.height g.width)
    (hmw : minesWF g)
    (hx : x < g.width) (hy : y < g.height)
    (hnm : getCell g.mines y x ≠ MINE_FLAG) :
    gridShape (placeOne g x y).mines g.height g.width ∧
    minesWF (placeOne g x y) ∧
    countCells (placeOne g x y).mines isMineV
      = countCells g.mines isMineV + 1 := by
  have hml := minesWF_minesLike hsh hmw
  obtain ⟨hcenter, hcell⟩ := placeOne_cell g x y hsh hml hx hy
  have hyl : y < g.mines.length := by rw [hsh.1]; omega
  have hxl : x < (g.mines.getD y []).length := by rw [hsh.2 y hy]; omega
  have hm0sh : gridShape (setCell g.mines y x MINE_FLAG) g.height g.width :=
    gridShape_setCell hsh y x MINE_FLAG
  have hm0ml : minesLike (setCell g.mines y x MINE_FLAG) := by
    intro j i
    rcases getCell_setCell_cases g.mines y x MINE_FLAG j i with he | he
    · rw [he]
      exact hml j i
    · rw [he]
      exact Or.inl rfl
  refine ⟨?_, ?_, ?_⟩
  · exact foldl_bump_shape g _ _ hm0sh
  · intro j hj i hi
    have hj' : j < g.height := hj
    have hi' : i < g.width := hi
    have hfba : findBlocksAround (placeOne g x y) i j = findBlocksAround g i j :=
      findBlocksAround_congr rfl rfl i j
    rw [hfba]
    by_cases hcen : j = y ∧ i = x
    · obtain ⟨rfl, rfl⟩ := hcen
      exact Or.inl hcenter
    · by_cases hmf : getCell g.mines j i = MINE_FLAG
      · left
        rw [hcell j i hcen, if_neg (by tauto)]
        exact hmf
      · right
        have hcc : checkCoordinate g i j = true := by
          simp only [checkCoordinate, Bool.and_eq_true, decide_eq_true_eq]
          refine ⟨⟨⟨?_, ?_⟩, ?_⟩, ?_⟩ <;> omega
        have hq : ∀ b ∈ findBlocksAround g i j, b ≠ (x, y) →
            isMineV (getCell (placeOne g x y).mines b.2 b.1)
              = isMineV (getCell g.mines b.2 b.1) := by
          intro b hb hbne
          obtain ⟨b1, b2⟩ := b
          have hbne2 : ¬(b2 = y ∧ b1 = x) := by
            rintro ⟨e2, e1⟩
            exact hbne (by rw [e1, e2])
          rw [hcell b2 b1 hbne2]
          split
          · rename_i hcond
            obtain ⟨hmfb, -, -⟩ := hcond
            have hge : 0 ≤ getCell g.mines b2 b1 := by
              rcases hml b2 b1 with hm | hm
              · exact absurd hm hmfb
              · exact hm
            have e1 : isMineV (getCell g.mines b2 b1 + 1) = false := by
              simp only [isMineV, MINE_FLAG, beq_eq_false_iff_ne, ne_eq]
              omega
            have e2 : isMineV (getCell g.mines b2 b1) = false := by
              simp only [isMineV, beq_eq_false_iff_ne, ne_eq]
              exact hmfb
            rw [e1, e2]
          · rfl
        have hqa : isMineV (getCell (placeOne g x y).mines y x) = true := by
          rw [hcenter]
          decide
        have hpa : isMineV (getCell g.mines y x) = false := by
          simp only [isMineV, beq_eq_false_iff_ne, ne_eq]
          exact hnm
        have hflip := length_filter_flip (findBlocksAround g i j)
          (fun b => isMineV (getCell g.mines b.2 b.1))
          (fun b => isMineV (getCell (placeOne g x y).mines b.2 b.1))
          (x, y) (findBlocksAround_nodup g i j) hq hqa hpa
        have hiff : (((i : Int), (j : Int)) ∈ square3 x y)
            ↔ (x, y) ∈ findBlocksAround g i j := by
          rw [mem_square3, mem_findBlocksAround]
          simp only [nbr, ne_eq, Prod.mk.injEq, not_and]
          constructor
          · rintro ⟨h1, h2, h3, h4⟩
            refine ⟨hx, hy, ⟨?_, by omega, by omega, by omega, by omega⟩⟩
            intro hix hjy
            exact hcen ⟨hjy, hix⟩
          · rintro ⟨-, -, ⟨-, h2, h3, h4, h5⟩⟩
            refine ⟨by omega, by omega, by omega, by omega⟩
        have hold : getCell g.mines j i
            = (((findBlocksAround g i j).filter
                (fun b => isMineV (getCell g.mines b.2 b.1))).length : Int) := by
          rcases hmw j hj' i hi' with h | h
          · exact absurd h hmf
          · exact h
        rw [hcell j i hcen]
        by_cases hmem3 : ((i : Int), (j : Int)) ∈ square3 x y
        · rw [if_pos ⟨hmf, hmem3, hcc⟩]
          rw [if_pos (hiff.mp hmem3)] at hflip
          omega
        · rw [if_neg (by tauto)]
          rw [if_neg (fun hm => hmem3 (hiff.mpr hm))] at hflip
          omega
  · have h1 : countCells (placeOne g x y).mines isMineV
        = countCells (setCell g.mines y x MINE_FLAG) isMineV :=
      foldl_bump_count g _ _ hm0ml hm0sh
    have h2 := countCells_setCell_add isMineV g.mines y x MINE_FLAG hyl hxl
    have hpa : isMineV (getCell g.mines y x) = false := by
      simp only [isMineV, beq_eq_false_iff_ne, ne_eq]
      exact hnm
    have hmv : isMineV MINE_FLAG = true := by decide
    rw [hpa, hmv] at h2
    simp at h2
    omega

theorem placeMines_spec (ds : List (Nat × Nat)) (g : Game) (n : Nat) (g' : Game)
    (hsh : gridShape g.mines g.height g.width)
    (hmw : minesWF g)
    (h : placeMines g n ds = some g') :
    gridShape g'.mines g'.height g'.width ∧ minesWF g' ∧
    countCells g'.mines isMineV = countCells g.mines isMineV + n ∧
    g'.height = g.height ∧ g'.width = g.width ∧ g'.blocks = g.blocks ∧
    g'.unknowns = g.unknowns ∧ g'.unmarkedMines = g.unmarkedMines ∧
    g'.status = g.status ∧ g'.mineQuantity = g.mineQuantity ∧
    g'.showMinesOnlyOnFailed = g.showMinesOnlyOnFailed := by
  induction ds generalizing g n with
  | nil =>
    cases n with
    | zero =>
      obtain rfl := Option.some.inj h
      exact ⟨hsh, hmw, by omega, rfl, rfl, rfl, rfl, rfl, rfl, rfl, rfl⟩
    | succ n => exact absurd h (by simp [placeMines])
  | cons d ds ih =>
    cases n with
    | zero =>
      obtain rfl := Option.some.inj h
      exact ⟨hsh, hmw, by omega, rfl, rfl, rfl, rfl, rfl, rfl, rfl, rfl⟩
    | succ n =>
      obtain ⟨dy, dx⟩ := d
      simp only [placeMines] at h
      split at h
      · rename_i hin
        split at h
        · have := ih g (n + 1) hsh hmw h
          exact this
        · rename_i hmine
          have hps := placeOne_spec g dx dy hsh hmw hin.2 hin.1 hmine
          have hrec := ih (placeOne g dx dy) n hps.1 hps.2.1 h
          obtain ⟨r1, r2, r3, r4, r5, r6, r7, r8, r9, r10, r11⟩ := hrec
          refine ⟨r1, r2, ?_, r4, r5, r6, r7, r8, r9, r10, r11⟩
          rw [r3, hps.2.2]
          omega
      · exact absurd h (by simp)

theorem resetGame_minesWF (g : Game) : minesWF (resetGame g) := by
  intro j hj i hi
  right
  have hz : getCell (resetGame g).mines j i = 0 :=
    getCell_replicate g.height g.width j i 0 hj hi
  rw [hz]
  have hfil : (findBlocksAround (resetGame g) i j).filter
      (fun b => isMineV (getCell (resetGame g).mines b.2 b.1)) = [] := by
    rw [List.filter_eq_nil_iff]
    intro b hb
    obtain ⟨hbw, hbh, -⟩ := mem_findBlocksAround.mp hb
    have hzb : getCell (resetGame g).mines b.2 b.1 = 0 :=
      getCell_replicate g.height g.width b.2 b.1 0 hbh hbw
    rw [hzb]
    decide
  rw [hfil]
  rfl

theorem restartWith_inv {g g' : Game} (draws : List (Nat × Nat))
    (hpar : 2 ≤ g.mineQuantity ∧ g.mineQuantity < g.width * g.height ∧
      2 ≤ g.height)
    (h : restartWith g draws = some g') : Inv g' := by
  unfold restartWith at h
  have hshR : gridShape (resetGame g).mines (resetGame g).height
      (resetGame g).width := gridShape_replicate g.height g.width 0
  have hmwR : minesWF (resetGame g) := resetGame_minesWF g
  obtain ⟨r1, r2, r3, r4, r5, r6, r7, r8, r9, r10, r11⟩ :=
    placeMines_spec draws (resetGame g) g.mineQuantity g' hshR hmwR h
  have hz : countCells (resetGame g).mines isMineV = 0 := by
    show countCells (List.replicate g.height (List.replicate g.width 0)) isMineV = 0
    rw [countCells_replicate, if_neg (by decide)]
  have hcu : countCells g'.blocks isUQ = g.height * g.width := by
    rw [r6]
    show countCells (List.replicate g.height (List.replicate g.width UNKNWON)) isUQ = _
    rw [countCells_replicate, if_pos (by decide)]
  have hcm : countCells g'.blocks isMarked = 0 := by
    rw [r6]
    show countCells (List.replicate g.height (List.replicate g.width UNKNWON))
        isMarked = 0
    rw [countCells_replicate, if_neg (by decide)]
  have hu : g'.unknowns = ((g.height * g.width : Nat) : Int) := r7
  have hum : g'.unmarkedMines = (g.mineQuantity : Int) := r8
  have hq : g'.mineQuantity = g.mineQuantity := r10
  have hh : g'.height = g.height := r4
  have hw : g'.width = g.width := r5
  have hst : g'.status = .PLAYING := r9
  have hneq : ((g.height * g.width : Nat) : Int) ≠ (g.mineQuantity : Int) := by
    intro he
    have h2 : g.height * g.width = g.mineQuantity := by exact_mod_cast he
    rw [Nat.mul_comm g.height g.width] at h2
    omega
  refine ⟨?_, r1, r2, ?_, ?_, ?_, ?_⟩
  · rw [r6, hh, hw]
    exact gridShape_replicate g.height g.width UNKNWON
  · rw [hq, r3, hz]
    omega
  · rw [hq, hw, hh]
    exact hpar
  · intro _
    refine ⟨?_, ?_, ?_, ?_⟩
    · intro j hj i hi
      left
      rw [r6]
      exact getCell_replicate g.height g.width j i UNKNWON (by omega) (by omega)
    · rw [hu, hcu]
    · rw [hum, hcm, hq]
      omega
    · rw [hu, hum]
      exact hneq
  · intro hwin
    rw [hst] at hwin
    simp at hwin

theorem newGame_inv {height width mineQuantity : Int} {showOnly : Bool}
    {draws : List (Nat × Nat)} {g0 : Game}
    (h : newGame height width mineQuantity showOnly draws = some g0) : Inv g0 := by
  unfold newGame at h
  split at h
  · rename_i hv
    simp only [validParams, Bool.and_eq_true, decide_eq_true_eq] at hv
    obtain ⟨⟨⟨hv1, hv2⟩, hv3⟩, hv4⟩ := hv
    have hh0 : (0 : Int) < height := by omega
    have hw0 : (0 : Int) < width := by
      rcases le_or_lt width 0 with hw | hw
      · exfalso
        have h1 : width * height ≤ 0 :=
          mul_nonpos_of_nonpos_of_nonneg hw (le_of_lt hh0)
        omega
      · exact hw
    apply restartWith_inv draws ?_ h
    show 2 ≤ mineQuantity.toNat ∧
      mineQuantity.toNat < width.toNat * height.toNat ∧ 2 ≤ height.toNat
    refine ⟨by omega, ?_, by omega⟩
    have hcast : ((width.toNat * height.toNat : Nat) : Int) = width * height := by
      push_cast
      rw [Int.toNat_of_nonneg (le_of_lt hw0), Int.toNat_of_nonneg (le_of_lt hh0)]
    apply (@Nat.cast_lt Int _ _ _).mp
    rw [hcast, Int.toNat_of_nonneg (by omega : (0 : Int) ≤ mineQuantity)]
    omega
  · exact absurd h (by simp)

/-- Every public action preserves the global invariant. -/
theorem applyAction_inv {g : Game} (hInv : Inv g) (a : GAction) :
    Inv (applyAction g a) := by
  cases a with
  | mark x y s =>
    simp only [applyAction]
    split
    · rename_i p hp
      exact mark_inv hInv x y s hp
    · exact hInv
  | sweep x y =>
    simp only [applyAction]
    split
    · rename_i p hp
      exact sweep_inv hInv x y hp
    · exact hInv
  | explore x y =>
    simp only [applyAction]
    split
    · rename_i p hp
      exact explore_inv hInv x y hp
    · exact hInv
  | restart ds =>
    simp only [applyAction]
    cases hr : restartWith g ds with
    | none => exact hInv
    | some g2 => exact restartWith_inv ds (hInv.2.2.2.2.1) hr

theorem applyActions_inv {g : Game} (hInv : Inv g) (acts : List GAction) :
    Inv (applyActions g acts) := by
  induction acts generalizing g with
  | nil => exact hInv
  | cons a as ih => exact ih (applyAction_inv hInv a)

/-- Every reachable state satisfies the global invariant. -/
theorem reachable_inv {g : Game} (h : Reachable g) : Inv g := by
  obtain ⟨hh, hw, hm, hso, hdraws, hacts, g0, h0, happ⟩ := h
  rw [← happ]
  exact applyActions_inv (newGame_inv h0) hacts

/-- A fixed draw stream placing the two mines of a 2×2 board at `(0,0)` and
`(1,1)`. -/
def testDraws : List (Nat × Nat) := [(0, 0), (1, 1)]

/-- A concrete freshly constructed 2×2 game with 2 mines (on the diagonal):
`mines = [[-1, 2], [2, -1]]`, all cells hidden. -/
def testGame : Game := (newGame 2 2 2 false testDraws).getD default

/-- `testGame` after sweeping the mine at `(0,0)`: a lost board. -/
def gLost : Game := applyAction testGame (.sweep 0 0)

/-- `testGame` after sweeping both safe cells: a won board. -/
def gWon : Game := applyActions testGame [.sweep 1 0, .sweep 0 1]

/-- `testGame` after flagging the safe cell `(1,0)` as a mine. -/
def gMarked : Game := applyAction testGame (.mark 1 0 .MINE)

theorem testGame_reachable : Reachable testGame :=
  ⟨2, 2, 2, false, testDraws, [], testGame, rfl, rfl⟩

theorem gLost_reachable : Reachable gLost :=
  ⟨2, 2, 2, false, testDraws, [.sweep 0 0], testGame, rfl, rfl⟩

theorem gWon_reachable : Reachable gWon :=
  ⟨2, 2, 2, false, testDraws, [.sweep 1 0, .sweep 0 1], testGame, rfl, rfl⟩

theorem checkWin_status (g : Game) :
    (checkWin g).status = .WIN ∨ (checkWin g).status = g.status := by
  unfold checkWin
  split
  · exact Or.inl rfl
  · exact Or.inr rfl

theorem checkCoordinate_nat (g : Game) (x y : Nat) (hx : x < g.width)
    (hy : y < g.height) : checkCoordinate g x y = true := by
  simp only [checkCoordinate, Bool.and_eq_true, decide_eq_true_eq]
  refine ⟨⟨⟨?_, ?_⟩, ?_⟩, ?_⟩ <;> omega

/-- `sweep` at in-bounds natural coordinates is `sweepGo` there. -/
theorem sweep_coe (g : Game) (x y : Nat) (hx : x < g.width) (hy : y < g.height) :
    sweep g x y = .ok (sweepGo g x y, (sweepGo g x y).status) := by
  have hcc : checkCoordinate g x y = true := checkCoordinate_nat g x y hx hy
  unfold sweep
  split
  · rename_i e heq
    rw [getBlock, if_pos hcc] at heq
    exact absurd heq (by simp)
  · rename_i blk heq
    have e1 : ((x : Int)).toNat = x := by omega
    have e2 : ((y : Int)).toNat = y := by omega
    rw [e1, e2]

/-- The spec's §4.3 transition table for an accepted/rejected `mark` at an
in-bounds cell: what `mark` returns and how the cell and the two counters
move, case by case. -/
def markTransitions (g : Game) (x y : Int) (style : EMarkStyle) : Prop :=
    (getCell g.blocks y.toNat x.toNat = MARKED →
      (style = .MINE → mark g x y style = .ok (g, true)) ∧
      (style = .UNMARKED → mark g x y style = .ok ({ g with
          unmarkedMines := g.unmarkedMines + 1
          unknowns := g.unknowns + 1
          blocks := setCell g.blocks y.toNat x.toNat UNKNWON }, true)) ∧
      (style = .QUESTION → mark g x y style = .ok ({ g with
          unmarkedMines := g.unmarkedMines + 1
          unknowns := g.unknowns + 1
          blocks := setCell g.blocks y.toNat x.toNat QUESTION }, true))) ∧
    (getCell g.blocks y.toNat x.toNat = QUESTION →
      (style = .MINE → mark g x y style = .ok ({ g with
          unmarkedMines := g.unmarkedMines - 1
          unknowns := g.unknowns - 1
          blocks := setCell g.blocks y.toNat x.toNat MARKED }, true)) ∧
      (style = .UNMARKED → mark g x y style = .ok ({ g with
          blocks := setCell g.blocks y.toNat x.toNat UNKNWON }, true)) ∧
      (style = .QUESTION → mark g x y style = .ok (g, true))) ∧
    (getCell g.blocks y.toNat x.toNat = UNKNWON →
      (style = .MINE → mark g x y style = .ok ({ g with
          unmarkedMines := g.unmarkedMines - 1
          unknowns := g.unknowns - 1
          blocks := setCell g.blocks y.toNat x.toNat MARKED }, true)) ∧
      (style = .UNMARKED → mark g x y style = .ok (g, true)) ∧
      (style = .QUESTION → mark g x y style = .ok ({ g with
          blocks := setCell g.blocks y.toNat x.toNat QUESTION }, true))) ∧
    (getCell g.blocks y.toNat x.toNat ≠ MARKED →
      getCell g.blocks y.toNat x.toNat ≠ QUESTION →
      getCell g.blocks y.toNat x.toNat ≠ UNKNWON →
      mark g x y style = .ok (g, false))

/-- The full result table of `mark` at an in-bounds coordinate of a playing
board whose two counters differ (so the trailing `_checkWin` never fires). -/
theorem mark_table {g : Game} (hne : g.unknowns ≠ g.unmarkedMines) (x y : Int)
    (style : EMarkStyle) (hst : g.status = .PLAYING)
    (hcc : checkCoordinate g x y = true) : markTransitions g x y style := by
  unfold markTransitions
  have hgb : getBlock g x y = .ok (getCell g.blocks y.toNat x.toNat) := by
    unfold getBlock
    rw [if_pos hcc]
  have hred : mark g x y style =
      (if getCell g.blocks y.toNat x.toNat = MARKED then
        match style with
        | .MINE => Except.ok (checkWin g, true)
        | .UNMARKED => Except.ok (checkWin { g with
            unmarkedMines := g.unmarkedMines + 1
            unknowns := g.unknowns + 1
            blocks := setCell g.blocks y.toNat x.toNat UNKNWON }, true)
        | .QUESTION => Except.ok (checkWin { g with
            unmarkedMines := g.unmarkedMines + 1
            unknowns := g.unknowns + 1
            blocks := setCell g.blocks y.toNat x.toNat QUESTION }, true)
      else if getCell g.blocks y.toNat x.toNat = QUESTION then
        match style with
        | .MINE => Except.ok (checkWin { g with
            unmarkedMines := g.unmarkedMines - 1
            unknowns := g.unknowns - 1
            blocks := setCell g.blocks y.toNat x.toNat MARKED }, true)
        | .UNMARKED => Except.ok (checkWin { g with
            blocks := setCell g.blocks y.toNat x.toNat UNKNWON }, true)
        | .QUESTION => Except.ok (checkWin g, true)
      else if getCell g.blocks y.toNat x.toNat = UNKNWON then
        match style with
        | .MINE => Except.ok (checkWin { g with
            unmarkedMines := g.unmarkedMines - 1
            unknowns := g.unknowns - 1
            blocks := setCell g.blocks y.toNat x.toNat MARKED }, true)
        | .UNMARKED => Except.ok (checkWin g, true)
        | .QUESTION => Except.ok (checkWin { g with
            blocks := setCell g.blocks y.toNat x.toNat QUESTION }, true)
      else Except.ok (g, false)) := by
    unfold mark
    rw [if_neg (by simp [hst])]
    split
    · rename_i e heq
      exact absurd (hgb.symm.trans heq) (by simp)
    · rename_i blk heq
      obtain rfl : blk = getCell g.blocks y.toNat x.toNat :=
        (Except.ok.inj (hgb.symm.trans heq)).symm
      rfl
  refine ⟨?_, ?_, ?_, ?_⟩
  · intro hold
    refine ⟨?_, ?_, ?_⟩ <;> intro hsty <;> subst hsty <;> rw [hred, if_pos hold]
    · exact congrArg (fun z => Except.ok (z, true)) (checkWin_skip hne)
    · exact congrArg (fun z => Except.ok (z, true)) (checkWin_skip (by
        show g.unknowns + 1 ≠ g.unmarkedMines + 1
        omega))
    · exact congrArg (fun z => Except.ok (z, true)) (checkWin_skip (by
        show g.unknowns + 1 ≠ g.unmarkedMines + 1
        omega))
  · intro hold
    have hM : getCell g.blocks y.toNat x.toNat ≠ MARKED := by
      rw [hold]
      decide
    refine ⟨?_, ?_, ?_⟩ <;> intro hsty <;> subst hsty <;>
      rw [hred, if_neg hM, if_pos hold]
    · exact congrArg (fun z => Except.ok (z, true)) (checkWin_skip (by
        show g.unknowns - 1 ≠ g.unmarkedMines - 1
        omega))
    · exact congrArg (fun z => Except.ok (z, true)) (checkWin_skip (by
        show g.unknowns ≠ g.unmarkedMines
        omega))
    · exact congrArg (fun z => Except.ok (z, true)) (checkWin_skip hne)
  · intro hold
    have hM : getCell g.blocks y.toNat x.toNat ≠ MARKED := by
      rw [hold]
      decide
    have hQ : getCell g.blocks y.toNat x.toNat ≠ QUESTION := by
      rw [hold]
      decide
    refine ⟨?_, ?_, ?_⟩ <;> intro hsty <;> subst hsty <;>
      rw [hred, if_neg hM, if_neg hQ, if_pos hold]
    · exact congrArg (fun z => Except.ok (z, true)) (checkWin_skip (by
        show g.unknowns - 1 ≠ g.unmarkedMines - 1
        omega))
    · exact congrArg (fun z => Except.ok (z, true)) (checkWin_skip hne)
    · exact congrArg (fun z => Except.ok (z, true)) (checkWin_skip (by
        show g.unknowns ≠ g.unmarkedMines
        omega))
  · intro h1 h2 h3
    rw [hred, if_neg h1, if_neg h2, if_neg h3]

theorem getBlock_err {g : Game} {x y : Int}
    (h : checkCoordinate g x y = false) :
    getBlock g x y = .error "OUT_TO_BOUNDARY" := by
  unfold getBlock
  rw [if_neg (by simp [h])]

theorem sweep_err {g : Game} {x y : Int} (h : checkCoordinate g x y = false) :
    sweep g x y = .error "OUT_TO_BOUNDARY" := by
  unfold sweep
  split
  · rename_i e heq
    obtain rfl := Except.error.inj ((getBlock_err h).symm.trans heq)
    rfl
  · rename_i blk heq
    exact absurd ((getBlock_err h).symm.trans heq) (by simp)

theorem explore_err {g : Game} {x y : Int}
    (h : checkCoordinate g x y = false) :
    explore g x y = .error "OUT_TO_BOUNDARY" := by
  unfold explore
  split
  · rename_i e heq
    obtain rfl := Except.error.inj ((getBlock_err h).symm.trans heq)
    rfl
  · rename_i blk heq
    exact absurd ((getBlock_err h).symm.trans heq) (by simp)

theorem mark_err {g : Game} {x y : Int} (style : EMarkStyle)
    (hst : g.status = .PLAYING) (h : checkCoordinate g x y = false) :
    mark g x y style = .error "OUT_TO_BOUNDARY" := by
  unfold mark
  rw [if_neg (by simp [hst])]
  split
  · rename_i e heq
    obtain rfl := Except.error.inj ((getBlock_err h).symm.trans heq)
    rfl
  · rename_i blk heq
    exact absurd ((getBlock_err h).symm.trans heq) (by simp)

theorem mark_notPlaying {g : Game} (x y : Int) (style : EMarkStyle)
    (hst : g.status ≠ .PLAYING) : mark g x y style = .ok (g, false) := by
  unfold mark
  rw [if_pos hst]

/-- C1: corrected.  The spec claims out-of-range coordinates make `mark`
return `false` and `sweep`/`explore` return the current status without any
error.  In the code all three propagate `getBlock`'s `OUT_TO_BOUNDARY`
error; only `mark` on an already finished game returns `(g, false)` because
its status check precedes the bounds check. -/
theorem c1_theorem (g : Game) (x y : Int) (style : EMarkStyle)
    (h : checkCoordinate g x y = false) :
    getBlock g x y = .error "OUT_TO_BOUNDARY" ∧
    sweep g x y = .error "OUT_TO_BOUNDARY" ∧
    explore g x y = .error "OUT_TO_BOUNDARY" ∧
    (g.status = .PLAYING → mark g x y style = .error "OUT_TO_BOUNDARY") ∧
    (g.status ≠ .PLAYING → mark g x y style = .ok (g, false)) :=
  ⟨getBlock_err h, sweep_err h, explore_err h,
    fun hst => mark_err style hst h, fun hst => mark_notPlaying x y style hst⟩

theorem c1_witness :
    getBlock testGame (-1) 0 = .error "OUT_TO_BOUNDARY" ∧
    sweep testGame (-1) 0 = .error "OUT_TO_BOUNDARY" ∧
    explore testGame (-1) 0 = .error "OUT_TO_BOUNDARY" ∧
    (testGame.status = .PLAYING →
      mark testGame (-1) 0 .MINE = .error "OUT_TO_BOUNDARY") ∧
    (testGame.status ≠ .PLAYING →
      mark testGame (-1) 0 .MINE = .ok (testGame, false)) :=
  c1_theorem testGame (-1) 0 .MINE rfl

/-- C1 counterexample: sweeping the out-of-range coordinate `(-1, 0)` of a
freshly constructed playing game raises `OUT_TO_BOUNDARY` instead of
returning the unchanged status, as the spec claims. -/
theorem c1_counterexample :
    sweep testGame (-1) 0 = .error "OUT_TO_BOUNDARY" := rfl

/-- C7 counterexample: the lost 2×2 board is reachable, its `unknowns`
counter is still `4` (the `_die` path never updates it), yet no cell shows
`UNKNWON` or `QUESTION` any more, so the spec's unconditional counter
invariant fails on `FAILED` states. -/
theorem c7_counterexample :
    Reachable gLost ∧ gLost.status = .FAILED ∧
    gLost.unknowns = 4 ∧ countCells gLost.blocks isUQ = 0 :=
  ⟨gLost_reachable, rfl, rfl, rfl⟩

/-- C7: corrected.  In every reachable state that is not `FAILED` (the spec's
claim fails on lost boards, where `_die` reveals cells without touching the
counter), `unknowns` equals the number of cells displayed `UNKNWON` or
`QUESTION`. -/
theorem c7_theorem {g : Game} (hR : Reachable g) (hnf : g.status ≠ .FAILED) :
    g.unknowns = (countCells g.blocks isUQ : Int) := by
  obtain ⟨-, -, -, -, -, hplay, hwin⟩ := reachable_inv hR
  cases hst : g.status with
  | PLAYING => exact (hplay hst).2.1
  | WIN =>
    obtain ⟨h1, -, h3, -, -⟩ := hwin hst
    rw [h1, h3]
    rfl
  | FAILED => exact absurd hst hnf

theorem c7_witness :
    testGame.unknowns = (countCells testGame.blocks isUQ : Int) :=
  c7_theorem testGame_reachable (by decide)

/-- C9: confirmed.  Once the status is `WIN` or `FAILED`, `mark` returns
`(g, false)`, `sweep` and `explore` return the unchanged state and terminal
status (at any in-bounds coordinate), and a completed `restart` is the only
way back to a `PLAYING` status. -/
theorem c9_theorem {g : Game} (hterm : g.status = .WIN ∨ g.status = .FAILED)
    (x y : Int) (style : EMarkStyle) (hcc : checkCoordinate g x y = true) :
    mark g x y style = .ok (g, false) ∧
    sweep g x y = .ok (g, g.status) ∧
    explore g x y = .ok (g, g.status) ∧
    (∀ draws g2, restartWith g draws = some g2 → g2.status = .PLAYING) := by
  have hnp : g.status ≠ .PLAYING := by
    rcases hterm with h | h <;> rw [h] <;> simp
  have hgb : getBlock g x y = .ok (getCell g.blocks y.toNat x.toNat) := by
    unfold getBlock
    rw [if_pos hcc]
  refine ⟨mark_notPlaying x y style hnp, ?_, ?_, ?_⟩
  · unfold sweep
    split
    · rename_i e heq
      exact absurd (hgb.symm.trans heq) (by simp)
    · rename_i blk heq
      have hsg : sweepGo g x.toNat y.toNat = g := by
        unfold sweepGo
        rw [if_pos (Or.inl hnp)]
      rw [hsg]
  · unfold explore
    split
    · rename_i e heq
      exact absurd (hgb.symm.trans heq) (by simp)
    · rename_i blk heq
      rw [if_pos (Or.inl hnp)]
  · intro draws g2 hr
    unfold restartWith at hr
    have hspec := placeMines_spec draws (resetGame g) g.mineQuantity g2
      (gridShape_replicate g.height g.width 0) (resetGame_minesWF g) hr
    exact hspec.2.2.2.2.2.2.2.2.1

/-- The board after `testGame`'s first safe sweep at `(1, 0)`. -/
def gMid : Game :=
  { height := 2
    width := 2
    mineQuantity := 2
    showMinesOnlyOnFailed := false
    blocks := [[-1, 2], [-1, -1]]
    mines := [[-1, 2], [2, -1]]
    unmarkedMines := 2
    unknowns := 3
    status := .PLAYING }

/-- The won board `gWon`, written out. -/
def gWonV : Game :=
  { height := 2
    width := 2
    mineQuantity := 2
    showMinesOnlyOnFailed := false
    blocks := [[-2, 2], [2, -2]]
    mines := [[-1, 2], [2, -1]]
    unmarkedMines := 0
    unknowns := 0
    status := .WIN }

theorem sweepGo1_eval : sweepGo testGame 1 0 = gMid := by
  unfold sweepGo
  rw [if_neg (by decide), if_neg (by decide)]
  show checkWin
      { floodFill
          { testGame with
            blocks := setCell testGame.blocks 0 1 (getCell testGame.mines 0 1) }
          [(1, 0)] with
        unknowns :=
          (floodFill
            { testGame with
              blocks := setCell testGame.blocks 0 1 (getCell testGame.mines 0 1) }
            [(1, 0)]).unknowns - 1 } = gMid
  rw [floodFill_cons, if_neg (by decide), floodFill_nil]
  rfl

theorem sweep1_eval : sweep testGame 1 0 = .ok (gMid, .PLAYING) := by
  have h := sweep_coe testGame 1 0 (by decide) (by decide)
  rw [sweepGo1_eval] at h
  exact h

theorem sweepGo2_eval : sweepGo gMid 0 1 = gWonV := by
  unfold sweepGo
  rw [if_neg (by decide), if_neg (by decide)]
  show checkWin
      { floodFill
          { gMid with
            blocks := setCell gMid.blocks 1 0 (getCell gMid.mines 1 0) }
          [(0, 1)] with
        unknowns :=
          (floodFill
            { gMid with
              blocks := setCell gMid.blocks 1 0 (getCell gMid.mines 1 0) }
            [(0, 1)]).unknowns - 1 } = gWonV
  rw [floodFill_cons, if_neg (by decide), floodFill_nil]
  rfl

theorem sweep2_eval : sweep gMid 0 1 = .ok (gWonV, .WIN) := by
  have h := sweep_coe gMid 0 1 (by decide) (by decide)
  rw [sweepGo2_eval] at h
  exact h

theorem gWon_eval : gWon = gWonV := by
  show applyAction (applyAction testGame (.sweep 1 0)) (.sweep 0 1) = gWonV
  have h1 : applyAction testGame (.sweep 1 0) = gMid := by
    show (match sweep testGame 1 0 with
      | .ok p => p.1
      | .error _ => testGame) = gMid
    rw [sweep1_eval]
  rw [h1]
  show (match sweep gMid 0 1 with
    | .ok p => p.1
    | .error _ => gMid) = gWonV
  rw [sweep2_eval]

theorem c9_witness :
    mark gWon 0 0 .MINE = .ok (gWon, false) ∧
    sweep gWon 0 0 = .ok (gWon, gWon.status) ∧
    explore gWon 0 0 = .ok (gWon, gWon.status) ∧
    (∀ draws g2, restartWith gWon draws = some g2 → g2.status = .PLAYING) :=
  c9_theorem (Or.inl (by rw [gWon_eval]; rfl)) 0 0 .MINE
    (by rw [gWon_eval]; rfl)

/-- C3 counterexample: flagging the non-mine cell `(1, 0)` of the fresh 2×2
board moves BOTH counters down together (`unknowns` 4→3, `unmarkedMines`
2→1), leaves the win equality unsatisfied and the status `PLAYING`: the two
counters move in lockstep under marking, and flagging non-mine cells does
not bring the equality closer. -/
theorem c3_counterexample :
    mark testGame 1 0 .MINE = .ok (gMarked, true) ∧
    gMarked.status = .PLAYING ∧ gMarked.unknowns = 3 ∧
    gMarked.unmarkedMines = 1 ∧ testGame.unknowns = 4 ∧
    testGame.unmarkedMines = 2 ∧ getCell testGame.mines 0 1 ≠ MINE_FLAG :=
  ⟨rfl, rfl, rfl, rfl, rfl, rfl, by decide⟩

/-- C3: corrected.  The spec claims marking can manipulate `hiddenCellCount`
and `unflaggedMineCount` independently and so satisfy the win equality
early.  In fact every accepted `mark` shifts both counters by the same
amount: their difference is invariant, the status never changes, and a mark
can never turn a reachable playing state into `WIN`. -/
theorem c3_theorem {g : Game} (hR : Reachable g) (x y : Int)
    (style : EMarkStyle) {g2 : Game} {b : Bool}
    (h : mark g x y style = .ok (g2, b)) :
    g2.status = g.status ∧
    g2.unknowns - g2.unmarkedMines = g.unknowns - g.unmarkedMines ∧
    (g.status = .PLAYING → g2.status ≠ .WIN) := by
  have hmain : g2.status = g.status ∧
      g2.unknowns - g2.unmarkedMines = g.unknowns - g.unmarkedMines := by
    by_cases hst : g.status = .PLAYING
    · obtain ⟨-, -, -, -, -, hplay, -⟩ := reachable_inv hR
      obtain ⟨-, -, -, hne⟩ := hplay hst
      by_cases hcc : checkCoordinate g x y = true
      · have table := mark_table hne x y style hst hcc
        by_cases h1 : getCell g.blocks y.toNat x.toNat = MARKED
        · cases style with
          | MINE =>
            have he := (table.1 h1).1 rfl
            rw [h] at he
            injection Except.ok.inj he with hpa hpb
            subst hpa
            exact ⟨rfl, rfl⟩
          | UNMARKED =>
            have he := (table.1 h1).2.1 rfl
            rw [h] at he
            injection Except.ok.inj he with hpa hpb
            subst hpa
            refine ⟨rfl, ?_⟩
            show g.unknowns + 1 - (g.unmarkedMines + 1) = _
            omega
          | QUESTION =>
            have he := (table.1 h1).2.2 rfl
            rw [h] at he
            injection Except.ok.inj he with hpa hpb
            subst hpa
            refine ⟨rfl, ?_⟩
            show g.unknowns + 1 - (g.unmarkedMines + 1) = _
            omega
        · by_cases h2 : getCell g.blocks y.toNat x.toNat = QUESTION
          · cases style with
            | MINE =>
              have he := (table.2.1 h2).1 rfl
              rw [h] at he
              injection Except.ok.inj he with hpa hpb
              subst hpa
              refine ⟨rfl, ?_⟩
              show g.unknowns - 1 - (g.unmarkedMines - 1) = _
              omega
            | UNMARKED =>
              have he := (table.2.1 h2).2.1 rfl
              rw [h] at he
              injection Except.ok.inj he with hpa hpb
              subst hpa
              exact ⟨rfl, rfl⟩
            | QUESTION =>
              have he := (table.2.1 h2).2.2 rfl
              rw [h] at he
              injection Except.ok.inj he with hpa hpb
              subst hpa
              exact ⟨rfl, rfl⟩
          · by_cases h3 : getCell g.blocks y.toNat x.toNat = UNKNWON
            · cases style with
              | MINE =>
                have he := (table.2.2.1 h3).1 rfl
                rw [h] at he
                injection Except.ok.inj he with hpa hpb
                subst hpa
                refine ⟨rfl, ?_⟩
                show g.unknowns - 1 - (g.unmarkedMines - 1) = _
                omega
              | UNMARKED =>
                have he := (table.2.2.1 h3).2.1 rfl
                rw [h] at he
                injection Except.ok.inj he with hpa hpb
                subst hpa
                exact ⟨rfl, rfl⟩
              | QUESTION =>
                have he := (table.2.2.1 h3).2.2 rfl
                rw [h] at he
                injection Except.ok.inj he with hpa hpb
                subst hpa
                exact ⟨rfl, rfl⟩
            · have he := table.2.2.2 h1 h2 h3
              rw [h] at he
              injection Except.ok.inj he with hpa hpb
              subst hpa
              exact ⟨rfl, rfl⟩
      · have he := mark_err style hst (by simpa using hcc)
        rw [h] at he
        exact absurd he (by simp)
    · have he := mark_notPlaying x y style hst
      rw [h] at he
      injection Except.ok.inj he with hpa hpb
      subst hpa
      exact ⟨rfl, rfl⟩
  refine ⟨hmain.1, hmain.2, ?_⟩
  intro hp
  rw [hmain.1, hp]
  simp

theorem c3_witness :
    gMarked.status = testGame.status ∧
    gMarked.unknowns - gMarked.unmarkedMines
      = testGame.unknowns - testGame.unmarkedMines ∧
    (testGame.status = .PLAYING → gMarked.status ≠ .WIN) :=
  c3_theorem testGame_reachable 1 0 .MINE rfl

/-- C4: confirmed.  At an in-bounds coordinate of a reachable game, `mark`
rejects with `(g, false)` when the status is not `PLAYING`, and otherwise
follows exactly the spec's transition table (`markTransitions`): the three
accepted source states `UNKNWON`/`MARKED`/`QUESTION` move as the table says
(counter updates included, no-ops returning `true`), and any other (already
revealed or terminal-display) cell is rejected with `(g, false)`. -/
theorem c4_theorem {g : Game} (hR : Reachable g) (x y : Int)
    (style : EMarkStyle) (hcc : checkCoordinate g x y = true) :
    (g.status ≠ .PLAYING → mark g x y style = .ok (g, false)) ∧
    (g.status = .PLAYING → markTransitions g x y style) := by
  refine ⟨fun hst => mark_notPlaying x y style hst, fun hst => ?_⟩
  obtain ⟨-, -, -, -, -, hplay, -⟩ := reachable_inv hR
  exact mark_table (hplay hst).2.2.2 x y style hst hcc

theorem c4_witness :
    (testGame.status ≠ .PLAYING → mark testGame 1 0 .MINE = .ok (testGame, false)) ∧
    (testGame.status = .PLAYING → markTransitions testGame 1 0 .MINE) :=
  c4_theorem testGame_reachable 1 0 .MINE rfl

/-- The reveal region of a safe sweep at `(x, y)`: the cells `_cleanBlock`
reaches from the swept cell, walking through in-bounds zero-count cells into
their still-hidden neighbours (the swept cell itself included, by `refl`). -/
def sweepReveals (g : Game) (x y : Nat) (c : Nat × Nat) : Prop :=
  Reveals { g with blocks := setCell g.blocks y x (getCell g.mines y x) }
    (x, y) c

/-- The full behaviour of the safe branch of `sweep`: the swept cell and
exactly the `sweepReveals` region get their mine counts copied, hidden mines
and marks survive (mines get flagged only on the win transition), and the
`unknowns` counter drops by exactly the number of cells that left the
`UNKNWON`/`QUESTION` display. -/
theorem sweepGo_safe_spec {g : Game} (hInv : Inv g) (x y : Nat)
    (hst : g.status = .PLAYING) (hx : x < g.width) (hy : y < g.height)
    (hU : getCell g.blocks y x = UNKNWON)
    (hnm : getCell g.mines y x ≠ MINE_FLAG) :
    ((sweepGo g x y).status = .PLAYING ∨ (sweepGo g x y).status = .WIN) ∧
    getCell (sweepGo g x y).blocks y x = getCell g.mines y x ∧
    0 ≤ getCell g.mines y x ∧
    (∀ j < g.height, ∀ i < g.width, getCell g.mines j i ≠ MINE_FLAG →
      (getCell g.blocks j i = UNKNWON ∧ sweepReveals g x y (i, j) →
        getCell (sweepGo g x y).blocks j i = getCell g.mines j i ∧
          0 ≤ getCell g.mines j i) ∧
      (¬(getCell g.blocks j i = UNKNWON ∧ sweepReveals g x y (i, j)) →
        getCell (sweepGo g x y).blocks j i = getCell g.blocks j i)) ∧
    (∀ j < g.height, ∀ i < g.width, getCell g.mines j i = MINE_FLAG →
      ((sweepGo g x y).status = .PLAYING →
        getCell (sweepGo g x y).blocks j i = getCell g.blocks j i) ∧
      ((sweepGo g x y).status = .WIN →
        getCell (sweepGo g x y).blocks j i = MARKED)) ∧
    ((countCells g.blocks isUQ : Int)
        - (countCells (sweepGo g x y).blocks isUQ : Int)
      = g.unknowns - (sweepGo g x y).unknowns) ∧
    ((sweepGo g x y).status = .PLAYING →
      (sweepGo g x y).unknowns
        = (countCells (sweepGo g x y).blocks isUQ : Int)) := by
  have hInvF : Inv (sweepGo g x y) := sweepGo_inv hInv x y hx hy
  obtain ⟨hbs, hms, hmw, hM, hpar, hplay, hwin⟩ := hInv
  obtain ⟨hbw, hcntU, hcntM, hne⟩ := hplay hst
  have hmval : 0 ≤ getCell g.mines y x := by
    rcases hmw y hy x hx with h | h
    · exact absurd h hnm
    · rw [h]
      exact Int.natCast_nonneg _
  have hyl : y < g.blocks.length := by rw [hbs.1]; omega
  have hxl : x < (g.blocks.getD y []).length := by have := hbs.2 y hy; omega
  have hsg : sweepGo g x y = checkWin
      { floodFill
          { g with blocks := setCell g.blocks y x (getCell g.mines y x) }
          [(x, y)] with
        unknowns :=
          (floodFill
            { g with blocks := setCell g.blocks y x (getCell g.mines y x) }
            [(x, y)]).unknowns - 1 } := by
    unfold sweepGo
    rw [if_neg (by simp [hst, hU]), if_neg hnm]
  set g1 : Game := { g with blocks := setCell g.blocks y x (getCell g.mines y x) }
    with hg1def
  set g2 : Game := floodFill g1 [(x, y)] with hg2def
  set X : Game := { g2 with unknowns := g2.unknowns - 1 } with hXdef
  have hw2 : g2.width = g.width := floodFill_width g1 [(x, y)]
  have hh2 : g2.height = g.height := floodFill_height g1 [(x, y)]
  have hm2 : g2.mines = g.mines := floodFill_mines g1 [(x, y)]
  have hs2 : g2.status = g.status := floodFill_status g1 [(x, y)]
  have hz1 : zeroSafe g1 := zeroSafe_congr rfl rfl rfl (minesWF_zeroSafe hmw)
  have hshape1 : gridShape g1.blocks g.height g.width := gridShape_setCell hbs y x _
  have hshape2 : gridShape g2.blocks g.height g.width := by
    constructor
    · rw [hg2def, floodFill_blocks_len]
      exact hshape1.1
    · intro i hi
      rw [hg2def, floodFill_rowLen]
      exact hshape1.2 i hi
  have hshapeX : gridShape g2.blocks g2.height g2.width := by
    rw [hw2, hh2]
    exact hshape2
  have hg1cell_self : getCell g1.blocks y x = getCell g.mines y x :=
    getCell_setCell_self g.blocks y x _ hyl hxl
  have hg1cell_ne : ∀ j i : Nat, ¬(j = y ∧ i = x) →
      getCell g1.blocks j i = getCell g.blocks j i :=
    fun j i hne2 => getCell_setCell_ne _ _ _ _ _ _ hne2
  have hrev_val : ∀ j i : Nat, Reveals g1 (x, y) (i, j) →
      0 ≤ getCell g.mines j i := by
    intro j i hrev
    rcases Reveals.last hrev with heq | ⟨b, hbw', hbh', hbz, hbmem⟩
    · have e1 : i = x := congrArg Prod.fst heq
      have e2 : j = y := congrArg Prod.snd heq
      subst e1
      subst e2
      exact hmval
    · exact hz1 b hbw' hbh' hbz (i, j) hbmem
  have hg2cell : ∀ j i : Nat, ¬(j = y ∧ i = x) →
      (getCell g2.blocks j i = getCell g.blocks j i ∨
        (getCell g.blocks j i = UNKNWON ∧
         getCell g2.blocks j i = getCell g.mines j i ∧
         Reveals g1 (x, y) (i, j))) := by
    intro j i hne2
    rcases floodFill_cell g1 [(x, y)] j i with h | ⟨h1, h2, a, ha, hrev⟩
    · left
      rw [← hg2def] at h
      rw [h]
      exact hg1cell_ne j i hne2
    · right
      rw [← hg2def] at h2
      have ha2 : a = (x, y) := by simpa using ha
      subst ha2
      refine ⟨?_, h2, hrev⟩
      rw [← hg1cell_ne j i hne2]
      exact h1
  have hg2self : getCell g2.blocks y x = getCell g.mines y x := by
    rcases floodFill_cell g1 [(x, y)] y x with h | ⟨-, h2, -⟩
    · rw [← hg2def] at h
      rw [h]
      exact hg1cell_self
    · rw [← hg2def] at h2
      exact h2
  have hcomplete : ∀ j i : Nat, getCell g.blocks j i = UNKNWON →
      Reveals g1 (x, y) (i, j) → getCell g2.blocks j i ≠ UNKNWON := by
    intro j i hu hrev
    by_cases hc : j = y ∧ i = x
    · obtain ⟨rfl, rfl⟩ := hc
      rw [hg2self]
      unfold UNKNWON
      omega
    · refine floodFill_complete g1 [(x, y)] hz1 ?_ (x, y) (by simp) ?_ (i, j) hrev
      · intro a ha
        rw [List.mem_singleton] at ha
        subst ha
        exact ⟨hx, hy⟩
      · show getCell g1.blocks y x ≠ UNKNWON
        rw [hg1cell_self]
        unfold UNKNWON
        omega
  have hXs : X.status = .PLAYING := by
    show g2.status = .PLAYING
    rw [hs2]
    exact hst
  have hmine_cell : ∀ j i : Nat, getCell g.mines j i = MINE_FLAG →
      getCell g2.blocks j i = getCell g.blocks j i := by
    intro j i hm
    have hne2 : ¬(j = y ∧ i = x) := by
      rintro ⟨rfl, rfl⟩
      exact hnm hm
    rcases hg2cell j i hne2 with h | ⟨-, -, hrev⟩
    · exact h
    · exfalso
      have := hrev_val j i hrev
      rw [hm] at this
      unfold MINE_FLAG at this
      omega
  have hsafe_cells : ∀ j i : Nat, getCell g.mines j i ≠ MINE_FLAG →
      ((getCell g.blocks j i = UNKNWON ∧ sweepReveals g x y (i, j) →
        getCell g2.blocks j i = getCell g.mines j i ∧ 0 ≤ getCell g.mines j i) ∧
      (¬(getCell g.blocks j i = UNKNWON ∧ sweepReveals g x y (i, j)) →
        getCell g2.blocks j i = getCell g.blocks j i)) := by
    intro j i hm
    constructor
    · rintro ⟨hu, hrev⟩
      have hrev' : Reveals g1 (x, y) (i, j) := hrev
      refine ⟨?_, hrev_val j i hrev'⟩
      by_cases hc : j = y ∧ i = x
      · obtain ⟨rfl, rfl⟩ := hc
        exact hg2self
      · rcases hg2cell j i hc with h | ⟨-, h2, -⟩
        · exfalso
          exact hcomplete j i hu hrev' (h.trans hu)
        · exact h2
    · intro hnrev
      have hc : ¬(j = y ∧ i = x) := by
        rintro ⟨rfl, rfl⟩
        exact hnrev ⟨hU, Reveals.refl⟩
      rcases hg2cell j i hc with h | ⟨h1, -, hrev⟩
      · exact h
      · exact absurd ⟨h1, hrev⟩ hnrev
  by_cases hfire : X.unknowns = X.unmarkedMines
  · have hF : sweepGo g x y = { X with
        status := .WIN
        unmarkedMines := 0
        unknowns := 0
        blocks := flagMines X } := by
      rw [hsg, checkWin_fire hfire]
    have hFst : (sweepGo g x y).status = .WIN := by rw [hF]
    have hflag : ∀ j : Nat, j < g.height → ∀ i : Nat, i < g.width →
        getCell (flagMines X) j i
          = if getCell g.mines j i = MINE_FLAG then MARKED
            else getCell g2.blocks j i := by
      intro j hj i hi
      have hj2 : j < X.height := by
        show j < g2.height
        rw [hh2]
        exact hj
      have hi2 : i < X.width := by
        show i < g2.width
        rw [hw2]
        exact hi
      have := flagMines_cell (g := X) hshapeX j i hj2 hi2
      rw [this]
      show (if getCell g2.mines j i = MINE_FLAG then MARKED
        else getCell g2.blocks j i) = _
      rw [hm2]
    have hwinF := hInvF.2.2.2.2.2.2 hFst
    refine ⟨Or.inr hFst, ?_, hmval, ?_, ?_, ?_, ?_⟩
    · rw [hF]
      show getCell (flagMines X) y x = _
      rw [hflag y hy x hx, if_neg hnm, hg2self]
    · intro j hj i hi hm
      constructor
      · rintro ⟨hu, hrev⟩
        rw [hF]
        show getCell (flagMines X) j i = _ ∧ _
        rw [hflag j hj i hi, if_neg hm]
        exact (hsafe_cells j i hm).1 ⟨hu, hrev⟩
      · intro hnrev
        rw [hF]
        show getCell (flagMines X) j i = _
        rw [hflag j hj i hi, if_neg hm]
        exact (hsafe_cells j i hm).2 hnrev
    · intro j hj i hi hm
      constructor
      · intro habs
        rw [hFst] at habs
        simp at habs
      · intro _
        rw [hF]
        show getCell (flagMines X) j i = _
        rw [hflag j hj i hi, if_pos hm]
    · obtain ⟨hu0, -, hcq0, -, -⟩ := hwinF
      rw [hu0, hcq0]
      omega
    · intro habs
      rw [hFst] at habs
      simp at habs
  · have hF : sweepGo g x y = X := by
      rw [hsg, checkWin_skip hfire]
    have hFst : (sweepGo g x y).status = .PLAYING := by
      rw [hF]
      exact hXs
    have hplayF := hInvF.2.2.2.2.2.1 hFst
    refine ⟨Or.inl hFst, ?_, hmval, ?_, ?_, ?_, ?_⟩
    · rw [hF]
      show getCell g2.blocks y x = _
      exact hg2self
    · intro j hj i hi hm
      constructor
      · rintro ⟨hu, hrev⟩
        rw [hF]
        show getCell g2.blocks j i = _ ∧ _
        exact (hsafe_cells j i hm).1 ⟨hu, hrev⟩
      · intro hnrev
        rw [hF]
        show getCell g2.blocks j i = _
        exact (hsafe_cells j i hm).2 hnrev
    · intro j hj i hi hm
      constructor
      · intro _
        rw [hF]
        show getCell g2.blocks j i = _
        exact hmine_cell j i hm
      · intro habs
        rw [hFst] at habs
        simp at habs
    · have h1 := hplayF.2.1
      rw [hF] at h1 ⊢
      omega
    · intro _
      exact hplayF.2.1

/-- What a safe sweep does, in one statement: the public result via
`sweepGo`, the swept cell and exactly the `sweepReveals` closure revealed
(each showing its nonnegative count), every other cell held as it was
(mines get flagged only by the win transition), and `unknowns` decremented
once per cell that left the hidden/questioned display. -/
def sweepSpec (g : Game) (x y : Nat) : Prop :=
  sweep g x y = .ok (sweepGo g x y, (sweepGo g x y).status) ∧
  ((sweepGo g x y).status = .PLAYING ∨ (sweepGo g x y).status = .WIN) ∧
  getCell (sweepGo g x y).blocks y x = getCell g.mines y x ∧
  0 ≤ getCell g.mines y x ∧
  (∀ j < g.height, ∀ i < g.width, getCell g.mines j i ≠ MINE_FLAG →
    (getCell g.blocks j i = UNKNWON ∧ sweepReveals g x y (i, j) →
      getCell (sweepGo g x y).blocks j i = getCell g.mines j i ∧
        0 ≤ getCell g.mines j i) ∧
    (¬(getCell g.blocks j i = UNKNWON ∧ sweepReveals g x y (i, j)) →
      getCell (sweepGo g x y).blocks j i = getCell g.blocks j i)) ∧
  (∀ j < g.height, ∀ i < g.width, getCell g.mines j i = MINE_FLAG →
    ((sweepGo g x y).status = .PLAYING →
      getCell (sweepGo g x y).blocks j i = getCell g.blocks j i) ∧
    ((sweepGo g x y).status = .WIN →
      getCell (sweepGo g x y).blocks j i = MARKED)) ∧
  ((countCells g.blocks isUQ : Int)
      - (countCells (sweepGo g x y).blocks isUQ : Int)
    = g.unknowns - (sweepGo g x y).unknowns) ∧
  ((sweepGo g x y).status = .PLAYING →
    (sweepGo g x y).unknowns = (countCells (sweepGo g x y).blocks isUQ : Int))

/-- C5: confirmed.  Sweeping an in-bounds hidden non-mine cell of a playing
reachable board copies that cell's `mineCount` into its display and
recursively reveals exactly the `sweepReveals` region: the cells reachable
from the swept cell transitively through zero-count cells into hidden
neighbours (8-connectivity, stopping at — but still revealing — non-zero
cells).  Flagged and questioned cells are never auto-revealed, every
revealed cell is revealed once, and `unknowns` drops by exactly the number
of cells that left the hidden/questioned display. -/
theorem c5_theorem {g : Game} (hR : Reachable g) (x y : Nat)
    (hst : g.status = .PLAYING) (hx : x < g.width) (hy : y < g.height)
    (hU : getCell g.blocks y x = UNKNWON)
    (hnm : getCell g.mines y x ≠ MINE_FLAG) : sweepSpec g x y := by
  obtain ⟨h1, h2, h3, h4, h5, h6, h7⟩ :=
    sweepGo_safe_spec (reachable_inv hR) x y hst hx hy hU hnm
  exact ⟨sweep_coe g x y hx hy, h1, h2, h3, h4, h5, h6, h7⟩

theorem c5_witness : sweepSpec testGame 1 0 :=
  c5_theorem testGame_reachable 1 0 rfl (by decide) (by decide) rfl (by decide)

/-- C10: confirmed (implicit).  Sweeping an in-bounds hidden non-mine cell
of a playing reachable board never sets the status to `FAILED` and never
writes a negative mine/exploded value: every cell whose display changed now
shows a nonnegative count, or carries the `MARKED` flag that the win
routine puts on mine cells. -/
theorem c10_theorem {g : Game} (hR : Reachable g) (x y : Nat)
    (hst : g.status = .PLAYING) (hx : x < g.width) (hy : y < g.height)
    (hU : getCell g.blocks y x = UNKNWON)
    (hnm : getCell g.mines y x ≠ MINE_FLAG) :
    sweep g x y = .ok (sweepGo g x y, (sweepGo g x y).status) ∧
    (sweepGo g x y).status ≠ .FAILED ∧
    (∀ j < g.height, ∀ i < g.width,
      getCell (sweepGo g x y).blocks j i ≠ getCell g.blocks j i →
        0 ≤ getCell (sweepGo g x y).blocks j i ∨
        getCell (sweepGo g x y).blocks j i = MARKED) := by
  obtain ⟨hstat, hself, hmval, hsafe, hmine, hcnt, hcnt2⟩ :=
    sweepGo_safe_spec (reachable_inv hR) x y hst hx hy hU hnm
  refine ⟨sweep_coe g x y hx hy, ?_, ?_⟩
  · rcases hstat with h | h <;> rw [h] <;> simp
  · intro j hj i hi hchg
    by_cases hm : getCell g.mines j i = MINE_FLAG
    · rcases hstat with h | h
      · exact absurd ((hmine j hj i hi hm).1 h) hchg
      · right
        exact (hmine j hj i hi hm).2 h
    · by_cases hur : getCell g.blocks j i = UNKNWON ∧ sweepReveals g x y (i, j)
      · obtain ⟨he, hge⟩ := (hsafe j hj i hi hm).1 hur
        left
        rw [he]
        exact hge
      · exact absurd ((hsafe j hj i hi hm).2 hur) hchg

theorem c10_witness :
    sweep testGame 1 0 = .ok (sweepGo testGame 1 0, (sweepGo testGame 1 0).status) ∧
    (sweepGo testGame 1 0).status ≠ .FAILED ∧
    (∀ j < testGame.height, ∀ i < testGame.width,
      getCell (sweepGo testGame 1 0).blocks j i ≠ getCell testGame.blocks j i →
        0 ≤ getCell (sweepGo testGame 1 0).blocks j i ∨
        getCell (sweepGo testGame 1 0).blocks j i = MARKED) :=
  c10_theorem testGame_reachable 1 0 rfl (by decide) (by decide) rfl (by decide)

/-- C2 counterexample: sweeping the mine at `(0, 0)` of the fresh 2×2 board
(with `showMinesOnlyOnFailed = false`) is a successful action that leaves
every non-mine cell revealed with its count `2` — yet the status is
`FAILED`, not `WIN`.  So "status becomes Won iff every non-mine cell has
been revealed" is false in the losing direction. -/
theorem c2_counterexample :
    sweep testGame 0 0 = .ok (gLost, .FAILED) ∧
    gLost.status = .FAILED ∧ gLost.height = 2 ∧ gLost.width = 2 ∧
    getCell gLost.mines 0 0 = MINE_FLAG ∧ getCell gLost.mines 1 1 = MINE_FLAG ∧
    getCell gLost.blocks 0 1 = 2 ∧ getCell gLost.blocks 1 0 = 2 :=
  ⟨rfl, rfl, rfl, rfl, rfl, rfl, rfl, rfl⟩

/-- C2: corrected.  The "Won iff all non-mine cells revealed" equivalence
fails on lost boards (see the counterexample).  The true unconditional part:
in every reachable state whose status is `WIN`, `getRestMineQuantity` is
`0`, every mine cell displays the `MARKED` flag, and every non-mine cell is
revealed, showing exactly its mine count. -/
theorem c2_theorem {g : Game} (hR : Reachable g) (hW : g.status = .WIN) :
    getRestMineQuantity g = 0 ∧
    (∀ j < g.height, ∀ i < g.width,
      (getCell g.mines j i = MINE_FLAG → getCell g.blocks j i = MARKED) ∧
      (getCell g.mines j i ≠ MINE_FLAG →
        getCell g.blocks j i = getCell g.mines j i ∧
          0 ≤ getCell g.blocks j i)) := by
  obtain ⟨-, -, -, -, -, -, hwin⟩ := reachable_inv hR
  obtain ⟨h1, h2, h3, h4, h5⟩ := hwin hW
  refine ⟨h2, ?_⟩
  intro j hj i hi
  refine ⟨fun hm => h4 j hj i hi hm, fun hm => ?_⟩
  obtain ⟨e1, e2⟩ := h5 j hj i hi hm
  exact ⟨e1, e1 ▸ e2⟩

theorem c2_witness :
    getRestMineQuantity gWon = 0 ∧
    (∀ j < gWon.height, ∀ i < gWon.width,
      (getCell gWon.mines j i = MINE_FLAG → getCell gWon.blocks j i = MARKED) ∧
      (getCell gWon.mines j i ≠ MINE_FLAG →
        getCell gWon.blocks j i = getCell gWon.mines j i ∧
          0 ≤ getCell gWon.blocks j i)) :=
  c2_theorem gWon_reachable (by rw [gWon_eval]; rfl)

/-- C8: confirmed.  Whenever the placement loop of `restart` completes
(valid parameters, some draw stream), the new board has exactly
`mineQuantity` mine cells, every non-mine cell's count is exactly the number
of its in-bounds neighbouring mines, every cell is hidden, and the counters
and status are reset as the spec says. -/
theorem c8_theorem {g : Game} (draws : List (Nat × Nat)) {g2 : Game}
    (hpar : 2 ≤ g.mineQuantity ∧ g.mineQuantity < g.width * g.height ∧
      2 ≤ g.height)
    (h : restartWith g draws = some g2) :
    countCells g2.mines isMineV = g.mineQuantity ∧
    (∀ j < g2.height, ∀ i < g2.width, getCell g2.mines j i ≠ MINE_FLAG →
      getCell g2.mines j i = (((findBlocksAround g2 i j).filter
        (fun b => isMineV (getCell g2.mines b.2 b.1))).length : Int)) ∧
    (∀ j < g2.height, ∀ i < g2.width, getCell g2.blocks j i = UNKNWON) ∧
    g2.unmarkedMines = (g.mineQuantity : Int) ∧
    g2.unknowns = ((g.width * g.height : Nat) : Int) ∧
    g2.status = .PLAYING ∧ g2.height = g.height ∧ g2.width = g.width := by
  unfold restartWith at h
  obtain ⟨r1, r2, r3, r4, r5, r6, r7, r8, r9, r10, r11⟩ :=
    placeMines_spec draws (resetGame g) g.mineQuantity g2
      (gridShape_replicate g.height g.width 0) (resetGame_minesWF g) h
  have hz : countCells (resetGame g).mines isMineV = 0 := by
    show countCells (List.replicate g.height (List.replicate g.width 0)) isMineV = 0
    rw [countCells_replicate, if_neg (by decide)]
  have hh : g2.height = g.height := r4
  have hw : g2.width = g.width := r5
  refine ⟨by rw [r3, hz]; omega, ?_, ?_, r8, ?_, r9, hh, hw⟩
  · intro j hj i hi hm
    rcases r2 j hj i hi with hc | hc
    · exact absurd hc hm
    · exact hc
  · intro j hj i hi
    rw [r6]
    exact getCell_replicate g.height g.width j i UNKNWON (by omega) (by omega)
  · have hu : g2.unknowns = ((g.height * g.width : Nat) : Int) := r7
    rw [hu, Nat.mul_comm g.height g.width]

/-- The board produced by restarting `testGame` with the same draw stream. -/
def testRestart : Game := (restartWith testGame testDraws).getD default

theorem c8_witness :
    countCells testRestart.mines isMineV = testGame.mineQuantity ∧
    (∀ j < testRestart.height, ∀ i < testRestart.width,
      getCell testRestart.mines j i ≠ MINE_FLAG →
      getCell testRestart.mines j i = (((findBlocksAround testRestart i j).filter
        (fun b => isMineV (getCell testRestart.mines b.2 b.1))).length : Int)) ∧
    (∀ j < testRestart.height, ∀ i < testRestart.width,
      getCell testRestart.blocks j i = UNKNWON) ∧
    testRestart.unmarkedMines = (testGame.mineQuantity : Int) ∧
    testRestart.unknowns = ((testGame.width * testGame.height : Nat) : Int) ∧
    testRestart.status = .PLAYING ∧ testRestart.height = testGame.height ∧
    testRestart.width = testGame.width :=
  c8_theorem testDraws (by decide) rfl

theorem dieCell_ne_dead (so : Bool) (m v : Int)
    (hm : m = MINE_FLAG ∨ 0 ≤ m)
    (hv : v = UNKNWON ∨ v = MARKED ∨ v = QUESTION ∨ 0 ≤ v) :
    dieCell so m v ≠ DEAD := by
  unfold dieCell
  split
  · split
    · decide
    · rename_i h1 h2
      rw [h1]
      decide
  · split
    · split
      · decide
      · split
        · rename_i h1 h2 h3 h4
          rcases hm with hmm | hmm
          · exact absurd hmm h3
          · simp only [DEAD]
            omega
        · rename_i h1 h2 h3 h4
          rcases h2 with h | h <;> rw [h] <;> decide
    · rename_i h1 h2
      rcases hv with h | h | h | h
      · exact absurd (Or.inr h) h2
      · exact absurd h h1
      · exact absurd (Or.inl h) h2
      · simp only [DEAD]
        omega

/-- C6: confirmed.  Sweeping an in-bounds hidden mine of a playing reachable
board loses: the result is exactly `die`, the status `FAILED`, the swept
cell (and only it) shows the exploded-mine value `DEAD`, and every other
cell is normalised in one pass exactly as the spec's table says: wrong
flags become `WRONG`, hidden/questioned mines become `MINE`,
hidden/questioned non-mines show their count unless `showMinesOnlyOnFailed`
is set, correctly flagged mines and already revealed counts are untouched. -/
theorem c6_theorem {g : Game} (hR : Reachable g) (x y : Nat)
    (hst : g.status = .PLAYING) (hx : x < g.width) (hy : y < g.height)
    (hU : getCell g.blocks y x = UNKNWON)
    (hM : getCell g.mines y x = MINE_FLAG) :
    sweep g x y = .ok (die g x y, (die g x y).status) ∧
    (die g x y).status = .FAILED ∧
    getCell (die g x y).blocks y x = DEAD ∧
    (∀ j < g.height, ∀ i < g.width, ¬(j = y ∧ i = x) →
      getCell (die g x y).blocks j i ≠ DEAD ∧
      (getCell g.blocks j i = MARKED → getCell g.mines j i ≠ MINE_FLAG →
        getCell (die g x y).blocks j i = WRONG) ∧
      (getCell g.blocks j i = MARKED → getCell g.mines j i = MINE_FLAG →
        getCell (die g x y).blocks j i = MARKED) ∧
      ((getCell g.blocks j i = UNKNWON ∨ getCell g.blocks j i = QUESTION) →
        getCell g.mines j i = MINE_FLAG →
        getCell (die g x y).blocks j i = MINE) ∧
      ((getCell g.blocks j i = UNKNWON ∨ getCell g.blocks j i = QUESTION) →
        getCell g.mines j i ≠ MINE_FLAG →
        getCell (die g x y).blocks j i
          = (if g.showMinesOnlyOnFailed then getCell g.blocks j i
             else getCell g.mines j i)) ∧
      (0 ≤ getCell g.blocks j i →
        getCell (die g x y).blocks j i = getCell g.blocks j i)) := by
  obtain ⟨hbs, hms, hmw, hMq, hpar, hplay, hwin⟩ := reachable_inv hR
  obtain ⟨hbw, -, -, -⟩ := hplay hst
  have hyl : y < g.blocks.length := by rw [hbs.1]; omega
  have hxl : x < (g.blocks.getD y []).length := by have := hbs.2 y hy; omega
  have hsg : sweepGo g x y = die g x y := by
    unfold sweepGo
    rw [if_neg (by simp [hst, hU]), if_pos hM]
  refine ⟨?_, rfl, ?_, ?_⟩
  · have h := sweep_coe g x y hx hy
    rw [hsg] at h
    exact h
  · rw [die_cell hbs x y y x hy hx,
      getCell_setCell_self g.blocks y x DEAD hyl hxl]
    unfold dieCell
    rw [if_neg (by decide), if_neg (by decide)]
  · intro j hj i hi hne2
    have hset : getCell (setCell g.blocks y x DEAD) j i = getCell g.blocks j i :=
      getCell_setCell_ne g.blocks y x DEAD j i hne2
    have hd := die_cell hbs x y j i hj hi
    rw [hset] at hd
    have hmv : getCell g.mines j i = MINE_FLAG ∨ 0 ≤ getCell g.mines j i := by
      rcases hmw j hj i hi with h | h
      · exact Or.inl h
      · right
        rw [h]
        exact Int.natCast_nonneg _
    refine ⟨?_, ?_, ?_, ?_, ?_, ?_⟩
    · rw [hd]
      apply dieCell_ne_dead _ _ _ hmv
      rcases hbw j hj i hi with h | h | h | ⟨h, h2⟩
      · exact Or.inl h
      · exact Or.inr (Or.inl h)
      · exact Or.inr (Or.inr (Or.inl h))
      · right
        right
        right
        rw [h]
        exact h2
    · intro hb hm
      rw [hd, hb]
      unfold dieCell
      rw [if_pos rfl, if_pos hm]
    · intro hb hm
      rw [hd, hb]
      unfold dieCell
      rw [if_pos rfl, if_neg (by simp [hm])]
    · intro hb hm
      rw [hd]
      unfold dieCell
      rcases hb with h | h <;> rw [h]
      · rw [if_neg (by decide), if_pos (Or.inr rfl), if_pos hm]
      · rw [if_neg (by decide), if_pos (Or.inl rfl), if_pos hm]
    · intro hb hm
      rw [hd]
      unfold dieCell
      by_cases hso : g.showMinesOnlyOnFailed
      · rw [if_pos hso]
        rcases hb with h | h <;> rw [h]
        · rw [if_neg (by decide), if_pos (Or.inr rfl), if_neg hm,
            if_neg (by simp [hso]), ← h]
        · rw [if_neg (by decide), if_pos (Or.inl rfl), if_neg hm,
            if_neg (by simp [hso]), ← h]
      · rw [if_neg hso]
        rcases hb with h | h <;> rw [h]
        · rw [if_neg (by decide), if_pos (Or.inr rfl), if_neg hm,
            if_pos (by simp [hso])]
        · rw [if_neg (by decide), if_pos (Or.inl rfl), if_neg hm,
            if_pos (by simp [hso])]
    · intro hge
      rw [hd]
      unfold dieCell
      rw [if_neg (by simp only [MARKED]; omega),
        if_neg (by simp only [UNKNWON, QUESTION]; push_neg; omega)]

theorem c6_witness :
    sweep testGame 0 0 = .ok (die testGame 0 0, (die testGame 0 0).status) ∧
    (die testGame 0 0).status = .FAILED ∧
    getCell (die testGame 0 0).blocks 0 0 = DEAD ∧
    (∀ j < testGame.height, ∀ i < testGame.width, ¬(j = 0 ∧ i = 0) →
      getCell (die testGame 0 0).blocks j i ≠ DEAD ∧
      (getCell testGame.blocks j i = MARKED →
        getCell testGame.mines j i ≠ MINE_FLAG →
        getCell (die testGame 0 0).blocks j i = WRONG) ∧
      (getCell testGame.blocks j i = MARKED →
        getCell testGame.mines j i = MINE_FLAG →
        getCell (die testGame 0 0).blocks j i = MARKED) ∧
      ((getCell testGame.blocks j i = UNKNWON ∨
          getCell testGame.blocks j i = QUESTION) →
        getCell testGame.mines j i = MINE_FLAG →
        getCell (die testGame 0 0).blocks j i = MINE) ∧
      ((getCell testGame.blocks j i = UNKNWON ∨
          getCell testGame.blocks j i = QUESTION) →
        getCell testGame.mines j i ≠ MINE_FLAG →
        getCell (die testGame 0 0).blocks j i
          = (if testGame.showMinesOnlyOnFailed then getCell testGame.blocks j i
             else getCell testGame.mines j i)) ∧
      (0 ≤ getCell testGame.blocks j i →
        getCell (die testGame 0 0).blocks j i = getCell testGame.blocks j i)) :=
  c6_theorem testGame_reachable 0 0 rfl (by decide) (by decide) rfl rfl

end Minesweeper
